import Mathlib

/-!
# philippta/invaders: the tick-update core of `main.go`

A shallow embedding of the simulation core of `main.go` (the `Invaders` state,
`Init`, `Update` and the seven sub-routines `Update` calls), followed by
theorems about it.

Modelling conventions.

* `float64` values are modelled by rationals `ℚ`.  Every constant of the
  program except the two enemy-bullet speeds is an integer, and `float64`
  arithmetic is exact on the small integers that occur; the speeds `1.33` and
  `1.66` are modelled by their decimal values.
* Go `int` is modelled by `Int` (counters stay far away from `2^63`); Go's `%`
  truncates towards zero and is `Int.tmod`.
* The state is passed explicitly: a method on `*Invaders` is a function from
  the state before the call to the state after it.
* A run-time panic (index or slice range out of bounds) is the result `none`.
* The environment of one `Update` call (key edges reported by `inpututil`, the
  two draws from `math/rand`) is an explicit `Input`; `rand.Intn n` is the raw
  draw reduced modulo `n`, which ranges over exactly `[0, n)`.
-/

namespace Main

/-! ## Constants -/

def paddingX : Int := 22
def paddingY : Int := 5
def spaceX : Int := 4
def spaceY : Int := 8

def shooterSpeed : Int := 1
def bulletSpeed : Int := 4
def bulletOffset : Int := 7
def enemyBulletSpeed : ℚ := 133 / 100
def enemyBulletSpeedFast : ℚ := 166 / 100

def characterCols : Int := 11
def characterRows : Int := 10
def characterWidth : Int := 12
def characterHeight : Int := 8
def shooterWidth : Int := 15

def pixelsWidth : Int := paddingX * 2 + characterCols * (12 + spaceX) - spaceX
def pixelsHeight : Int := paddingY * 2 + characterRows * (9 + spaceY)

def octopus : String := "octopus"
def crab : String := "crab"
def squid : String := "squid"
def shooter : String := "shooter"
def explosion : String := "explosion"
def bulletZap : String := "bullet_zap"
def bulletCross : String := "bullet_cross"

/-- The constant `math.MaxFloat64`, `(2^53 - 1) * 2^971`. -/
def MaxFloat64 : ℚ := (2 ^ 53 - 1) * 2 ^ 971

/-! ## Data model -/

/-- The three keys `Init` registers in `inv.keys`. -/
inductive Key where
  | KeyLeft
  | KeyRight
  | KeySpace
  deriving DecidableEq, Repr

structure Character where
  Row : Int
  Col : Int
  X : ℚ
  Y : ℚ
  character : String
  dying : Int
  deriving DecidableEq, Repr

structure Point where
  X : ℚ
  Y : ℚ
  deriving DecidableEq, Repr

structure Bullet where
  X : ℚ
  Y : ℚ
  Velo : ℚ
  character : String
  deriving DecidableEq, Repr

structure Invaders where
  step : Int
  keys : List Key
  pressed : Key → Bool
  bullets : List Point
  enemies : List Character
  enemyVelo : ℚ
  enemyBullets : List Bullet
  shooter : Character
  shooterDead : Bool
  restartWait : Int

/-- What one `Update` call reads from outside the state: the key edges of
`inpututil.IsKeyJustPressed` / `IsKeyJustReleased`, and the raw draws behind
the two `rand.Intn` calls of `updateEnemyBullets`. -/
structure Input where
  justPressed : Key → Bool
  justReleased : Key → Bool
  randEnemy : Nat
  randSprite : Nat

/-- The Go zero value `Invaders{}` on which `main` calls `Init`. -/
def Invaders.zero : Invaders :=
  { step := 0, keys := [], pressed := fun _ => false, bullets := [], enemies := [],
    enemyVelo := 0, enemyBullets := [],
    shooter := { Row := 0, Col := 0, X := 0, Y := 0, character := "", dying := 0 },
    shooterDead := false, restartWait := 0 }

/-! ## Helpers -/

def Character.Inside (c : Character) (x y : ℚ) : Bool :=
  let cx := c.X
  let cy := c.Y
  let cw : ℚ := characterWidth
  let ch : ℚ := characterHeight
  if x < cx ∨ x > cx + cw then false
  else if y < cy ∨ y > cy + ch then false
  else true

def enemyPosition (x y : Int) : ℚ × ℚ :=
  ((paddingX : ℚ) + (x : ℚ) * (12 + (spaceX : ℚ)), (paddingY : ℚ) + (y : ℚ) * (8 + (spaceY : ℚ)))

def bounds (v min max : ℚ) : ℚ :=
  if v < min then min
  else if v > max then max
  else v

/-- The call `rand.Intn n` for `n > 0`, on the raw draw `raw`. -/
def Intn (raw n : Nat) : Nat := raw % n

/-- The call `slices.Delete s i j`: drops `s[i:j]`, panics unless
`i ≤ j ≤ len s`. -/
def slicesDelete {α : Type} (s : List α) (i j : Nat) : Option (List α) :=
  if i ≤ j ∧ j ≤ s.length then some (s.take i ++ s.drop j) else none

/-! ## Init -/

def Invaders.Init (inv : Invaders) : Invaders :=
  let inv := { inv with step := 0 }
  let inv := { inv with shooterDead := false }
  let inv := { inv with restartWait := 0 }
  let inv := { inv with keys := [Key.KeyLeft, Key.KeyRight, Key.KeySpace] }
  let inv := { inv with pressed := fun _ => false }
  let inv := { inv with
    pressed := inv.keys.foldl (fun m k => Function.update m k false) inv.pressed }
  let py := (enemyPosition 0 characterRows).2
  let inv := { inv with
    shooter := { Row := 0, Col := 0,
                 X := ((pixelsWidth / 2 - characterWidth / 2 : Int) : ℚ),
                 Y := py, character := Main.shooter, dying := 0 } }
  let inv := { inv with bullets := [] }
  let inv := { inv with enemies := [] }
  let inv := { inv with
    enemies := inv.enemies ++
      ([squid, crab, crab, octopus, octopus].enum.flatMap fun yc =>
        (List.range characterCols.toNat).map fun x =>
          let p := enemyPosition x yc.1
          ({ Row := yc.1, Col := x, X := p.1, Y := p.2, character := yc.2, dying := 0 } :
            Character)) }
  let inv := { inv with enemyBullets := [] }
  { inv with enemyVelo := 2 }

/-! ## The sub-routines of Update -/

def Invaders.updateKeys (inv : Invaders) (inp : Input) : Invaders :=
  { inv with
    pressed := inv.keys.foldl
      (fun m k =>
        let m := if inp.justPressed k then Function.update m k true else m
        if inp.justReleased k then Function.update m k false else m)
      inv.pressed }

def Invaders.updateShooter (inv : Invaders) : Invaders :=
  let x := inv.shooter.X
  let x := if inv.pressed Key.KeyLeft then x - (shooterSpeed : ℚ) else x
  let x := if inv.pressed Key.KeyRight then x + (shooterSpeed : ℚ) else x
  { inv with shooter := { inv.shooter with X := bounds x 0 (pixelsWidth - shooterWidth : Int) } }

def Invaders.moveBullets (inv : Invaders) : Invaders :=
  { inv with
    bullets := inv.bullets.foldl
      (fun new b => if b.Y < 0 then new else new ++ [{ X := b.X, Y := b.Y - (bulletSpeed : ℚ) }])
      [] }

def Invaders.launchBullet (inv : Invaders) : Invaders :=
  if inv.pressed Key.KeySpace && inv.bullets.length == 0 then
    { inv with bullets := inv.bullets ++ [{ X := inv.shooter.X, Y := inv.shooter.Y }] }
  else inv

/-- The first loop of `moveEnemies`, variable `max`: the greatest right edge
`X + characterWidth` of a member, from `-math.MaxFloat64`. -/
def formationMax (enemies : List Character) : ℚ :=
  enemies.foldl (fun m enemy => Max.max (enemy.X + (characterWidth : ℚ)) m) (-MaxFloat64)

/-- The first loop of `moveEnemies`, variable `min`: the least left edge `X`
of a member, from `math.MaxFloat64`. -/
def formationMin (enemies : List Character) : ℚ :=
  enemies.foldl (fun m enemy => Min.min enemy.X m) MaxFloat64

/-- The variable `mostLeft` of `moveEnemies`. -/
def mostLeft (enemies : List Character) : Bool :=
  formationMin enemies - (paddingX : ℚ) == -16

/-- The variable `mostRight` of `moveEnemies`. -/
def mostRight (enemies : List Character) : Bool :=
  (pixelsWidth : ℚ) - (paddingX : ℚ) - formationMax enemies == -16

/-- The two `if` statements of `moveEnemies` that reassign `inv.enemyVelo`. -/
def bounceVelo (mostLeft mostRight : Bool) (velo : ℚ) : ℚ :=
  let velo := if mostLeft then (if velo = 0 then 2 else 0) else velo
  if mostRight then (if velo = 0 then -2 else 0) else velo

def Invaders.moveEnemies (inv : Invaders) : Invaders :=
  if inv.step.tmod 30 ≠ 0 then inv
  else
    let moveNextRow := mostLeft inv.enemies || mostRight inv.enemies
    let velo := bounceVelo (mostLeft inv.enemies) (mostRight inv.enemies) inv.enemyVelo
    { inv with
      enemyVelo := velo
      enemies := inv.enemies.map fun enemy =>
        let enemy := { enemy with X := enemy.X + velo }
        if moveNextRow && velo == 0 then { enemy with Y := enemy.Y + 8 } else enemy }

/-- The closure `hit` of `updateCollisions`, on the current player bullets:
the index of the first bullet whose point `(X + bulletOffset, Y)` is inside
the enemy; `none` is the result `(0, false)`. -/
def hit : List Point → Character → Option Nat
  | [], _ => none
  | bullet :: rest, enemy =>
    if enemy.Inside (bullet.X + (bulletOffset : ℚ)) bullet.Y then some 0
    else (hit rest enemy).map (· + 1)

/-- The loop of `updateCollisions` over `inv.enemies`, from the current player
bullets: the bullets left and the enemies appended to `newEnemies`. -/
def collide (step : Int) : List Point → List Character → Option (List Point × List Character)
  | bullets, [] => some (bullets, [])
  | bullets, enemy :: rest =>
    if enemy.dying = 2 then collide step bullets rest
    else
      let enemy :=
        if enemy.dying > 0 ∧ step.tmod 30 = 0 then { enemy with dying := enemy.dying + 1 }
        else enemy
      match hit bullets enemy with
      | some bullet =>
        (slicesDelete bullets bullet (bullet + 1)).bind fun bullets =>
          (collide step bullets rest).map fun r => (r.1, { enemy with dying := 1 } :: r.2)
      | none =>
        (collide step bullets rest).map fun r => (r.1, enemy :: r.2)

def Invaders.updateCollisions (inv : Invaders) : Option Invaders :=
  (collide inv.step inv.bullets inv.enemies).map fun r =>
    { inv with bullets := r.1, enemies := r.2 }

/-- The assignment `transposed[col][row] = i`; panics when an index is out of
range. -/
def setCell (transposed : List (List Int)) (col row : Int) (i : Int) : Option (List (List Int)) :=
  if 0 ≤ col ∧ col < transposed.length then
    match transposed[col.toNat]? with
    | some r =>
      if 0 ≤ row ∧ row < r.length then some (transposed.set col.toNat (r.set row.toNat i))
      else none
    | none => none
  else none

/-- The loop `for i, enemy := range enemies` of `bottomEnemies`, from index `i`. -/
def fillTransposed : List (List Int) → Nat → List Character → Option (List (List Int))
  | transposed, _, [] => some transposed
  | transposed, i, enemy :: rest =>
    (setCell transposed enemy.Col enemy.Row i).bind fun t => fillTransposed t (i + 1) rest

/-- The inner loop of `bottomEnemies` over one entry of `transposed`: the last
entry that is not `-1`, or `-1`. -/
def lastIndex (row : List Int) : Int :=
  row.foldl (fun b col => if col ≠ -1 then col else b) (-1)

/-- The loop `for _, row := range transposed` of `bottomEnemies`. -/
def collectBottom (enemies : List Character) : List (List Int) → Option (List Character)
  | [] => some []
  | row :: rest =>
    let b := lastIndex row
    if b = -1 then collectBottom enemies rest
    else
      if 0 ≤ b then
        match enemies[b.toNat]? with
        | some enemy => (collectBottom enemies rest).map fun bottom => enemy :: bottom
        | none => none
      else none

def bottomEnemies (enemies : List Character) : Option (List Character) :=
  let transposed := List.replicate characterCols.toNat (List.replicate 5 (-1 : Int))
  (fillTransposed transposed 0 enemies).bind fun transposed =>
    collectBottom enemies transposed

/-- The first part of `updateEnemyBullets`: `inv.enemyBullets` after the
spawn block. -/
def Invaders.spawnEnemyBullet (inv : Invaders) (inp : Input) : Option (List Bullet) :=
  let mod : Int := inv.enemies.length * 2 + 20
  let mod := if mod = 0 then 1 else mod
  if inv.step.tmod mod = 0 then
    (bottomEnemies inv.enemies).map fun enemies =>
      if h : enemies.length > 0 then
        let enemy := enemies.get ⟨Intn inp.randEnemy enemies.length, Nat.mod_lt _ h⟩
        let speed := if enemies.length ≤ 8 then enemyBulletSpeedFast else enemyBulletSpeed
        inv.enemyBullets ++
          [{ X := enemy.X + 4, Y := enemy.Y + 16, Velo := speed,
             character := [bulletZap, bulletCross].getD (Intn inp.randSprite 2) "" }]
      else inv.enemyBullets
  else some inv.enemyBullets

/-- The second part of `updateEnemyBullets`: the loop that builds `newBullets`. -/
def moveEnemyBullets (enemyBullets : List Bullet) : List Bullet :=
  enemyBullets.foldl
    (fun newBullets bullet =>
      let bullet := { bullet with Y := bullet.Y + bullet.Velo }
      if bullet.Y > (pixelsHeight : ℚ) then newBullets else newBullets ++ [bullet])
    []

/-- The last loop of `updateEnemyBullets`: `inv.shooterDead` after it. -/
def shooterHit (shooter : Character) (dead : Bool) (enemyBullets : List Bullet) : Bool :=
  enemyBullets.foldl
    (fun dead bullet => if shooter.Inside bullet.X bullet.Y then true else dead) dead

def Invaders.updateEnemyBullets (inv : Invaders) (inp : Input) : Option Invaders :=
  (inv.spawnEnemyBullet inp).map fun enemyBullets =>
    let newBullets := moveEnemyBullets enemyBullets
    { inv with
      enemyBullets := newBullets
      shooterDead := shooterHit inv.shooter inv.shooterDead newBullets }

/-! ## Update -/

/-- The state on which `Update` calls `updateCollisions`: the state after
`inv.step++`, `updateKeys`, `updateShooter`, `launchBullet`, `moveBullets` and
`moveEnemies`. -/
def Invaders.beforeCollisions (inv : Invaders) (inp : Input) : Invaders :=
  let inv := { inv with step := inv.step + 1 }
  let inv := inv.updateKeys inp
  let inv := inv.updateShooter
  let inv := inv.launchBullet
  let inv := inv.moveBullets
  inv.moveEnemies

def Invaders.Update (inv : Invaders) (inp : Input) : Option Invaders :=
  if inv.shooterDead then
    let inv := { inv with restartWait := inv.restartWait + 1 }
    if inv.restartWait = 120 then some inv.Init else some inv
  else
    let inv := inv.beforeCollisions inp
    inv.updateCollisions.bind fun inv => inv.updateEnemyBullets inp

/-- The state after `Update` has been called once for each input of the list,
in order, starting from `inv`. -/
def Invaders.run (inv : Invaders) : List Input → Option Invaders
  | [] => some inv
  | inp :: rest => (inv.Update inp).bind fun inv => inv.run rest

/-- The state `main` starts the game loop in. -/
def start : Invaders := Invaders.zero.Init

/-- The states reachable from `Init` by `Update` calls. -/
inductive Reachable : Invaders → Prop where
  | init : Reachable start
  | update {inv inv2 : Invaders} (inp : Input) :
      Reachable inv → inv.Update inp = some inv2 → Reachable inv2

/-! ## Predicates, invariants and concrete instances used in the statements -/

/-- No key edge, both random draws `0`. -/
def idleInput : Input :=
  { justPressed := fun _ => false, justReleased := fun _ => false, randEnemy := 0, randSprite := 0 }

/-- The fire key goes down, both random draws `0`. -/
def fireInput : Input :=
  { justPressed := fun k => decide (k = Key.KeySpace), justReleased := fun _ => false,
    randEnemy := 0, randSprite := 0 }

/-- A member without its dying-counter: what `updateCollisions` never changes. -/
def Character.body (c : Character) : Character := { c with dying := 0 }

/-- The per-member move of one `moveEnemies` call: every member is shifted by
the same `(vx, vy)`. -/
def Character.shift (vx vy : ℚ) (c : Character) : Character :=
  { c with X := c.X + vx, Y := c.Y + vy }

/-- A member's grid indices are inside the `characterCols × 5` table of
`bottomEnemies`. -/
def Character.onGrid (c : Character) : Prop :=
  0 ≤ c.Col ∧ c.Col < 11 ∧ 0 ≤ c.Row ∧ c.Row < 5

/-- Shape of the table `transposed` while `bottomEnemies` fills it from a list of
`n` members: 11 entries of 5 cells, each cell `-1` or an index below `n`. -/
def TableOK (n : Nat) (t : List (List Int)) : Prop :=
  t.length = 11 ∧ ∀ r ∈ t, r.length = 5 ∧ ∀ x ∈ r, x = -1 ∨ (0 ≤ x ∧ x < (n : Int))

/-- What holds in every state reachable from `Init`: the key list is the one
`Init` registers, there is at most one player bullet, the shooter is inside the
arena on its row, and the formation is a rigid sub-grid: every member sits at
its grid offset plus one common displacement, with distinct grid indices inside
the table of `bottomEnemies`. -/
structure Invariant (inv : Invaders) : Prop where
  keys : inv.keys = [Key.KeyLeft, Key.KeyRight, Key.KeySpace]
  bullets : inv.bullets.length ≤ 1
  shooterX : 0 ≤ inv.shooter.X ∧ inv.shooter.X ≤ 201
  shooterY : inv.shooter.Y = 165
  grid : ∀ e ∈ inv.enemies, e.onGrid
  rigid : ∃ dx dy : ℚ, ∀ e ∈ inv.enemies,
    e.X = 22 + 16 * (e.Col : ℚ) + dx ∧ e.Y = 5 + 16 * (e.Row : ℚ) + dy
  nodup : (inv.enemies.map fun e => (e.Row, e.Col)).Nodup

instance (c : Character) : Decidable c.onGrid := by
  unfold Character.onGrid
  infer_instance

/-- The left key goes down, both random draws `0`. -/
def leftInput : Input :=
  { justPressed := fun k => decide (k = Key.KeyLeft), justReleased := fun _ => false,
    randEnemy := 0, randSprite := 0 }

/-- A formation-step tick (`step = 30`) with three members of row 4: the middle
one has dying-counter 1 and the player bullet's point `(102 + 7, 73)` inside
its box `[102, 114] × [69, 77]`; its neighbours have dying-counter 0 and do not
hold the point. -/
def dyingState : Invaders :=
  { start with
    step := 30
    bullets := [⟨102, 73⟩]
    enemies := [{ Row := 4, Col := 4, X := 86, Y := 69, character := octopus, dying := 0 },
                { Row := 4, Col := 5, X := 102, Y := 69, character := octopus, dying := 1 },
                { Row := 4, Col := 6, X := 118, Y := 69, character := octopus, dying := 0 }] }

/-- A state with nine live members in two columns (column 0 complete, column 1
without its row-4 member) on a spawn tick: `step = 2 * 9 + 20 = 38`. -/
def thinState : Invaders :=
  { start with
    step := 38
    enemies := start.enemies.filter fun e =>
      decide (e.Col ≤ 1) && !(decide (e.Col = 1) && decide (e.Row = 4)) }

/-- The initial formation after `j` steps to the right. -/
def formationAt (j : Nat) : List Character :=
  start.enemies.map (Character.shift (2 * (j : ℚ)) 0)

/-- What the state after `k ≤ 129` calls looks like when fire is never held:
nothing has been shot, and the full formation has made `k / 30` steps to the
right at velocity `+2`. -/
def Quiet (k : Nat) (s : Invaders) : Prop :=
  s.step = k ∧ s.shooterDead = false ∧ s.bullets = [] ∧ s.enemyBullets = [] ∧
    s.enemyVelo = 2 ∧ s.enemies = formationAt (k / 30)

/-- The 130 inputs of a run in which no key is ever touched. -/
def idleRun : List Input := List.replicate 130 idleInput

/-- The fire key is released, both random draws `0`. -/
def releaseInput : Input :=
  { justPressed := fun _ => false, justReleased := fun k => decide (k = Key.KeySpace),
    randEnemy := 0, randSprite := 0 }

/-- A run of 31 calls in which the fire key is pressed on the first call and
released on the second: exactly one player bullet is ever launched. -/
def oneShot : List Input := fireInput :: releaseInput :: List.replicate 29 idleInput

/-- The fields of an `Invaders` state with the three tracked entries of
`pressed` spelled out, so that two states can be compared by evaluation. -/
structure Snap where
  step : Int
  keys : List Key
  pressedLeft : Bool
  pressedRight : Bool
  pressedSpace : Bool
  bullets : List Point
  enemies : List Character
  enemyVelo : ℚ
  enemyBullets : List Bullet
  shooter : Character
  shooterDead : Bool
  restartWait : Int
  deriving DecidableEq

def Invaders.snap (inv : Invaders) : Snap :=
  { step := inv.step, keys := inv.keys, pressedLeft := inv.pressed Key.KeyLeft,
    pressedRight := inv.pressed Key.KeyRight, pressedSpace := inv.pressed Key.KeySpace,
    bullets := inv.bullets, enemies := inv.enemies, enemyVelo := inv.enemyVelo,
    enemyBullets := inv.enemyBullets, shooter := inv.shooter, shooterDead := inv.shooterDead,
    restartWait := inv.restartWait }

def Snap.state (n : Snap) : Invaders :=
  { step := n.step, keys := n.keys,
    pressed := fun k =>
      match k with
      | Key.KeyLeft => n.pressedLeft
      | Key.KeyRight => n.pressedRight
      | Key.KeySpace => n.pressedSpace,
    bullets := n.bullets, enemies := n.enemies, enemyVelo := n.enemyVelo,
    enemyBullets := n.enemyBullets, shooter := n.shooter, shooterDead := n.shooterDead,
    restartWait := n.restartWait }

/-- The initial formation displaced by `(dx, dy)`, without the members whose
`(Row, Col)` is in `gone`, and with the dying-counters listed in `hurt` as
`(Row, Col, dying)`. -/
def gridAt (dx dy : ℚ) (gone : List (Int × Int)) (hurt : List (Int × Int × Int)) :
    List Character :=
  ((start.enemies.filter fun e => !gone.contains (e.Row, e.Col)).map
      (Character.shift dx dy)).map fun e =>
    match hurt.find? fun d => decide (d.1 = e.Row ∧ d.2.1 = e.Col) with
    | some d => { e with dying := d.2.2 }
    | none => e

/-- A live state of a round in `Snap` form: the shooter at `x`, the given keys
held, bullets, formation and velocity. -/
def liveSnap (step : Int) (left right space : Bool) (x : ℚ) (bullets : List Point)
    (enemyBullets : List Bullet) (enemyVelo : ℚ) (enemies : List Character) : Snap :=
  { step := step, keys := [Key.KeyLeft, Key.KeyRight, Key.KeySpace], pressedLeft := left,
    pressedRight := right, pressedSpace := space, bullets := bullets, enemies := enemies,
    enemyVelo := enemyVelo, enemyBullets := enemyBullets,
    shooter := { start.shooter with X := x }, shooterDead := false, restartWait := 0 }

/-- Checks a run against a list of checkpoints `(n, mark)`: the next `n` calls
return a state that is `mark`, and the rest of the run is checked from there. -/
def Invaders.follows (inv : Invaders) (inps : List Input) : List (Nat × Snap) → Bool
  | [] => true
  | (n, mark) :: rest =>
    match inv.run (inps.take n) with
    | some s => decide (s.snap = mark) && mark.state.follows (inps.drop n) rest
    | none => false

/-- The states of the run `oneShot` after 21, 22, ..., 31 calls. -/
def oneShotMarks : List (Nat × Snap) :=
  [(21, liveSnap 21 false false false 102 [⟨102, 81⟩] [] 2 (gridAt 0 0 [] [])),
   (1, liveSnap 22 false false false 102 [] [] 2 (gridAt 0 0 [] [(4, 5, 1)])),
   (1, liveSnap 23 false false false 102 [] [] 2 (gridAt 0 0 [] [(4, 5, 1)])),
   (1, liveSnap 24 false false false 102 [] [] 2 (gridAt 0 0 [] [(4, 5, 1)])),
   (1, liveSnap 25 false false false 102 [] [] 2 (gridAt 0 0 [] [(4, 5, 1)])),
   (1, liveSnap 26 false false false 102 [] [] 2 (gridAt 0 0 [] [(4, 5, 1)])),
   (1, liveSnap 27 false false false 102 [] [] 2 (gridAt 0 0 [] [(4, 5, 1)])),
   (1, liveSnap 28 false false false 102 [] [] 2 (gridAt 0 0 [] [(4, 5, 1)])),
   (1, liveSnap 29 false false false 102 [] [] 2 (gridAt 0 0 [] [(4, 5, 1)])),
   (1, liveSnap 30 false false false 102 [] [] 2 (gridAt 2 0 [] [(4, 5, 2)])),
   (1, liveSnap 31 false false false 102 [] [] 2 (gridAt 2 0 [(4, 5)] []))]

/-- The left key is released, both random draws `0`. -/
def leftReleaseInput : Input :=
  { justPressed := fun _ => false, justReleased := fun k => decide (k = Key.KeyLeft),
    randEnemy := 0, randSprite := 0 }

/-- A run of 56 calls: the shooter walks left for 8 calls to `x = 94`, stops,
and fires once on call 10; with `x + bulletOffset = 101` the bullet flies up
the gap between columns 4 and 5 and leaves the arena at the top. -/
def topRun : List Input :=
  leftInput :: List.replicate 7 idleInput ++
    leftReleaseInput :: fireInput :: releaseInput :: List.replicate 45 idleInput

/-- The states of the run `topRun` after 25, 50, 51 and 52 calls. -/
def topMarks : List (Nat × Snap) :=
  [(25, liveSnap 25 false false false 94 [⟨94, 101⟩] [] 2 (gridAt 0 0 [] [])),
   (25, liveSnap 50 false false false 94 [⟨94, 1⟩] [] 2 (gridAt 2 0 [] [])),
   (1, liveSnap 51 false false false 94 [⟨94, -3⟩] [] 2 (gridAt 2 0 [] [])),
   (1, liveSnap 52 false false false 94 [] [] 2 (gridAt 2 0 [] []))]

/-- A state with no formation member and one enemy bullet in flight, on a tick
with `step % 20 == 0`. -/
def emptyState : Invaders :=
  { start with
    step := 20
    enemies := []
    enemyBullets := [{ X := 26, Y := 100, Velo := enemyBulletSpeed, character := bulletZap }] }

/-- A state in which an enemy bullet is one step above the shooter's box
`[102, 114] × [165, 173]`. -/
def strikeState : Invaders :=
  { start with
    step := 1
    enemyBullets := [{ X := 105, Y := 164, Velo := enemyBulletSpeed, character := bulletZap }] }

/-- The increment of `updateCollisions` on a member it keeps: the dying-counter
advances on a formation-step tick when it is positive. -/
def advance (step : Int) (enemy : Character) : Character :=
  if enemy.dying > 0 ∧ step.tmod 30 = 0 then { enemy with dying := enemy.dying + 1 } else enemy

/-- What the loop of `updateCollisions` makes of members that are not hit: those
with dying-counter 2 are dropped, the others kept in order with the counter
advanced. -/
def survivors (step : Int) (enemies : List Character) : List Character :=
  (enemies.filter fun e => !decide (e.dying = 2)).map (advance step)

/-- The loop of `updateCollisions` with the hit test run only on the members of
column `c`; `collideFast_eq` shows it equal to `collide` when the members of the
other columns hold no bullet. -/
def collideFast (step : Int) (c : Int) :
    List Point → List Character → Option (List Point × List Character)
  | bullets, [] => some (bullets, [])
  | bullets, enemy :: rest =>
    if enemy.dying = 2 then collideFast step c bullets rest
    else
      match (if (advance step enemy).Col = c then hit bullets (advance step enemy) else none) with
      | some bullet =>
        (slicesDelete bullets bullet (bullet + 1)).bind fun bullets =>
          (collideFast step c bullets rest).map fun r =>
            (r.1, { advance step enemy with dying := 1 } :: r.2)
      | none =>
        (collideFast step c bullets rest).map fun r => (r.1, advance step enemy :: r.2)

/-- The function `updateCollisions` computed with `collideFast` when there is
exactly one player bullet: in a rigid formation the bullet's point can only be
inside a member of the one column whose 16-pixel band holds its `x`. -/
def Invaders.updateCollisionsFast (inv : Invaders) : Option Invaders :=
  match inv.bullets, inv.enemies with
  | [b], e0 :: _ =>
    (collideFast inv.step
        (Int.floor ((b.X + (bulletOffset : ℚ) - (e0.X - 16 * (e0.Col : ℚ))) / 16))
        inv.bullets inv.enemies).map fun r =>
      { inv with bullets := r.1, enemies := r.2 }
  | _, _ => inv.updateCollisions

/-- The function `Update` computed with `updateCollisionsFast`. -/
def Invaders.UpdateFast (inv : Invaders) (inp : Input) : Option Invaders :=
  if inv.shooterDead then inv.Update inp
  else (inv.beforeCollisions inp).updateCollisionsFast.bind fun inv => inv.updateEnemyBullets inp

/-- The function `run` computed with `UpdateFast`. -/
def Invaders.runFast (inv : Invaders) : List Input → Option Invaders
  | [] => some inv
  | inp :: rest => (inv.UpdateFast inp).bind fun inv => inv.runFast rest

/-- The check `follows` computed with `runFast`. -/
def Invaders.followsFast (inv : Invaders) (inps : List Input) : List (Nat × Snap) → Bool
  | [] => true
  | (n, mark) :: rest =>
    match inv.runFast (inps.take n) with
    | some s => decide (s.snap = mark) && mark.state.followsFast (inps.drop n) rest
    | none => false

/-- The right key goes down, both random draws `0`. -/
def rightInput : Input :=
  { justPressed := fun k => decide (k = Key.KeyRight), justReleased := fun _ => false,
    randEnemy := 0, randSprite := 0 }

/-- The right key is released, both random draws `0`. -/
def rightReleaseInput : Input :=
  { justPressed := fun _ => false, justReleased := fun k => decide (k = Key.KeyRight),
    randEnemy := 0, randSprite := 0 }

/-- A run of 330 calls: the shooter walks right for 89 calls to `x = 191`, stops
on call 90, and from call 98 on the fire key is held.  The five bullets that
reach the formation hit the members of column 10 from row 4 up to row 0, the
last one after the formation step of call 240. -/
def stuckRun : List Input :=
  rightInput :: List.replicate 88 idleInput ++
    rightReleaseInput :: List.replicate 7 idleInput ++
    fireInput :: List.replicate 232 idleInput

/-- The states of the run `stuckRun` after 20, 40, ..., 260, 269, 270, 271, 285,
299 and 300 calls. -/
def stuckSnap : Nat → Snap
  | 20 => liveSnap 20 false true false 122 [] [] 2 (gridAt 0 0 [] [])
  | 40 => liveSnap 40 false true false 142 [] [] 2 (gridAt 2 0 [] [])
  | 60 => liveSnap 60 false true false 162 [] [] 2 (gridAt 4 0 [] [])
  | 80 => liveSnap 80 false true false 182 [] [] 2 (gridAt 4 0 [] [])
  | 100 => liveSnap 100 false false true 191 [⟨191, 153⟩] [] 2 (gridAt 6 0 [] [])
  | 120 => liveSnap 120 false false true 191 [⟨191, 161⟩] [] 2 (gridAt 8 0 [] [(4, 10, 2)])
  | 140 => liveSnap 140 false false true 191 [⟨191, 81⟩]
      [⟨34, 10229 / 100, enemyBulletSpeed, bulletZap⟩] 2 (gridAt 8 0 [(4, 10)] [])
  | 160 => liveSnap 160 false false true 191 [⟨191, 105⟩]
      [⟨34, 12889 / 100, enemyBulletSpeed, bulletZap⟩] 2 (gridAt 10 0 [(3, 10), (4, 10)] [])
  | 180 => liveSnap 180 false false true 191 [⟨191, 145⟩]
      [⟨34, 15549 / 100, enemyBulletSpeed, bulletZap⟩] 2
      (gridAt 12 0 [(3, 10), (4, 10)] [(2, 10, 2)])
  | 200 => liveSnap 200 false false true 191 [⟨191, 65⟩] [] 2
      (gridAt 12 0 [(2, 10), (3, 10), (4, 10)] [])
  | 220 => liveSnap 220 false false true 191 [⟨191, 121⟩] [] 2
      (gridAt 14 0 [(1, 10), (2, 10), (3, 10), (4, 10)] [])
  | 240 => liveSnap 240 false false true 191 [⟨191, 41⟩] [] 2
      (gridAt 16 0 [(1, 10), (2, 10), (3, 10), (4, 10)] [])
  | 260 => liveSnap 260 false false true 191 [⟨191, 113⟩]
      [⟨42, 10761 / 100, enemyBulletSpeed, bulletZap⟩] 2
      (gridAt 16 0 [(1, 10), (2, 10), (3, 10), (4, 10)] [(0, 10, 1)])
  | 269 => liveSnap 269 false false true 191 [⟨191, 77⟩]
      [⟨42, 5979 / 50, enemyBulletSpeed, bulletZap⟩] 2
      (gridAt 16 0 [(1, 10), (2, 10), (3, 10), (4, 10)] [(0, 10, 1)])
  | 270 => liveSnap 270 false false true 191 [⟨191, 73⟩]
      [⟨42, 12091 / 100, enemyBulletSpeed, bulletZap⟩] 0
      (gridAt 16 8 [(1, 10), (2, 10), (3, 10), (4, 10)] [(0, 10, 2)])
  | 271 => liveSnap 271 false false true 191 [⟨191, 69⟩]
      [⟨42, 3056 / 25, enemyBulletSpeed, bulletZap⟩] 0
      (gridAt 16 8 [(0, 10), (1, 10), (2, 10), (3, 10), (4, 10)] [])
  | 285 => liveSnap 285 false false true 191 [⟨191, 13⟩]
      [⟨42, 7043 / 50, enemyBulletSpeed, bulletZap⟩] 0
      (gridAt 16 8 [(0, 10), (1, 10), (2, 10), (3, 10), (4, 10)] [])
  | 299 => liveSnap 299 false false true 191 [⟨191, 129⟩]
      [⟨42, 3987 / 25, enemyBulletSpeed, bulletZap⟩] 0
      (gridAt 16 8 [(0, 10), (1, 10), (2, 10), (3, 10), (4, 10)] [])
  | 300 => liveSnap 300 false false true 191 [⟨191, 125⟩]
      [⟨42, 16081 / 100, enemyBulletSpeed, bulletZap⟩] 0
      (gridAt 16 8 [(0, 10), (1, 10), (2, 10), (3, 10), (4, 10)] [])
  | _ => start.snap

/-- What the state after `k ≤ 300` calls looks like when fire is never held and
the player stays alive: no player bullet, and the full formation on its way to
the right edge (`k ≤ 269`), stopped one rank lower (`270 ≤ k ≤ 299`), or one
step back to the left (`k = 300`). -/
def March (k : Nat) (s : Invaders) : Prop :=
  s.step = k ∧ s.bullets = [] ∧
    ((k ≤ 269 ∧ s.enemyVelo = 2 ∧ s.enemies = formationAt (k / 30)) ∨
      (270 ≤ k ∧ k ≤ 299 ∧ s.enemyVelo = 0 ∧
        s.enemies = start.enemies.map (Character.shift 16 8)) ∨
      (k = 300 ∧ s.enemyVelo = -2 ∧ s.enemies = start.enemies.map (Character.shift 14 8)))

/-- The 300 inputs of a run in which no key is ever touched. -/
def bounceRun : List Input := List.replicate 300 idleInput

/-- What holds along the run `bounceRun`: the player is alive and has not moved,
no key is held, and every enemy bullet has come from column 0, far to the left
of the shooter. -/
structure Calm (s : Invaders) : Prop where
  alive : s.shooterDead = false
  shooterX : s.shooter.X = 102
  keys : s.keys = [Key.KeyLeft, Key.KeyRight, Key.KeySpace]
  pressed : ∀ k, s.pressed k = false
  left : ∀ b ∈ s.enemyBullets, b.X ≤ 42

/-- The entry `transposed[c][r]` of the table of `bottomEnemies`, when both
indices are in range. -/
def cell (transposed : List (List Int)) (c r : Nat) : Option Int :=
  transposed[c]?.bind fun row => row[r]?

/-- What the inner loop of `bottomEnemies` finds in the entry of column `c` of
the filled table: `-1` when the column has no member, and otherwise the index
of the member of the column with the greatest `Row`. -/
def RowSpec (enemies : List Character) (c : Nat) (row : List Int) : Prop :=
  (lastIndex row = -1 ∧ ∀ e ∈ enemies, e.Col ≠ (c : Int)) ∨
    ∃ (k : Nat) (e : Character), enemies[k]? = some e ∧ lastIndex row = (k : Int) ∧
      e.Col = (c : Int) ∧ ∀ e2 ∈ enemies, e2.Col = (c : Int) → e2.Row ≤ e.Row

/-- Eight members in three columns, listed out of order: column 0 up to row 2,
column 3 with rows 1 and 4, column 10 with rows 0, 1 and 2. -/
def scattered : List Character :=
  [{ Row := 1, Col := 3, X := 70, Y := 21, character := crab, dying := 0 },
   { Row := 2, Col := 10, X := 182, Y := 37, character := crab, dying := 0 },
   { Row := 0, Col := 0, X := 22, Y := 5, character := squid, dying := 0 },
   { Row := 4, Col := 3, X := 70, Y := 69, character := octopus, dying := 1 },
   { Row := 2, Col := 0, X := 22, Y := 37, character := crab, dying := 0 },
   { Row := 0, Col := 10, X := 182, Y := 5, character := squid, dying := 0 },
   { Row := 1, Col := 0, X := 22, Y := 21, character := crab, dying := 0 },
   { Row := 1, Col := 10, X := 182, Y := 21, character := crab, dying := 0 }]

/-- The formation is rigid with an even horizontal displacement and inside the
bounce margins: every member sits at its grid offset plus `(2 * n, dy)`, with
`6 ≤ X` and `X + characterWidth ≤ 210`; the velocity is one of `-2`, `0`, `2`. -/
structure Margins (inv : Invaders) : Prop where
  velo : inv.enemyVelo = -2 ∨ inv.enemyVelo = 0 ∨ inv.enemyVelo = 2
  place : ∃ (n : Int) (dy : ℚ), ∀ e ∈ inv.enemies,
    e.X = 22 + 16 * (e.Col : ℚ) + 2 * (n : ℚ) ∧ e.Y = 5 + 16 * (e.Row : ℚ) + dy ∧
    6 ≤ e.X ∧ e.X + (characterWidth : ℚ) ≤ 210

/-! ## Basic facts about the sub-routines -/

section Basics

theorem tmod_eq_zero_iff (a b : Int) : a.tmod b = 0 ↔ a % b = 0 := by
  rw [← Int.dvd_iff_tmod_eq_zero, Int.dvd_iff_emod_eq_zero]

theorem pixelsWidth_eq : pixelsWidth = 216 := by decide

theorem pixelsHeight_eq : pixelsHeight = 180 := by decide

theorem Init_eq_start (inv : Invaders) : inv.Init = start := rfl

theorem moveBullets_loop (l : List Point) (acc : List Point) :
    l.foldl (fun new b =>
        if b.Y < 0 then new else new ++ [({ X := b.X, Y := b.Y - (bulletSpeed : ℚ) } : Point)]) acc
      = acc ++ (l.filter fun b => !decide (b.Y < 0)).map
          fun b => ({ X := b.X, Y := b.Y - (bulletSpeed : ℚ) } : Point) := by
  induction l generalizing acc with
  | nil => simp
  | cons b rest ih =>
    by_cases hb : b.Y < 0
    · simp [List.foldl_cons, ih, hb]
    · simp [List.foldl_cons, ih, hb]

theorem moveBullets_bullets (inv : Invaders) :
    inv.moveBullets.bullets
      = (inv.bullets.filter fun b => !decide (b.Y < 0)).map
          fun b => ({ X := b.X, Y := b.Y - (bulletSpeed : ℚ) } : Point) := by
  simp [Invaders.moveBullets, moveBullets_loop]

theorem moveBullets_length (inv : Invaders) :
    inv.moveBullets.bullets.length ≤ inv.bullets.length := by
  rw [moveBullets_bullets, List.length_map]
  exact List.length_filter_le _ _

theorem launchBullet_length (inv : Invaders) (h : inv.bullets.length ≤ 1) :
    inv.launchBullet.bullets.length ≤ 1 := by
  unfold Invaders.launchBullet
  split
  · rename_i hc
    simp only [Bool.and_eq_true, beq_iff_eq] at hc
    simp [hc.2]
  · exact h

theorem hit_lt {bullets : List Point} {enemy : Character} {i : Nat}
    (h : hit bullets enemy = some i) : i < bullets.length := by
  induction bullets generalizing i with
  | nil => simp [hit] at h
  | cons b rest ih =>
    unfold hit at h
    split at h
    · simp at h; subst h; simp
    · cases hr : hit rest enemy with
      | none => simp [hr] at h
      | some j =>
        simp [hr] at h
        subst h
        have := ih hr
        simp; omega

theorem slicesDelete_hit {bullets : List Point} {enemy : Character} {i : Nat}
    (h : hit bullets enemy = some i) :
    slicesDelete bullets i (i + 1) = some (bullets.take i ++ bullets.drop (i + 1)) := by
  have := hit_lt h
  unfold slicesDelete
  rw [if_pos]
  omega

theorem collide_total (step : Int) (bullets : List Point) (enemies : List Character) :
    ∃ r, collide step bullets enemies = some r ∧ r.1.length ≤ bullets.length ∧
      (r.2.map Character.body).Sublist (enemies.map Character.body) := by
  induction enemies generalizing bullets with
  | nil => exact ⟨(bullets, []), rfl, le_refl _, by simp⟩
  | cons enemy rest ih =>
    unfold collide
    by_cases h2 : enemy.dying = 2
    · obtain ⟨r, hr, hl, hs⟩ := ih bullets
      refine ⟨r, by simp [h2, hr], hl, ?_⟩
      simpa using hs.cons _
    · simp only [h2, if_false]
      generalize he : (if enemy.dying > 0 ∧ step.tmod 30 = 0
        then ({ enemy with dying := enemy.dying + 1 } : Character) else enemy) = enemy2
      have hbody : enemy2.body = enemy.body := by
        subst he
        split <;> rfl
      cases hh : hit bullets enemy2 with
      | none =>
        obtain ⟨r, hr, hl, hs⟩ := ih bullets
        refine ⟨(r.1, enemy2 :: r.2), by simp [hr], hl, ?_⟩
        simp only [List.map_cons, hbody]
        exact hs.cons₂ _
      | some bi =>
        have hlt := hit_lt hh
        obtain ⟨r, hr, hl, hs⟩ := ih (bullets.take bi ++ bullets.drop (bi + 1))
        refine ⟨(r.1, { enemy2 with dying := 1 } :: r.2), ?_, ?_, ?_⟩
        · simp [slicesDelete_hit hh, hr]
        · refine le_trans hl ?_
          simp only [List.length_append, List.length_take, List.length_drop]
          omega
        · simp only [List.map_cons]
          have : ({ enemy2 with dying := 1 } : Character).body = enemy.body := by
            rw [← hbody]; rfl
          rw [this]
          exact hs.cons₂ _

theorem updateCollisions_total (inv : Invaders) :
    ∃ inv2, inv.updateCollisions = some inv2 ∧
      inv2.bullets.length ≤ inv.bullets.length ∧
      (inv2.enemies.map Character.body).Sublist (inv.enemies.map Character.body) ∧
      inv2.step = inv.step ∧ inv2.keys = inv.keys ∧ inv2.pressed = inv.pressed ∧
      inv2.enemyVelo = inv.enemyVelo ∧ inv2.enemyBullets = inv.enemyBullets ∧
      inv2.shooter = inv.shooter ∧ inv2.shooterDead = inv.shooterDead ∧
      inv2.restartWait = inv.restartWait := by
  obtain ⟨r, hr, hl, hs⟩ := collide_total inv.step inv.bullets inv.enemies
  refine ⟨{ inv with bullets := r.1, enemies := r.2 }, ?_, hl, hs,
    rfl, rfl, rfl, rfl, rfl, rfl, rfl, rfl⟩
  simp [Invaders.updateCollisions, hr]

theorem moveEnemies_shift (inv : Invaders) :
    ∃ vx vy : ℚ, inv.moveEnemies.enemies = inv.enemies.map (Character.shift vx vy) := by
  unfold Invaders.moveEnemies
  split
  · refine ⟨0, 0, ?_⟩
    have : Character.shift 0 0 = id := by
      funext c
      simp [Character.shift]
    simp [this]
  · by_cases hc : ((mostLeft inv.enemies || mostRight inv.enemies) &&
        bounceVelo (mostLeft inv.enemies) (mostRight inv.enemies) inv.enemyVelo == 0) = true
    · refine ⟨bounceVelo (mostLeft inv.enemies) (mostRight inv.enemies) inv.enemyVelo, 8, ?_⟩
      simp only [hc, if_true]
      rfl
    · refine ⟨bounceVelo (mostLeft inv.enemies) (mostRight inv.enemies) inv.enemyVelo, 0, ?_⟩
      simp only [hc]
      apply List.map_congr_left
      intro c _
      simp [Character.shift]

theorem moveEnemies_frame (inv : Invaders) :
    inv.moveEnemies.step = inv.step ∧ inv.moveEnemies.keys = inv.keys ∧
    inv.moveEnemies.pressed = inv.pressed ∧ inv.moveEnemies.bullets = inv.bullets ∧
    inv.moveEnemies.enemyBullets = inv.enemyBullets ∧ inv.moveEnemies.shooter = inv.shooter ∧
    inv.moveEnemies.shooterDead = inv.shooterDead ∧
    inv.moveEnemies.restartWait = inv.restartWait := by
  unfold Invaders.moveEnemies
  split <;> exact ⟨rfl, rfl, rfl, rfl, rfl, rfl, rfl, rfl⟩

theorem setCell_ok {n : Nat} {t : List (List Int)} {col row i : Int} (ht : TableOK n t)
    (hc : 0 ≤ col ∧ col < 11) (hr : 0 ≤ row ∧ row < 5) (hi : 0 ≤ i ∧ i < (n : Int)) :
    ∃ t2, setCell t col row i = some t2 ∧ TableOK n t2 := by
  obtain ⟨hlen, hrows⟩ := ht
  have hcn : col.toNat < t.length := by omega
  unfold setCell
  rw [if_pos (by omega)]
  rw [List.getElem?_eq_getElem hcn]
  have hmem : t[col.toNat] ∈ t := List.getElem_mem hcn
  obtain ⟨hrl, hrx⟩ := hrows _ hmem
  simp only []
  rw [if_pos (by omega)]
  refine ⟨_, rfl, by simpa using hlen, ?_⟩
  intro r hrmem
  rcases List.mem_or_eq_of_mem_set hrmem with h | h
  · exact hrows r h
  · subst h
    refine ⟨by simpa using hrl, ?_⟩
    intro x hx
    rcases List.mem_or_eq_of_mem_set hx with h | h
    · exact hrx x h
    · exact Or.inr (h ▸ hi)

theorem fillTransposed_ok {n : Nat} (enemies : List Character) (t : List (List Int)) (i : Nat)
    (ht : TableOK n t) (hg : ∀ e ∈ enemies, e.onGrid) (hn : i + enemies.length ≤ n) :
    ∃ t2, fillTransposed t i enemies = some t2 ∧ TableOK n t2 := by
  induction enemies generalizing t i with
  | nil => exact ⟨t, rfl, ht⟩
  | cons e rest ih =>
    have hge := hg e (List.mem_cons_self _ _)
    simp only [List.length_cons] at hn
    obtain ⟨t1, h1, hok1⟩ := setCell_ok (i := (i : Int)) ht ⟨hge.1, hge.2.1⟩ hge.2.2
      ⟨by omega, by omega⟩
    obtain ⟨t2, h2, hok2⟩ := ih t1 (i + 1) hok1
      (fun e he => hg e (List.mem_cons_of_mem _ he)) (by omega)
    exact ⟨t2, by simp [fillTransposed, h1, h2], hok2⟩

theorem lastIndex_loop (row : List Int) (b : Int) :
    row.foldl (fun b col => if col ≠ -1 then col else b) b = b ∨
      row.foldl (fun b col => if col ≠ -1 then col else b) b ∈ row := by
  induction row generalizing b with
  | nil => exact Or.inl rfl
  | cons x rest ih =>
    simp only [List.foldl_cons]
    rcases ih (if x ≠ -1 then x else b) with h | h
    · by_cases hx : x ≠ -1
      · rw [if_pos hx] at h ⊢
        exact Or.inr (by rw [h]; exact List.mem_cons_self _ _)
      · rw [if_neg hx] at h ⊢
        exact Or.inl h
    · exact Or.inr (List.mem_cons_of_mem _ h)

theorem lastIndex_mem (row : List Int) : lastIndex row = -1 ∨ lastIndex row ∈ row :=
  lastIndex_loop row (-1)

theorem collectBottom_ok (enemies : List Character) (t : List (List Int))
    (ht : ∀ r ∈ t, ∀ x ∈ r, x = -1 ∨ (0 ≤ x ∧ x < (enemies.length : Int))) :
    ∃ bottom, collectBottom enemies t = some bottom ∧ (∀ e ∈ bottom, e ∈ enemies) ∧
      bottom.length ≤ t.length := by
  induction t with
  | nil => exact ⟨[], rfl, by simp, le_refl _⟩
  | cons row rest ih =>
    obtain ⟨bottom, hb, hmem, hlen⟩ := ih (fun r hr => ht r (List.mem_cons_of_mem _ hr))
    unfold collectBottom
    by_cases h1 : lastIndex row = -1
    · refine ⟨bottom, by simp [h1, hb], hmem, ?_⟩
      simp only [List.length_cons]; omega
    · have hin : lastIndex row ∈ row := (lastIndex_mem row).resolve_left h1
      have hrange := (ht row (List.mem_cons_self _ _) _ hin).resolve_left h1
      have hlt : (lastIndex row).toNat < enemies.length := by omega
      refine ⟨enemies[(lastIndex row).toNat] :: bottom, ?_, ?_, ?_⟩
      · simp [h1, hrange.1, List.getElem?_eq_getElem hlt, hb]
      · intro e he
        rcases List.mem_cons.mp he with h | h
        · rw [h]; exact List.getElem_mem hlt
        · exact hmem e h
      · simp only [List.length_cons]; omega

theorem bottomEnemies_total (enemies : List Character) (hg : ∀ e ∈ enemies, e.onGrid) :
    ∃ bottom, bottomEnemies enemies = some bottom ∧ (∀ e ∈ bottom, e ∈ enemies) ∧
      bottom.length ≤ 11 := by
  have h0 : TableOK enemies.length
      (List.replicate characterCols.toNat (List.replicate 5 (-1 : Int))) := by
    refine ⟨by simp [characterCols], ?_⟩
    intro r hr
    rw [(List.mem_replicate.mp hr).2]
    refine ⟨by simp, ?_⟩
    intro x hx
    exact Or.inl (List.mem_replicate.mp hx).2
  obtain ⟨t, ht, hok⟩ := fillTransposed_ok enemies _ 0 h0 hg (by omega)
  obtain ⟨bottom, hb, hmem, hlen⟩ := collectBottom_ok enemies t (fun r hr => (hok.2 r hr).2)
  refine ⟨bottom, ?_, hmem, ?_⟩
  · unfold bottomEnemies
    simp only []
    rw [ht]
    exact hb
  · rw [hok.1] at hlen
    exact hlen

theorem spawnEnemyBullet_total (inv : Invaders) (inp : Input)
    (hg : ∀ e ∈ inv.enemies, e.onGrid) : ∃ bs, inv.spawnEnemyBullet inp = some bs := by
  obtain ⟨bottom, hb, -, -⟩ := bottomEnemies_total inv.enemies hg
  unfold Invaders.spawnEnemyBullet
  simp only [hb, Option.map_some']
  generalize (if (inv.enemies.length : Int) * 2 + 20 = 0 then (1 : Int)
    else (inv.enemies.length : Int) * 2 + 20) = m
  by_cases h : inv.step.tmod m = 0
  · rw [if_pos h]; exact ⟨_, rfl⟩
  · rw [if_neg h]; exact ⟨_, rfl⟩

theorem updateEnemyBullets_total (inv : Invaders) (inp : Input)
    (hg : ∀ e ∈ inv.enemies, e.onGrid) :
    ∃ inv2, inv.updateEnemyBullets inp = some inv2 ∧
      inv2.step = inv.step ∧ inv2.keys = inv.keys ∧ inv2.pressed = inv.pressed ∧
      inv2.bullets = inv.bullets ∧ inv2.enemies = inv.enemies ∧
      inv2.enemyVelo = inv.enemyVelo ∧ inv2.shooter = inv.shooter ∧
      inv2.restartWait = inv.restartWait := by
  obtain ⟨bs, hbs⟩ := spawnEnemyBullet_total inv inp hg
  refine ⟨{ inv with
      enemyBullets := moveEnemyBullets bs
      shooterDead := shooterHit inv.shooter inv.shooterDead (moveEnemyBullets bs) }, ?_,
    rfl, rfl, rfl, rfl, rfl, rfl, rfl, rfl⟩
  simp [Invaders.updateEnemyBullets, hbs]

theorem updateEnemyBullets_frame {inv inv2 : Invaders} {inp : Input}
    (h : inv.updateEnemyBullets inp = some inv2) :
    inv2.step = inv.step ∧ inv2.keys = inv.keys ∧ inv2.pressed = inv.pressed ∧
      inv2.bullets = inv.bullets ∧ inv2.enemies = inv.enemies ∧
      inv2.enemyVelo = inv.enemyVelo ∧ inv2.shooter = inv.shooter ∧
      inv2.restartWait = inv.restartWait := by
  unfold Invaders.updateEnemyBullets at h
  cases hs : inv.spawnEnemyBullet inp with
  | none => simp [hs] at h
  | some bs =>
    simp only [hs, Option.map_some', Option.some.injEq] at h
    subst h
    exact ⟨rfl, rfl, rfl, rfl, rfl, rfl, rfl, rfl⟩

theorem bounds_mem (v lo hi : ℚ) (h : lo ≤ hi) : lo ≤ bounds v lo hi ∧ bounds v lo hi ≤ hi := by
  unfold bounds
  split
  · exact ⟨le_refl _, h⟩
  · split
    · exact ⟨h, le_refl _⟩
    · constructor <;> linarith

theorem updateShooter_X (inv : Invaders) :
    0 ≤ inv.updateShooter.shooter.X ∧ inv.updateShooter.shooter.X ≤ 201 := by
  have h := bounds_mem
    ((fun x => if inv.pressed Key.KeyRight then x + (shooterSpeed : ℚ) else x)
      (if inv.pressed Key.KeyLeft then inv.shooter.X - (shooterSpeed : ℚ) else inv.shooter.X))
    0 ((pixelsWidth - shooterWidth : Int) : ℚ) (by norm_num [pixelsWidth_eq, shooterWidth])
  have h201 : ((pixelsWidth - shooterWidth : Int) : ℚ) = 201 := by
    norm_num [pixelsWidth_eq, shooterWidth]
  rw [h201] at h
  exact h

theorem body_sublist_mem {l2 l : List Character}
    (h : (l2.map Character.body).Sublist (l.map Character.body)) {e2 : Character}
    (he : e2 ∈ l2) : ∃ e ∈ l, e.body = e2.body := by
  have h1 : e2.body ∈ l2.map Character.body := List.mem_map_of_mem _ he
  obtain ⟨e, hel, hee⟩ := List.mem_map.mp (h.subset h1)
  exact ⟨e, hel, hee⟩

theorem body_fields {e e2 : Character} (h : e.body = e2.body) :
    e.Row = e2.Row ∧ e.Col = e2.Col ∧ e.X = e2.X ∧ e.Y = e2.Y ∧ e.character = e2.character := by
  simp only [Character.body, Character.mk.injEq] at h
  exact ⟨h.1, h.2.1, h.2.2.1, h.2.2.2.1, h.2.2.2.2.1⟩

/-- The state `beforeCollisions` reaches, field by field. -/
theorem beforeCollisions_frame (inv : Invaders) (inp : Input) :
    (inv.beforeCollisions inp).step = inv.step + 1 ∧
    (inv.beforeCollisions inp).keys = inv.keys ∧
    (inv.beforeCollisions inp).pressed = (inv.updateKeys inp).pressed ∧
    (inv.beforeCollisions inp).enemyBullets = inv.enemyBullets ∧
    (inv.beforeCollisions inp).shooterDead = inv.shooterDead ∧
    (inv.beforeCollisions inp).restartWait = inv.restartWait ∧
    (inv.beforeCollisions inp).shooter.Y = inv.shooter.Y ∧
    (0 ≤ (inv.beforeCollisions inp).shooter.X ∧ (inv.beforeCollisions inp).shooter.X ≤ 201) ∧
    ((inv.bullets.length ≤ 1) → (inv.beforeCollisions inp).bullets.length ≤ 1) ∧
    ∃ vx vy : ℚ, (inv.beforeCollisions inp).enemies = inv.enemies.map (Character.shift vx vy) := by
  unfold Invaders.beforeCollisions
  simp only []
  generalize hA : ({ inv with step := inv.step + 1 } : Invaders).updateKeys inp = A
  have hA1 : A.step = inv.step + 1 ∧ A.keys = inv.keys ∧ A.pressed = (inv.updateKeys inp).pressed ∧
      A.bullets = inv.bullets ∧ A.enemies = inv.enemies ∧ A.enemyBullets = inv.enemyBullets ∧
      A.shooter = inv.shooter ∧ A.shooterDead = inv.shooterDead ∧
      A.restartWait = inv.restartWait := by
    subst hA
    exact ⟨rfl, rfl, rfl, rfl, rfl, rfl, rfl, rfl, rfl⟩
  obtain ⟨a1, a2, a3, a4, a5, a6, a7, a8, a9⟩ := hA1
  have hX := updateShooter_X A
  generalize hB : A.updateShooter = B at hX
  have hB1 : B.step = A.step ∧ B.keys = A.keys ∧ B.pressed = A.pressed ∧
      B.bullets = A.bullets ∧ B.enemies = A.enemies ∧ B.enemyBullets = A.enemyBullets ∧
      B.shooter.Y = A.shooter.Y ∧ B.shooterDead = A.shooterDead ∧
      B.restartWait = A.restartWait := by
    subst hB
    exact ⟨rfl, rfl, rfl, rfl, rfl, rfl, rfl, rfl, rfl⟩
  obtain ⟨b1, b2, b3, b4, b5, b6, b7, b8, b9⟩ := hB1
  have hL := launchBullet_length B
  generalize hC : B.launchBullet = C at hL
  have hC1 : C.step = B.step ∧ C.keys = B.keys ∧ C.pressed = B.pressed ∧
      C.enemies = B.enemies ∧ C.enemyBullets = B.enemyBullets ∧
      C.shooter = B.shooter ∧ C.shooterDead = B.shooterDead ∧
      C.restartWait = B.restartWait := by
    subst hC
    unfold Invaders.launchBullet
    split <;> exact ⟨rfl, rfl, rfl, rfl, rfl, rfl, rfl, rfl⟩
  obtain ⟨c1, c2, c3, c5, c6, c7, c8, c9⟩ := hC1
  have hM := moveBullets_length C
  generalize hD : C.moveBullets = D at hM
  have hD1 : D.step = C.step ∧ D.keys = C.keys ∧ D.pressed = C.pressed ∧
      D.enemies = C.enemies ∧ D.enemyBullets = C.enemyBullets ∧
      D.shooter = C.shooter ∧ D.shooterDead = C.shooterDead ∧
      D.restartWait = C.restartWait := by
    subst hD
    exact ⟨rfl, rfl, rfl, rfl, rfl, rfl, rfl, rfl⟩
  obtain ⟨d1, d2, d3, d5, d6, d7, d8, d9⟩ := hD1
  obtain ⟨e1, e2, e3, e4, e6, e7, e8, e9⟩ := moveEnemies_frame D
  obtain ⟨vx, vy, hv⟩ := moveEnemies_shift D
  refine ⟨by rw [e1, d1, c1, b1, a1], by rw [e2, d2, c2, b2, a2], by rw [e3, d3, c3, b3, a3],
    by rw [e6, d6, c6, b6, a6], by rw [e8, d8, c8, b8, a8], by rw [e9, d9, c9, b9, a9],
    by rw [e7, d7, c7, b7, a7], by rw [e7, d7, c7]; exact hX, ?_, vx, vy,
    by rw [hv, d5, c5, b5, a5]⟩
  intro h
  rw [e4]
  exact le_trans hM (hL (by rw [b4, a4]; exact h))

end Basics

/-! ## The invariant of the reachable states -/

section InvariantProofs

theorem invariant_start : Invariant start where
  keys := rfl
  bullets := by decide
  shooterX := by decide!
  shooterY := by decide!
  grid := by decide!
  rigid := ⟨0, 0, by decide!⟩
  nodup := by decide!

theorem invariant_beforeCollisions {inv : Invaders} (h : Invariant inv) (inp : Input) :
    Invariant (inv.beforeCollisions inp) := by
  obtain ⟨-, f2, -, -, -, -, f7, f8, f9, vx, vy, hv⟩ := beforeCollisions_frame inv inp
  obtain ⟨dx, dy, hr⟩ := h.rigid
  refine ⟨f2.trans h.keys, f9 h.bullets, f8, f7.trans h.shooterY, ?_, ⟨dx + vx, dy + vy, ?_⟩, ?_⟩
  · intro e he
    rw [hv] at he
    obtain ⟨e0, he0, rfl⟩ := List.mem_map.mp he
    exact h.grid e0 he0
  · intro e he
    rw [hv] at he
    obtain ⟨e0, he0, rfl⟩ := List.mem_map.mp he
    obtain ⟨hx, hy⟩ := hr e0 he0
    simp only [Character.shift]
    constructor
    · rw [hx]; ring
    · rw [hy]; ring
  · rw [hv, List.map_map]
    exact h.nodup

theorem invariant_updateCollisions {inv inv2 : Invaders} (h : Invariant inv)
    (hu : inv.updateCollisions = some inv2) : Invariant inv2 := by
  obtain ⟨inv3, h3, hb, hs, -, hk, -, -, -, hsh, -, -⟩ := updateCollisions_total inv
  rw [hu] at h3
  cases h3
  obtain ⟨dx, dy, hr⟩ := h.rigid
  refine ⟨hk.trans h.keys, le_trans hb h.bullets, hsh ▸ h.shooterX, hsh ▸ h.shooterY, ?_,
    ⟨dx, dy, ?_⟩, ?_⟩
  · intro e he
    obtain ⟨e0, he0, hbody⟩ := body_sublist_mem hs he
    obtain ⟨b1, b2, -, -, -⟩ := body_fields hbody
    have := h.grid e0 he0
    unfold Character.onGrid at this ⊢
    rw [← b1, ← b2]
    exact this
  · intro e he
    obtain ⟨e0, he0, hbody⟩ := body_sublist_mem hs he
    obtain ⟨b1, b2, b3, b4, -⟩ := body_fields hbody
    rw [← b1, ← b2, ← b3, ← b4]
    exact hr e0 he0
  · have hmap : ∀ l : List Character, (l.map fun e => (e.Row, e.Col))
        = (l.map Character.body).map fun e => (e.Row, e.Col) := by
      intro l
      rw [List.map_map]
      rfl
    rw [hmap]
    refine List.Nodup.sublist (hs.map _) ?_
    rw [← hmap]
    exact h.nodup

theorem invariant_updateEnemyBullets {inv inv2 : Invaders} {inp : Input} (h : Invariant inv)
    (hu : inv.updateEnemyBullets inp = some inv2) : Invariant inv2 := by
  obtain ⟨-, f2, -, f4, f5, -, f7, -⟩ := updateEnemyBullets_frame hu
  exact ⟨f2.trans h.keys, f4 ▸ h.bullets, f7 ▸ h.shooterX, f7 ▸ h.shooterY, f5 ▸ h.grid,
    f5 ▸ h.rigid, f5 ▸ h.nodup⟩

theorem invariant_update {inv inv2 : Invaders} {inp : Input} (h : Invariant inv)
    (hu : inv.Update inp = some inv2) : Invariant inv2 := by
  unfold Invaders.Update at hu
  by_cases hd : inv.shooterDead = true
  · simp only [hd, if_true] at hu
    by_cases h120 : inv.restartWait + 1 = 120
    · simp only [h120, if_true, Option.some.injEq] at hu
      rw [← hu, Init_eq_start]
      exact invariant_start
    · simp only [h120, if_false, Option.some.injEq] at hu
      rw [← hu]
      exact ⟨h.keys, h.bullets, h.shooterX, h.shooterY, h.grid, h.rigid, h.nodup⟩
  · simp only [hd] at hu
    cases hc : (inv.beforeCollisions inp).updateCollisions with
    | none => simp [hc] at hu
    | some mid =>
      simp only [hc, Option.some_bind] at hu
      exact invariant_updateEnemyBullets
        (invariant_updateCollisions (invariant_beforeCollisions h inp) hc) hu

theorem reachable_invariant {inv : Invaders} (h : Reachable inv) : Invariant inv := by
  induction h with
  | init => exact invariant_start
  | update inp _ hu ih => exact invariant_update ih hu

/-- On a state that satisfies the invariant `Update` does not panic. -/
theorem invariant_update_total {inv : Invaders} (h : Invariant inv) (inp : Input) :
    ∃ inv2, inv.Update inp = some inv2 := by
  unfold Invaders.Update
  by_cases hd : inv.shooterDead = true
  · simp only [hd, if_true]
    split <;> exact ⟨_, rfl⟩
  · simp only [hd]
    obtain ⟨mid, hmid, -⟩ := updateCollisions_total (inv.beforeCollisions inp)
    have hI := invariant_updateCollisions (invariant_beforeCollisions h inp) hmid
    obtain ⟨inv2, h2, -⟩ := updateEnemyBullets_total mid inp hI.grid
    exact ⟨inv2, by simp [hmid, h2]⟩

end InvariantProofs

/-! ## The formation cannot touch both edges -/

section Formation

theorem formationMin_loop (l : List Character) (m : ℚ) :
    l.foldl (fun m enemy => Min.min enemy.X m) m = m ∨
      ∃ e ∈ l, l.foldl (fun m enemy => Min.min enemy.X m) m = e.X := by
  induction l generalizing m with
  | nil => exact Or.inl rfl
  | cons x rest ih =>
    simp only [List.foldl_cons]
    rcases ih (Min.min x.X m) with h | ⟨e, he, h⟩
    · rcases min_choice x.X m with hc | hc
      · exact Or.inr ⟨x, List.mem_cons_self _ _, by rw [h, hc]⟩
      · exact Or.inl (by rw [h, hc])
    · exact Or.inr ⟨e, List.mem_cons_of_mem _ he, h⟩

theorem formationMax_loop (l : List Character) (m : ℚ) :
    l.foldl (fun m enemy => Max.max (enemy.X + (characterWidth : ℚ)) m) m = m ∨
      ∃ e ∈ l, l.foldl (fun m enemy => Max.max (enemy.X + (characterWidth : ℚ)) m) m
        = e.X + (characterWidth : ℚ) := by
  induction l generalizing m with
  | nil => exact Or.inl rfl
  | cons x rest ih =>
    simp only [List.foldl_cons]
    rcases ih (Max.max (x.X + (characterWidth : ℚ)) m) with h | ⟨e, he, h⟩
    · rcases max_choice (x.X + (characterWidth : ℚ)) m with hc | hc
      · exact Or.inr ⟨x, List.mem_cons_self _ _, by rw [h, hc]⟩
      · exact Or.inl (by rw [h, hc])
    · exact Or.inr ⟨e, List.mem_cons_of_mem _ he, h⟩

theorem MaxFloat64_big : (1000 : ℚ) < MaxFloat64 := by
  unfold MaxFloat64
  norm_num

/-- On a left-edge contact some member has `X = 6`. -/
theorem mostLeft_member {l : List Character} (h : mostLeft l = true) : ∃ e ∈ l, e.X = 6 := by
  unfold mostLeft at h
  have h6 : formationMin l = 6 := by
    have := eq_of_beq h
    simp only [paddingX] at this
    push_cast at this
    linarith
  unfold formationMin at h6
  rcases formationMin_loop l MaxFloat64 with hm | ⟨e, he, hm⟩
  · have := MaxFloat64_big
    rw [hm] at h6
    linarith
  · exact ⟨e, he, by rw [← hm, h6]⟩

/-- On a right-edge contact some member has `X + characterWidth = 210`. -/
theorem mostRight_member {l : List Character} (h : mostRight l = true) :
    ∃ e ∈ l, e.X = 198 := by
  unfold mostRight at h
  have h210 : formationMax l = 210 := by
    have := eq_of_beq h
    rw [pixelsWidth_eq] at this
    simp only [paddingX] at this
    push_cast at this
    linarith
  unfold formationMax at h210
  rcases formationMax_loop l (-MaxFloat64) with hm | ⟨e, he, hm⟩
  · have := MaxFloat64_big
    rw [hm] at h210
    linarith
  · refine ⟨e, he, ?_⟩
    rw [hm] at h210
    simp only [characterWidth] at h210
    push_cast at h210
    linarith

/-- In a rigid formation on the 11-column grid the two edge tests of
`moveEnemies` never hold together. -/
theorem invariant_not_both_edges {inv : Invaders} (h : Invariant inv) :
    ¬ (mostLeft inv.enemies = true ∧ mostRight inv.enemies = true) := by
  rintro ⟨hl, hr⟩
  obtain ⟨e1, he1, hx1⟩ := mostLeft_member hl
  obtain ⟨e2, he2, hx2⟩ := mostRight_member hr
  obtain ⟨dx, dy, hrig⟩ := h.rigid
  have g1 := h.grid e1 he1
  have g2 := h.grid e2 he2
  have r1 := (hrig e1 he1).1
  have r2 := (hrig e2 he2).1
  have c1 : (0 : ℚ) ≤ (e1.Col : ℚ) := by exact_mod_cast g1.1
  have c2 : (e2.Col : ℚ) < 11 := by exact_mod_cast g2.2.1
  linarith

theorem launchBullet_frame (inv : Invaders) :
    inv.launchBullet.step = inv.step ∧ inv.launchBullet.enemies = inv.enemies ∧
    inv.launchBullet.enemyVelo = inv.enemyVelo := by
  unfold Invaders.launchBullet
  split <;> exact ⟨rfl, rfl, rfl⟩

/-- The state `beforeCollisions` reaches is `moveEnemies` applied to a state with
the incremented step and the formation of the state before the call. -/
theorem beforeCollisions_eq (inv : Invaders) (inp : Input) :
    ∃ D : Invaders, inv.beforeCollisions inp = D.moveEnemies ∧ D.step = inv.step + 1 ∧
      D.enemies = inv.enemies ∧ D.enemyVelo = inv.enemyVelo := by
  refine ⟨_, rfl, ?_, ?_, ?_⟩
  · exact (launchBullet_frame _).1
  · exact (launchBullet_frame _).2.1
  · exact (launchBullet_frame _).2.2

theorem moveEnemies_velo (inv : Invaders) :
    inv.moveEnemies.enemyVelo = inv.enemyVelo ∨
      inv.moveEnemies.enemyVelo
        = bounceVelo (mostLeft inv.enemies) (mostRight inv.enemies) inv.enemyVelo := by
  unfold Invaders.moveEnemies
  split
  · exact Or.inl rfl
  · exact Or.inr rfl

/-- With at most one edge in contact, `bounceVelo` keeps a nonzero velocity or
sets it to 0. -/
theorem bounceVelo_nonzero (l r : Bool) (v : ℚ) (h : ¬ (l = true ∧ r = true)) (hv : v ≠ 0) :
    bounceVelo l r v = v ∨ bounceVelo l r v = 0 := by
  unfold bounceVelo
  cases l <;> cases r <;> simp [hv] at h ⊢

theorem Update_dead {inv : Invaders} (inp : Input) (hd : inv.shooterDead = true) :
    inv.Update inp = some (if inv.restartWait + 1 = 120 then start
      else { inv with restartWait := inv.restartWait + 1 }) := by
  unfold Invaders.Update
  simp only [hd, if_true]
  split
  · rw [Init_eq_start]
  · rfl

/-- With at most one edge in contact, `bounceVelo` never turns `+2` into `-2`
or `-2` into `+2`. -/
theorem bounceVelo_no_jump (l r : Bool) (v : ℚ) (h : ¬ (l = true ∧ r = true)) :
    ¬ (v = 2 ∧ bounceVelo l r v = -2) ∧ ¬ (v = -2 ∧ bounceVelo l r v = 2) := by
  unfold bounceVelo
  cases l <;> cases r <;> simp at h ⊢ <;> constructor <;> intro hv <;> subst hv <;> norm_num

theorem Update_alive_velo {inv inv2 : Invaders} {inp : Input}
    (hd : inv.shooterDead = false) (hu : inv.Update inp = some inv2) :
    inv2.enemyVelo = inv.enemyVelo ∨
      inv2.enemyVelo = bounceVelo (mostLeft inv.enemies) (mostRight inv.enemies) inv.enemyVelo := by
  unfold Invaders.Update at hu
  simp only [hd] at hu
  obtain ⟨mid, hmid, -, -, -, -, -, hv, -⟩ := updateCollisions_total (inv.beforeCollisions inp)
  simp only [hmid, Option.some_bind] at hu
  obtain ⟨-, -, -, -, -, hv2, -, -⟩ := updateEnemyBullets_frame hu
  obtain ⟨D, hD, -, hDe, hDv⟩ := beforeCollisions_eq inv inp
  have := moveEnemies_velo D
  rw [← hD, hDe, hDv] at this
  rw [hv2, hv]
  exact this

end Formation

/-! ## Claims -/

/-- C1: in every state reachable from `Init` by `Update` calls, whatever keys
are held and whatever the random draws, the player-bullet list has length 0 or
1; and `launchBullet` changes nothing in a state that already has a live bullet,
also with fire held. -/
theorem C1_single_bullet (inv : Invaders) (h : Reachable inv) :
    (inv.bullets.length = 0 ∨ inv.bullets.length = 1) ∧
      ∀ s : Invaders, s.bullets.length ≠ 0 → s.launchBullet = s := by
  constructor
  · have := (reachable_invariant h).bullets
    omega
  · intro s hs
    unfold Invaders.launchBullet
    simp [hs]

/-- Instance of C1: the state after one `Update` with the fire key going down
is reachable and has exactly one player bullet. -/
theorem C1_single_bullet_witness :
    ∃ inv, start.Update fireInput = some inv ∧ inv.bullets.length = 1 ∧
      ((inv.bullets.length = 0 ∨ inv.bullets.length = 1) ∧
        ∀ s : Invaders, s.bullets.length ≠ 0 → s.launchBullet = s) := by
  have h1 : ((start.Update fireInput).map fun s => s.bullets.length) = some 1 := by decide!
  cases h : start.Update fireInput with
  | none => rw [h] at h1; simp at h1
  | some inv =>
    rw [h] at h1
    simp only [Option.map_some', Option.some.injEq] at h1
    exact ⟨inv, rfl, h1, C1_single_bullet inv (Reachable.update fireInput Reachable.init h)⟩

/-- C2: in every state reachable from `Init` by `Update` calls the player's x
satisfies `0 ≤ shooter.X ≤ pixelsWidth - shooterWidth`, that bound is 201, and
the initial state has `shooter.X = 102`. -/
theorem C2_shooter_clamp (inv : Invaders) (h : Reachable inv) :
    (0 ≤ inv.shooter.X ∧ inv.shooter.X ≤ ((pixelsWidth - shooterWidth : Int) : ℚ)) ∧
      pixelsWidth - shooterWidth = 201 ∧ start.shooter.X = 102 := by
  have h201 : pixelsWidth - shooterWidth = 201 := by decide
  refine ⟨?_, h201, by decide!⟩
  rw [h201]
  have := (reachable_invariant h).shooterX
  push_cast
  exact this

/-- Instance of C2: after one `Update` with the left key going down the shooter
stands at x = 101, inside the bounds. -/
theorem C2_shooter_clamp_witness :
    ∃ inv, start.Update leftInput = some inv ∧ inv.shooter.X = 101 ∧
      ((0 ≤ inv.shooter.X ∧ inv.shooter.X ≤ ((pixelsWidth - shooterWidth : Int) : ℚ)) ∧
        pixelsWidth - shooterWidth = 201 ∧ start.shooter.X = 102) := by
  have h1 : ((start.Update leftInput).map fun s => s.shooter.X) = some 101 := by decide!
  cases h : start.Update leftInput with
  | none => rw [h] at h1; simp at h1
  | some inv =>
    rw [h] at h1
    simp only [Option.map_some', Option.some.injEq] at h1
    exact ⟨inv, rfl, h1, C2_shooter_clamp inv (Reachable.update leftInput Reachable.init h)⟩

/-- C3: from a reachable state, an `Update` call that does not start a new round
(it is not the call that runs `Init` after the restart wait) never takes
`enemyVelo` from `+2` to `-2` or from `-2` to `+2`: a nonzero velocity is kept
or becomes 0, so a sign change passes through a state with velocity 0.  The
reason is that in a reachable state the left-edge and right-edge tests of
`moveEnemies` never both hold. -/
theorem C3_no_direct_reversal (inv inv2 : Invaders) (inp : Input) (h : Reachable inv)
    (hround : ¬ (inv.shooterDead = true ∧ inv.restartWait + 1 = 120))
    (hu : inv.Update inp = some inv2) :
    ¬ (inv.enemyVelo = 2 ∧ inv2.enemyVelo = -2) ∧ ¬ (inv.enemyVelo = -2 ∧ inv2.enemyVelo = 2) ∧
      (inv.enemyVelo ≠ 0 → inv2.enemyVelo = inv.enemyVelo ∨ inv2.enemyVelo = 0) ∧
      ¬ (mostLeft inv.enemies = true ∧ mostRight inv.enemies = true) := by
  have hedges := invariant_not_both_edges (reachable_invariant h)
  have hkeep : inv.enemyVelo ≠ 0 → inv2.enemyVelo = inv.enemyVelo ∨ inv2.enemyVelo = 0 := by
    intro hv
    by_cases hd : inv.shooterDead = true
    · have h120 : ¬ inv.restartWait + 1 = 120 := fun h120 => hround ⟨hd, h120⟩
      rw [Update_dead inp hd, if_neg h120] at hu
      simp only [Option.some.injEq] at hu
      rw [← hu]
      exact Or.inl rfl
    · have hd2 : inv.shooterDead = false := by simpa using hd
      rcases Update_alive_velo hd2 hu with he | he
      · exact Or.inl he
      · rw [he]
        exact bounceVelo_nonzero _ _ _ hedges hv
  refine ⟨?_, ?_, hkeep, hedges⟩
  · rintro ⟨h1, h2⟩
    rcases hkeep (by rw [h1]; norm_num) with h3 | h3 <;> simp only [h2, h1] at h3 <;>
      norm_num at h3
  · rintro ⟨h1, h2⟩
    rcases hkeep (by rw [h1]; norm_num) with h3 | h3 <;> simp only [h2, h1] at h3 <;>
      norm_num at h3

/-- Instance of C3: the first `Update` from the initial state, with no key
pressed. -/
theorem C3_no_direct_reversal_witness :
    ∃ inv2, start.Update idleInput = some inv2 ∧
      (¬ (start.enemyVelo = 2 ∧ inv2.enemyVelo = -2) ∧
        ¬ (start.enemyVelo = -2 ∧ inv2.enemyVelo = 2) ∧
        (start.enemyVelo ≠ 0 → inv2.enemyVelo = start.enemyVelo ∨ inv2.enemyVelo = 0) ∧
        ¬ (mostLeft start.enemies = true ∧ mostRight start.enemies = true)) := by
  obtain ⟨inv2, h2⟩ := invariant_update_total invariant_start idleInput
  exact ⟨inv2, h2, C3_no_direct_reversal start inv2 idleInput Reachable.init
    (fun hc => absurd hc.1 (by decide)) h2⟩

theorem run_append (inv : Invaders) (a b : List Input) :
    inv.run (a ++ b) = (inv.run a).bind fun s => s.run b := by
  induction a generalizing inv with
  | nil => rfl
  | cons x rest ih =>
    simp only [List.cons_append, Invaders.run]
    cases inv.Update x with
    | none => rfl
    | some s => simp [ih]

theorem run_dead (inps : List Input) (inv : Invaders) (hd : inv.shooterDead = true)
    (hw : inv.restartWait + inps.length < 120) :
    inv.run inps = some { inv with restartWait := inv.restartWait + inps.length } := by
  induction inps generalizing inv with
  | nil => simp [Invaders.run]
  | cons x rest ih =>
    simp only [List.length_cons, Nat.cast_add, Nat.cast_one] at hw
    have hne : ¬ inv.restartWait + 1 = 120 := by
      have : (0 : Int) ≤ (rest.length : Int) := Int.natCast_nonneg _
      omega
    simp only [Invaders.run, Update_dead x hd, hne, if_false, Option.some_bind]
    rw [ih { inv with restartWait := inv.restartWait + 1 } hd (by simp only []; omega)]
    simp only [List.length_cons, Nat.cast_add, Nat.cast_one]
    congr 2
    ring

/-- C6: from any state with `shooterDead` true and `restartWait = 0`, whatever
the inputs, the first 119 `Update` calls only count `restartWait` up, and after
exactly 120 calls the whole state is the state `Init` produces on a fresh
`Invaders` value; `Init` gives that state on every state it is called on. -/
theorem C6_respawn_cycle (inv : Invaders) (inps : List Input) (hd : inv.shooterDead = true)
    (hw : inv.restartWait = 0) (hl : inps.length = 120) :
    inv.run inps = some Invaders.zero.Init ∧
      (∀ k : Nat, k < 120 → inv.run (inps.take k) = some { inv with restartWait := k }) ∧
      ∀ a : Invaders, a.Init = Invaders.zero.Init := by
  have hk : ∀ k : Nat, k < 120 → inv.run (inps.take k) = some { inv with restartWait := k } := by
    intro k hk
    have hlen : (inps.take k).length = k := by
      rw [List.length_take]; omega
    rw [run_dead _ inv hd (by rw [hw, hlen]; omega), hw, hlen]
    simp
  refine ⟨?_, hk, fun a => Init_eq_start a⟩
  rw [← List.take_append_drop 119 inps, run_append, hk 119 (by omega)]
  simp only [Option.some_bind]
  have hdrop : (inps.drop 119).length = 1 := by
    rw [List.length_drop]; omega
  obtain ⟨x, hx⟩ := List.length_eq_one.mp hdrop
  rw [hx]
  simp only [Invaders.run]
  rw [Update_dead x (by exact hd)]
  simp only [Nat.cast_ofNat]
  norm_num
  rfl

/-- Instance of C6: the initial state with the death flag set, and 120 calls
with the fire key going down. -/
theorem C6_respawn_cycle_witness :
    ({ start with shooterDead := true } : Invaders).run (List.replicate 120 fireInput)
        = some Invaders.zero.Init ∧
      (∀ k : Nat, k < 120 →
        ({ start with shooterDead := true } : Invaders).run
            ((List.replicate 120 fireInput).take k)
          = some { ({ start with shooterDead := true } : Invaders) with restartWait := k }) ∧
      ∀ a : Invaders, a.Init = Invaders.zero.Init :=
  C6_respawn_cycle { start with shooterDead := true } (List.replicate 120 fireInput) rfl rfl
    (by simp)

/-- C7: in a state with `shooterDead` true and `restartWait + 1 ≠ 120`, one
`Update` call returns the same state with `restartWait` increased by 1: `step`,
`keys`, `pressed`, `bullets`, `enemies`, `enemyVelo`, `enemyBullets`, `shooter`
and `shooterDead` are unchanged, whatever the input. -/
theorem C7_dead_frame (inv : Invaders) (inp : Input) (hd : inv.shooterDead = true)
    (hw : inv.restartWait + 1 ≠ 120) :
    ∃ inv2, inv.Update inp = some inv2 ∧ inv2.restartWait = inv.restartWait + 1 ∧
      inv2.step = inv.step ∧ inv2.keys = inv.keys ∧ inv2.pressed = inv.pressed ∧
      inv2.bullets = inv.bullets ∧ inv2.enemies = inv.enemies ∧
      inv2.enemyVelo = inv.enemyVelo ∧ inv2.enemyBullets = inv.enemyBullets ∧
      inv2.shooter = inv.shooter ∧ inv2.shooterDead = inv.shooterDead := by
  refine ⟨{ inv with restartWait := inv.restartWait + 1 }, ?_,
    rfl, rfl, rfl, rfl, rfl, rfl, rfl, rfl, rfl, rfl⟩
  rw [Update_dead inp hd, if_neg hw]

/-- Instance of C7: the initial state with the death flag set and a bullet in
flight, fire key going down. -/
theorem C7_dead_frame_witness :
    ∃ inv2, ({ start with shooterDead := true, bullets := [⟨102, 100⟩] } : Invaders).Update
          fireInput = some inv2 ∧
      inv2.restartWait = 0 + 1 ∧ inv2.step = 0 ∧ inv2.keys = start.keys ∧
      inv2.pressed = start.pressed ∧ inv2.bullets = [⟨102, 100⟩] ∧
      inv2.enemies = start.enemies ∧ inv2.enemyVelo = start.enemyVelo ∧
      inv2.enemyBullets = start.enemyBullets ∧ inv2.shooter = start.shooter ∧
      inv2.shooterDead = true :=
  C7_dead_frame { start with shooterDead := true, bullets := [⟨102, 100⟩] } fireInput rfl
    (by decide)

/-- C8: `pixelsWidth` is 216, and the state `Init` produces has exactly 55
formation members, one for each row `r` in 0..4 and column `c` in 0..10, in
row-major order, at `(paddingX + 16 c, paddingY + 16 r) = (22 + 16 c, 5 + 16 r)`
with dying-counter 0, no player bullet and no enemy bullet. -/
theorem C8_init_layout :
    pixelsWidth = 216 ∧ (Invaders.zero.Init).enemies.length = 55 ∧
      ((Invaders.zero.Init).enemies.map fun e => (e.Row, e.Col, e.X, e.Y, e.dying))
        = ((List.range 5).flatMap fun r => (List.range 11).map fun c =>
            ((r : Int), (c : Int), (paddingX : ℚ) + 16 * (c : ℚ), (paddingY : ℚ) + 16 * (r : ℚ),
              (0 : Int))) ∧
      (paddingX = 22 ∧ paddingY = 5) ∧
      (Invaders.zero.Init).bullets = [] ∧ (Invaders.zero.Init).enemyBullets = [] := by
  refine ⟨by decide, by decide!, by decide!, ⟨rfl, rfl⟩, rfl, rfl⟩

/-! ### C5: members with a nonzero dying-counter are hit as well -/

theorem hit_single (b : Point) (e : Character) :
    hit [b] e = if e.Inside (b.X + (bulletOffset : ℚ)) b.Y then some 0 else none := by
  unfold hit
  split
  · rfl
  · rfl

theorem collide_no_bullets (step : Int) (enemies : List Character) :
    ∃ enemies2, collide step [] enemies = some ([], enemies2) := by
  induction enemies with
  | nil => exact ⟨[], rfl⟩
  | cons e rest ih =>
    obtain ⟨r, hr⟩ := ih
    unfold collide
    by_cases h2 : e.dying = 2
    · exact ⟨r, by simp [h2, hr]⟩
    · simp only [h2, if_false, hit, hr, Option.map_some']
      exact ⟨_, rfl⟩

/-- C5 (as the code has it): `updateCollisions` applies the hit test to every
member it does not remove in this call, whatever its dying-counter.  In every
state with one player bullet whose point `(X + bulletOffset, Y)` lies inside the
box of a member `m` with dying-counter 1, and inside no member that is tested
before `m` (those before it in list order with dying-counter other than 2), the
call removes the bullet and leaves `m` in the live set with dying-counter 1,
also on a formation-step tick, where the counter was first advanced to 2. -/
theorem C5_dying_member_is_hit (inv : Invaders) (b : Point) (front back : List Character)
    (m : Character) (hb : inv.bullets = [b]) (he : inv.enemies = front ++ m :: back)
    (hm : m.dying = 1) (hin : m.Inside (b.X + (bulletOffset : ℚ)) b.Y = true)
    (hfront : ∀ e ∈ front, e.dying ≠ 2 → e.Inside (b.X + (bulletOffset : ℚ)) b.Y = false) :
    ∃ inv2 front2 back2, inv.updateCollisions = some inv2 ∧ inv2.bullets = [] ∧
      inv2.enemies = front2 ++ { m with dying := 1 } :: back2 ∧
      collide inv.step [b] front = some ([b], front2) ∧
      collide inv.step [] back = some ([], back2) := by
  obtain ⟨back2, hback⟩ := collide_no_bullets inv.step back
  have key : ∀ front : List Character,
      (∀ e ∈ front, e.dying ≠ 2 → e.Inside (b.X + (bulletOffset : ℚ)) b.Y = false) →
      ∃ front2, collide inv.step [b] (front ++ m :: back)
          = some ([], front2 ++ { m with dying := 1 } :: back2) ∧
        collide inv.step [b] front = some ([b], front2) := by
    intro front
    induction front with
    | nil =>
      intro _
      refine ⟨[], ?_, rfl⟩
      simp only [List.nil_append]
      unfold collide
      have h2 : ¬ m.dying = 2 := by rw [hm]; decide
      simp only [h2, if_false]
      have hi : ∀ d : Int, ({ m with dying := d } : Character).Inside
          (b.X + (bulletOffset : ℚ)) b.Y = true := fun _ => hin
      by_cases hs : inv.step.tmod 30 = 0
      · simp [hm, hs, hit_single, hi, slicesDelete, hback]
      · simp [hm, hs, hit_single, hin, slicesDelete, hback]
    | cons x rest ih =>
      intro hf
      obtain ⟨front2, h1, h2⟩ := ih (fun e he => hf e (List.mem_cons_of_mem _ he))
      by_cases hx : x.dying = 2
      · refine ⟨front2, ?_, ?_⟩
        · rw [List.cons_append]; unfold collide; simp only [hx, if_true]; exact h1
        · unfold collide; simp only [hx, if_true]; exact h2
      · have hxin := hf x (List.mem_cons_self _ _) hx
        by_cases hc : x.dying > 0 ∧ inv.step.tmod 30 = 0
        · have hi : ({ x with dying := x.dying + 1 } : Character).Inside
              (b.X + (bulletOffset : ℚ)) b.Y = false := hxin
          refine ⟨{ x with dying := x.dying + 1 } :: front2, ?_, ?_⟩
          · rw [List.cons_append]; unfold collide
            simp only [hx, if_false, hc, and_self, if_true, hit_single, hi, h1, Option.map_some']
            simp
          · unfold collide
            simp only [hx, if_false, hc, and_self, if_true, hit_single, hi, h2, Option.map_some']
            simp
        · refine ⟨x :: front2, ?_, ?_⟩
          · rw [List.cons_append]; unfold collide
            simp only [hx, if_false, hc, hit_single, hxin, h1, Option.map_some']
            simp
          · unfold collide
            simp only [hx, if_false, hc, hit_single, hxin, h2, Option.map_some']
            simp
  obtain ⟨front2, h1, h2⟩ := key front hfront
  refine ⟨{ inv with bullets := [], enemies := front2 ++ { m with dying := 1 } :: back2 },
    front2, back2, ?_, rfl, rfl, h2, hback⟩
  unfold Invaders.updateCollisions
  rw [hb, he, h1]
  rfl

/-- Instance of C5 at `dyingState`, the hit member being the second of the
list. -/
theorem C5_dying_member_is_hit_witness :
    ∃ inv2 front2 back2, dyingState.updateCollisions = some inv2 ∧ inv2.bullets = [] ∧
      inv2.enemies = front2 ++
        { ({ Row := 4, Col := 5, X := 102, Y := 69, character := octopus, dying := 1 } :
            Character) with dying := 1 } :: back2 ∧
      collide dyingState.step [⟨102, 73⟩]
          [{ Row := 4, Col := 4, X := 86, Y := 69, character := octopus, dying := 0 }]
        = some ([⟨102, 73⟩], front2) ∧
      collide dyingState.step []
          [{ Row := 4, Col := 6, X := 118, Y := 69, character := octopus, dying := 0 }]
        = some ([], back2) :=
  C5_dying_member_is_hit dyingState ⟨102, 73⟩
    [{ Row := 4, Col := 4, X := 86, Y := 69, character := octopus, dying := 0 }]
    [{ Row := 4, Col := 6, X := 118, Y := 69, character := octopus, dying := 0 }]
    { Row := 4, Col := 5, X := 102, Y := 69, character := octopus, dying := 1 }
    rfl rfl rfl (by decide!) (by decide!)

/-- C5 fails as stated: in `dyingState` the bullet's point is inside the box of
a member with dying-counter 1 and inside no member with dying-counter 0, yet
after `updateCollisions` the bullet is gone and that member's counter, advanced
to 2 on this tick, is back at 1; without the bullet the counter ends at 2. -/
theorem C5_counterexample :
    dyingState.bullets = [⟨102, 73⟩] ∧
      (dyingState.enemies.map fun e =>
          (e.dying, e.Inside (102 + (bulletOffset : ℚ)) 73)) = [(0, false), (1, true), (0, false)] ∧
      (dyingState.updateCollisions.map fun s => (s.bullets, s.enemies.map fun e => e.dying))
        = some ([], [0, 1, 0]) ∧
      (({ dyingState with bullets := [] } : Invaders).updateCollisions.map
          fun s => (s.bullets, s.enemies.map fun e => e.dying)) = some ([], [0, 2, 0]) := by
  refine ⟨rfl, by decide!, by decide!, by decide!⟩

/-! ### C10: the speed threshold counts front-line members -/

theorem speeds_ne : enemyBulletSpeedFast ≠ enemyBulletSpeed := by
  unfold enemyBulletSpeedFast enemyBulletSpeed
  norm_num

/-- C10 (as the code has it): whenever the spawn block of `updateEnemyBullets`
adds a bullet, the bullet is appended to `inv.enemyBullets` and its speed is
the fast constant exactly when the number of front-line members
`len(bottomEnemies(inv.enemies))` -- the local variable `enemies` of the block,
one member per column that still has a live member -- is at most 8, and the
slow constant otherwise. -/
theorem C10_speed_by_front_line (inv : Invaders) (inp : Input) (bs : List Bullet)
    (hs : inv.spawnEnemyBullet inp = some bs) (hne : bs ≠ inv.enemyBullets) :
    ∃ front b, bottomEnemies inv.enemies = some front ∧ bs = inv.enemyBullets ++ [b] ∧
      (b.Velo = enemyBulletSpeedFast ↔ front.length ≤ 8) ∧
      (b.Velo = enemyBulletSpeed ↔ ¬ front.length ≤ 8) := by
  unfold Invaders.spawnEnemyBullet at hs
  simp only [] at hs
  generalize (if (inv.enemies.length : Int) * 2 + 20 = 0 then (1 : Int)
    else (inv.enemies.length : Int) * 2 + 20) = md at hs
  by_cases hmod : inv.step.tmod md = 0
  · rw [if_pos hmod] at hs
    cases hb : bottomEnemies inv.enemies with
    | none => simp [hb] at hs
    | some front =>
      simp only [hb, Option.map_some', Option.some.injEq] at hs
      by_cases hlen : front.length > 0
      · simp only [hlen, dif_pos] at hs
        refine ⟨front, _, rfl, hs.symm, ?_, ?_⟩
        · by_cases h8 : front.length ≤ 8
          · simp [h8]
          · simp [h8, speeds_ne.symm]
        · by_cases h8 : front.length ≤ 8
          · simp [h8, speeds_ne]
          · simp [h8]
      · simp only [hlen, dif_neg, not_false_eq_true] at hs
        exact absurd hs.symm hne
  · rw [if_neg hmod] at hs
    simp only [Option.some.injEq] at hs
    exact absurd hs.symm hne

/-- Instance of C10 at the initial formation on its first spawn tick
(`step = 130`): eleven front-line members, slow bullet. -/
theorem C10_speed_by_front_line_witness :
    ∃ front b, bottomEnemies ({ start with step := 130 } : Invaders).enemies = some front ∧
      [({ X := 26, Y := 85, Velo := enemyBulletSpeed, character := bulletZap } : Bullet)]
        = ({ start with step := 130 } : Invaders).enemyBullets ++ [b] ∧
      (b.Velo = enemyBulletSpeedFast ↔ front.length ≤ 8) ∧
      (b.Velo = enemyBulletSpeed ↔ ¬ front.length ≤ 8) :=
  C10_speed_by_front_line { start with step := 130 } idleInput
    [{ X := 26, Y := 85, Velo := enemyBulletSpeed, character := bulletZap }]
    (by decide!) (by decide)

/-- C10 fails as stated: `thinState` has 9 live members, more than 8, and the
bullet `updateEnemyBullets` spawns there has the fast speed, because only 2
front-line members are counted. -/
theorem C10_counterexample :
    thinState.enemies.length = 9 ∧ ¬ thinState.enemies.length ≤ 8 ∧
      thinState.enemyBullets = [] ∧
      ((thinState.updateEnemyBullets idleInput).map fun s => s.enemyBullets.map fun b => b.Velo)
        = some [enemyBulletSpeedFast] ∧
      ((bottomEnemies thinState.enemies).map fun front => front.length) = some 2 := by
  refine ⟨by decide!, by decide!, rfl, by decide!, by decide!⟩

/-! ### C9: the first enemy bullet -/

theorem run_take_succ (inv : Invaders) (inps : List Input) (k : Nat) (h : k < inps.length) :
    inv.run (inps.take (k + 1)) = (inv.run (inps.take k)).bind fun s => s.Update inps[k] := by
  rw [List.take_succ, List.getElem?_eq_getElem h, run_append]
  congr 1
  funext s
  simp only [Option.toList, Invaders.run]
  cases s.Update inps[k] <;> rfl

theorem beforeCollisions_inactive (inv : Invaders) (inp : Input)
    (h : (inv.step + 1) % 30 ≠ 0) :
    (inv.beforeCollisions inp).enemies = inv.enemies ∧
      (inv.beforeCollisions inp).enemyVelo = inv.enemyVelo := by
  obtain ⟨D, hD, hs, he, hv⟩ := beforeCollisions_eq inv inp
  have hne : D.step.tmod 30 ≠ 0 := by
    rw [hs, Ne, tmod_eq_zero_iff]
    exact h
  rw [hD]
  unfold Invaders.moveEnemies
  rw [if_pos hne]
  exact ⟨he, hv⟩

theorem beforeCollisions_active (inv : Invaders) (inp : Input)
    (h : (inv.step + 1) % 30 = 0) :
    (inv.beforeCollisions inp).enemyVelo
        = bounceVelo (mostLeft inv.enemies) (mostRight inv.enemies) inv.enemyVelo ∧
      (inv.beforeCollisions inp).enemies
        = inv.enemies.map (Character.shift
            (bounceVelo (mostLeft inv.enemies) (mostRight inv.enemies) inv.enemyVelo)
            (if ((mostLeft inv.enemies || mostRight inv.enemies) &&
                bounceVelo (mostLeft inv.enemies) (mostRight inv.enemies) inv.enemyVelo == 0) = true
              then 8 else 0)) := by
  obtain ⟨D, hD, hs, he, hv⟩ := beforeCollisions_eq inv inp
  have heq : ¬ D.step.tmod 30 ≠ 0 := by
    rw [hs, Ne, tmod_eq_zero_iff, not_not]
    exact h
  rw [hD]
  unfold Invaders.moveEnemies
  rw [if_neg heq]
  simp only [he, hv]
  refine ⟨trivial, ?_⟩
  apply List.map_congr_left
  intro e _
  split <;> simp [Character.shift]

theorem updateShooter_frame (inv : Invaders) :
    inv.updateShooter.pressed = inv.pressed ∧ inv.updateShooter.bullets = inv.bullets :=
  ⟨rfl, rfl⟩

theorem beforeCollisions_no_fire (inv : Invaders) (inp : Input) (hb : inv.bullets = [])
    (hp : (inv.updateKeys inp).pressed Key.KeySpace = false) :
    (inv.beforeCollisions inp).bullets = [] := by
  have h4 := (moveEnemies_frame
    ((({ inv with step := inv.step + 1 } : Invaders).updateKeys inp).updateShooter.launchBullet.moveBullets)).2.2.2.1
  have hpre : inv.beforeCollisions inp
      = ((({ inv with step := inv.step + 1 } : Invaders).updateKeys inp).updateShooter.launchBullet.moveBullets).moveEnemies := rfl
  rw [hpre, h4, moveBullets_bullets]
  have hl : ((({ inv with step := inv.step + 1 } : Invaders).updateKeys inp).updateShooter.launchBullet).bullets = [] := by
    unfold Invaders.launchBullet
    have hp2 : (({ inv with step := inv.step + 1 } : Invaders).updateKeys inp).updateShooter.pressed
        Key.KeySpace = false := hp
    rw [hp2]
    exact hb
  rw [hl]
  rfl

theorem collide_unhurt (step : Int) (enemies : List Character)
    (h : ∀ e ∈ enemies, e.dying = 0) : collide step [] enemies = some ([], enemies) := by
  induction enemies with
  | nil => rfl
  | cons e rest ih =>
    have h0 := h e (List.mem_cons_self _ _)
    have hr := ih (fun e he => h e (List.mem_cons_of_mem _ he))
    unfold collide
    simp [h0, hit, hr]

theorem shift_dying (vx vy : ℚ) (l : List Character) (h : ∀ e ∈ l, e.dying = 0) :
    ∀ e ∈ l.map (Character.shift vx vy), e.dying = 0 := by
  intro e he
  obtain ⟨e0, he0, rfl⟩ := List.mem_map.mp he
  exact h e0 he0

theorem start_dying : ∀ e ∈ start.enemies, e.dying = 0 := by decide!

theorem formationAt_dying (j : Nat) : ∀ e ∈ formationAt j, e.dying = 0 :=
  shift_dying _ _ _ start_dying

theorem formationAt_length (j : Nat) : (formationAt j).length = 55 := by
  unfold formationAt
  rw [List.length_map]
  decide!

theorem formationAt_succ (j : Nat) :
    (formationAt j).map (Character.shift 2 0) = formationAt (j + 1) := by
  unfold formationAt
  rw [List.map_map]
  apply List.map_congr_left
  intro e _
  simp only [Function.comp, Character.shift, Character.mk.injEq, true_and, and_true]
  constructor
  · push_cast; ring
  · ring

theorem formationAt_free : ∀ j, j < 4 →
    mostLeft (formationAt j) = false ∧ mostRight (formationAt j) = false := by
  decide!

theorem bottom_at_four : bottomEnemies (formationAt 4)
    = some ((formationAt 4).filter fun e => decide (e.Row = 4)) := by
  decide!

theorem front_at_four : ∀ e ∈ (formationAt 4).filter fun e => decide (e.Row = 4),
    e.Row = 4 ∧ e.Y = 69 := by
  decide!

theorem Update_alive {inv : Invaders} (inp : Input) (hd : inv.shooterDead = false) :
    inv.Update inp
      = (inv.beforeCollisions inp).updateCollisions.bind fun s => s.updateEnemyBullets inp := by
  unfold Invaders.Update
  simp only [hd, Bool.false_eq_true, if_false]

/-- One `Update` call in a state with no player bullet, no enemy bullet and an
unhurt formation, when the fire key is not held and no enemy bullet is due. -/
theorem Update_quiet {inv inv2 : Invaders} {inp : Input} (hd : inv.shooterDead = false)
    (hb : inv.bullets = []) (heb : inv.enemyBullets = []) (hdy : ∀ e ∈ inv.enemies, e.dying = 0)
    (hu : inv.Update inp = some inv2) (hp : inv2.pressed Key.KeySpace = false)
    (hmod : (inv.step + 1) % ((inv.enemies.length : Int) * 2 + 20) ≠ 0) :
    inv2.step = inv.step + 1 ∧ inv2.shooterDead = false ∧ inv2.bullets = [] ∧
      inv2.enemyBullets = [] ∧ inv2.enemies = (inv.beforeCollisions inp).enemies ∧
      inv2.enemyVelo = (inv.beforeCollisions inp).enemyVelo := by
  obtain ⟨f1, -, f3, f4, f5, -, -, -, -, vx, vy, hv⟩ := beforeCollisions_frame inv inp
  rw [Update_alive inp hd] at hu
  obtain ⟨mid, hmid, -, -, m1, -, m3, m4, m5, m6, m7, -⟩ :=
    updateCollisions_total (inv.beforeCollisions inp)
  rw [hmid, Option.some_bind] at hu
  obtain ⟨u1, -, u3, u4, u5, u6, -, -⟩ := updateEnemyBullets_frame hu
  have hpk : (inv.updateKeys inp).pressed Key.KeySpace = false := by
    rw [← f3, ← m3, ← u3]; exact hp
  have hbul := beforeCollisions_no_fire inv inp hb hpk
  have hdy2 : ∀ e ∈ (inv.beforeCollisions inp).enemies, e.dying = 0 := by
    rw [hv]; exact shift_dying _ _ _ hdy
  have hmid2 : mid.bullets = [] ∧ mid.enemies = (inv.beforeCollisions inp).enemies := by
    unfold Invaders.updateCollisions at hmid
    rw [hbul, collide_unhurt _ _ hdy2] at hmid
    simp only [Option.map_some', Option.some.injEq] at hmid
    rw [← hmid]
    exact ⟨rfl, rfl⟩
  have hlen : mid.enemies.length = inv.enemies.length := by
    rw [hmid2.2, hv, List.length_map]
  have hspawn : mid.spawnEnemyBullet inp = some [] := by
    unfold Invaders.spawnEnemyBullet
    simp only []
    have hstep : mid.step = inv.step + 1 := by rw [m1, f1]
    have hne : (mid.enemies.length : Int) * 2 + 20 ≠ 0 := by omega
    rw [if_neg hne, if_neg, m5, f4, heb]
    rw [tmod_eq_zero_iff, hstep, hlen]
    exact hmod
  unfold Invaders.updateEnemyBullets at hu
  rw [hspawn] at hu
  simp only [Option.map_some', Option.some.injEq] at hu
  refine ⟨by rw [u1, m1, f1], ?_, by rw [u4, hmid2.1], ?_, by rw [u5, hmid2.2],
    by rw [u6, m4]⟩
  · rw [← hu]
    show shooterHit mid.shooter mid.shooterDead (moveEnemyBullets []) = false
    rw [m7, f5, hd]
    rfl
  · rw [← hu]
    rfl

theorem Quiet_step {k : Nat} {inv inv2 : Invaders} {inp : Input} (hq : Quiet k inv)
    (hk : k + 1 ≤ 129) (hu : inv.Update inp = some inv2)
    (hp : inv2.pressed Key.KeySpace = false) : Quiet (k + 1) inv2 := by
  obtain ⟨q1, q2, q3, q4, q5, q6⟩ := hq
  have hlen : inv.enemies.length = 55 := by rw [q6]; exact formationAt_length _
  have hmod : (inv.step + 1) % ((inv.enemies.length : Int) * 2 + 20) ≠ 0 := by
    rw [hlen, q1]; omega
  have hdy : ∀ e ∈ inv.enemies, e.dying = 0 := by rw [q6]; exact formationAt_dying _
  obtain ⟨r1, r2, r3, r4, r5, r6⟩ := Update_quiet q2 q3 q4 hdy hu hp hmod
  refine ⟨by rw [r1, q1]; push_cast; rfl, r2, r3, r4, ?_, ?_⟩
  · by_cases ha : (inv.step + 1) % 30 = 0
    · have hj : k / 30 < 4 := by omega
      obtain ⟨hl, hr⟩ := formationAt_free (k / 30) hj
      rw [r6, (beforeCollisions_active inv inp ha).1, q6, hl, hr, q5]
      simp [bounceVelo]
    · rw [r6, (beforeCollisions_inactive inv inp ha).2, q5]
  · by_cases ha : (inv.step + 1) % 30 = 0
    · have hj : k / 30 < 4 := by omega
      have hj2 : (k + 1) / 30 = k / 30 + 1 := by omega
      obtain ⟨hl, hr⟩ := formationAt_free (k / 30) hj
      rw [r5, (beforeCollisions_active inv inp ha).2, q6, hl, hr, q5, hj2, ← formationAt_succ]
      simp [bounceVelo]
    · have hj2 : (k + 1) / 30 = k / 30 := by omega
      rw [r5, (beforeCollisions_inactive inv inp ha).1, q6, hj2]

theorem Quiet_run (inps : List Input)
    (hfire : ∀ k, k ≤ 130 → ∀ s, start.run (inps.take k) = some s →
      s.pressed Key.KeySpace = false) :
    ∀ k, k ≤ 129 → k ≤ inps.length →
      ∃ s, start.run (inps.take k) = some s ∧ Reachable s ∧ Quiet k s := by
  intro k
  induction k with
  | zero =>
    intro _ _
    refine ⟨start, rfl, Reachable.init, rfl, rfl, rfl, rfl, rfl, ?_⟩
    unfold formationAt
    have : Character.shift (2 * ((0 / 30 : Nat) : ℚ)) 0 = id := by
      funext c
      simp [Character.shift]
    rw [this, List.map_id]
  | succ k ih =>
    intro hk hlen
    obtain ⟨s, hs, hreach, hq⟩ := ih (by omega) (by omega)
    obtain ⟨s2, hs2⟩ := invariant_update_total (reachable_invariant hreach) inps[k]
    have hrun : start.run (inps.take (k + 1)) = some s2 := by
      rw [run_take_succ _ _ _ (by omega), hs]
      exact hs2
    exact ⟨s2, hrun, Reachable.update _ hreach hs2,
      Quiet_step hq hk hs2 (hfire (k + 1) (by omega) s2 hrun)⟩

/-- The first half of an `Update` call in a live state with no player bullet
and an unhurt formation, fire not held: the state handed to
`updateEnemyBullets`. -/
theorem Update_unarmed {inv inv2 : Invaders} {inp : Input} (hd : inv.shooterDead = false)
    (hb : inv.bullets = []) (hdy : ∀ e ∈ inv.enemies, e.dying = 0)
    (hu : inv.Update inp = some inv2) (hp : inv2.pressed Key.KeySpace = false) :
    ∃ mid : Invaders, mid.updateEnemyBullets inp = some inv2 ∧ mid.step = inv.step + 1 ∧
      mid.bullets = [] ∧ mid.enemies = (inv.beforeCollisions inp).enemies ∧
      mid.enemyVelo = (inv.beforeCollisions inp).enemyVelo ∧
      mid.enemyBullets = inv.enemyBullets := by
  obtain ⟨f1, -, f3, f4, f5, -, -, -, -, vx, vy, hv⟩ := beforeCollisions_frame inv inp
  rw [Update_alive inp hd] at hu
  obtain ⟨mid, hmid, -, -, m1, -, m3, m4, m5, m6, m7, -⟩ :=
    updateCollisions_total (inv.beforeCollisions inp)
  rw [hmid, Option.some_bind] at hu
  obtain ⟨u1, -, u3, u4, u5, u6, -, -⟩ := updateEnemyBullets_frame hu
  have hpk : (inv.updateKeys inp).pressed Key.KeySpace = false := by
    rw [← f3, ← m3, ← u3]; exact hp
  have hbul := beforeCollisions_no_fire inv inp hb hpk
  have hdy2 : ∀ e ∈ (inv.beforeCollisions inp).enemies, e.dying = 0 := by
    rw [hv]; exact shift_dying _ _ _ hdy
  have hmid2 : mid.bullets = [] ∧ mid.enemies = (inv.beforeCollisions inp).enemies := by
    unfold Invaders.updateCollisions at hmid
    rw [hbul, collide_unhurt _ _ hdy2] at hmid
    simp only [Option.map_some', Option.some.injEq] at hmid
    rw [← hmid]
    exact ⟨rfl, rfl⟩
  exact ⟨mid, hu, by rw [m1, f1], hmid2.1, hmid2.2, m4, by rw [m5, f4]⟩

theorem front_at_four_length :
    ((formationAt 4).filter fun e => decide (e.Row = 4)).length = 11 := by
  decide!

/-- The spawn block of `updateEnemyBullets` on tick 130 with the full formation
four steps to the right. -/
theorem spawn_first (mid : Invaders) (inp : Input) (hstep : mid.step = 130)
    (he : mid.enemies = formationAt 4) (heb : mid.enemyBullets = []) :
    ∃ e ∈ mid.enemies, e.Row = 4 ∧ e.Y = 69 ∧
      mid.spawnEnemyBullet inp
        = some [{ X := e.X + 4, Y := e.Y + 16, Velo := enemyBulletSpeed,
                  character := [bulletZap, bulletCross].getD (Intn inp.randSprite 2) "" }] := by
  have hfl := front_at_four_length
  have hpos : ((formationAt 4).filter fun e => decide (e.Row = 4)).length > 0 := by
    rw [hfl]; decide
  have hmemf := List.get_mem ((formationAt 4).filter fun e => decide (e.Row = 4))
    (Intn inp.randEnemy ((formationAt 4).filter fun e => decide (e.Row = 4)).length)
    (Nat.mod_lt _ hpos)
  refine ⟨_, ?_, (front_at_four _ hmemf).1, (front_at_four _ hmemf).2, ?_⟩
  · rw [he]
    exact List.mem_of_mem_filter hmemf
  · unfold Invaders.spawnEnemyBullet
    simp only []
    rw [he, heb, hstep, formationAt_length, bottom_at_four]
    have hmodv : (if ((55 : Nat) : Int) * 2 + 20 = 0 then (1 : Int)
        else ((55 : Nat) : Int) * 2 + 20) = 130 := by decide
    rw [hmodv, if_pos (by decide)]
    simp only [Option.map_some', dif_pos hpos, List.nil_append]
    have h8 : ¬ ((formationAt 4).filter fun e => decide (e.Row = 4)).length ≤ 8 := by
      rw [hfl]; decide
    rw [if_neg h8]

/-- C9: in every run from `Init` in which the fire key is never held, whatever
the left/right input and the random draws, `Update` returns for each of the 130
calls, the enemy-bullet list is empty after each of the first 129 calls (the
formation still has all 55 members, so the spawn modulus is 2 * 55 + 20 = 130),
and after the 130th call it holds exactly one bullet, spawned from a row-4
member `e` of the formation: at `(e.X + 4, e.Y + 16)`, then moved down by its
speed, the slow constant, on the same tick. -/
theorem C9_first_enemy_bullet (inps : List Input) (hlen : inps.length = 130)
    (hfire : ∀ k, k ≤ 130 → ∀ s, start.run (inps.take k) = some s →
      s.pressed Key.KeySpace = false) :
    (∀ k, k ≤ 129 → ∃ s, start.run (inps.take k) = some s ∧ s.enemyBullets = [] ∧
        s.step = k ∧ s.enemies.length = 55) ∧
      ∃ s e sprite, start.run inps = some s ∧ s.step = 2 * 55 + 20 ∧
        e ∈ s.enemies ∧ e.Row = 4 ∧
        s.enemyBullets = [{ X := e.X + 4, Y := e.Y + 16 + enemyBulletSpeed,
                            Velo := enemyBulletSpeed, character := sprite }] := by
  have hq := Quiet_run inps hfire
  constructor
  · intro k hk
    obtain ⟨s, hs, -, q1, -, -, q4, -, q6⟩ := hq k hk (by omega)
    exact ⟨s, hs, q4, q1, by rw [q6]; exact formationAt_length _⟩
  · obtain ⟨s, hs, hreach, q1, q2, q3, q4, q5, q6⟩ := hq 129 (le_refl _) (by omega)
    obtain ⟨s2, hs2⟩ := invariant_update_total (reachable_invariant hreach) (inps[129])
    have hrun : start.run inps = some s2 := by
      have h130 : inps = inps.take (129 + 1) := by
        rw [List.take_of_length_le (by omega)]
      rw [h130, run_take_succ _ _ _ (by omega), hs]
      exact hs2
    have hp := hfire 130 (le_refl _) s2 (by rw [List.take_of_length_le (by omega)]; exact hrun)
    have hdy : ∀ e ∈ s.enemies, e.dying = 0 := by rw [q6]; exact formationAt_dying _
    obtain ⟨mid, hmid, m1, -, m3, -, m5⟩ := Update_unarmed q2 q3 hdy hs2 hp
    have hstep : mid.step = 130 := by rw [m1, q1]; norm_num
    have hen : mid.enemies = formationAt 4 := by
      rw [m3, (beforeCollisions_inactive s inps[129] (by rw [q1]; decide)).1, q6]
    obtain ⟨e, hemem, hrow, hy, hspawn⟩ := spawn_first mid inps[129] hstep hen (by rw [m5, q4])
    obtain ⟨u1, -, -, -, u5, -, -, -⟩ := updateEnemyBullets_frame hmid
    unfold Invaders.updateEnemyBullets at hmid
    rw [hspawn] at hmid
    simp only [Option.map_some', Option.some.injEq] at hmid
    refine ⟨s2, e, [bulletZap, bulletCross].getD (Intn inps[129].randSprite 2) "", hrun,
      by rw [u1, hstep]; norm_num, by rw [u5]; exact hemem, hrow, ?_⟩
    rw [← hmid]
    show moveEnemyBullets _ = _
    unfold moveEnemyBullets
    simp only [List.foldl_cons, List.foldl_nil, List.nil_append]
    rw [if_neg]
    rw [hy, pixelsHeight_eq]
    unfold enemyBulletSpeed
    norm_num

theorem idle_never_fires (inv : Invaders) (inps : List Input)
    (hin : ∀ i ∈ inps, i.justPressed Key.KeySpace = false)
    (hk : inv.keys = [Key.KeyLeft, Key.KeyRight, Key.KeySpace])
    (hp : inv.pressed Key.KeySpace = false) (hr : Reachable inv) :
    ∀ s, inv.run inps = some s → s.pressed Key.KeySpace = false := by
  induction inps generalizing inv with
  | nil =>
    intro s hs
    simp only [Invaders.run, Option.some.injEq] at hs
    rw [← hs]; exact hp
  | cons i rest ih =>
    intro s hs
    simp only [Invaders.run] at hs
    cases hu : inv.Update i with
    | none => rw [hu] at hs; simp at hs
    | some mid =>
      rw [hu, Option.some_bind] at hs
      have hi := hin i (List.mem_cons_self _ _)
      have hr2 := Reachable.update i hr hu
      refine ih mid (fun j hj => hin j (List.mem_cons_of_mem _ hj))
        (reachable_invariant hr2).keys ?_ hr2 s hs
      by_cases hd : inv.shooterDead = true
      · rw [Update_dead i hd] at hu
        split at hu
        · simp only [Option.some.injEq] at hu
          rw [← hu]; rfl
        · simp only [Option.some.injEq] at hu
          rw [← hu]; exact hp
      · have hd2 : inv.shooterDead = false := by simpa using hd
        obtain ⟨-, -, f3, -⟩ := beforeCollisions_frame inv i
        rw [Update_alive i hd2] at hu
        obtain ⟨m, hm, -, -, -, -, m3, -⟩ := updateCollisions_total (inv.beforeCollisions i)
        rw [hm, Option.some_bind] at hu
        obtain ⟨-, -, u3, -⟩ := updateEnemyBullets_frame hu
        rw [u3, m3, f3]
        unfold Invaders.updateKeys
        simp only [hk, List.foldl_cons, List.foldl_nil, hi]
        by_cases hrel : i.justReleased Key.KeySpace = true
        · simp [hrel]
        · simp only [hrel, Bool.false_eq_true, if_false]
          by_cases h1 : i.justPressed Key.KeyLeft = true <;>
          by_cases h2 : i.justReleased Key.KeyLeft = true <;>
          by_cases h3 : i.justPressed Key.KeyRight = true <;>
          by_cases h4 : i.justReleased Key.KeyRight = true <;>
          simp [h1, h2, h3, h4, Function.update, hp]

/-- Instance of C9: the run in which no key is ever touched. -/
theorem C9_first_enemy_bullet_witness :
    (∀ k, k ≤ 129 → ∃ s, start.run (idleRun.take k) = some s ∧ s.enemyBullets = [] ∧
        s.step = k ∧ s.enemies.length = 55) ∧
      ∃ s e sprite, start.run idleRun = some s ∧ s.step = 2 * 55 + 20 ∧
        e ∈ s.enemies ∧ e.Row = 4 ∧
        s.enemyBullets = [{ X := e.X + 4, Y := e.Y + 16 + enemyBulletSpeed,
                            Velo := enemyBulletSpeed, character := sprite }] :=
  C9_first_enemy_bullet idleRun (by simp [idleRun])
    (fun k _ => idle_never_fires start (idleRun.take k)
      (fun i hi => by
        have := List.mem_of_mem_take hi
        rw [idleRun, List.mem_replicate] at this
        rw [this.2]; rfl)
      rfl rfl Reachable.init)

/-! ### Runs evaluated through checkpoints -/

theorem state_snap (inv : Invaders) : inv.snap.state = inv := by
  have hp : (fun k => match k with
      | Key.KeyLeft => inv.pressed Key.KeyLeft
      | Key.KeyRight => inv.pressed Key.KeyRight
      | Key.KeySpace => inv.pressed Key.KeySpace) = inv.pressed := by
    funext k
    cases k <;> rfl
  unfold Invaders.snap Snap.state
  simp only [hp]

/-- A run that passes the check `follows` is, after the calls up to its
checkpoint `k`, in the state of that checkpoint. -/
theorem follows_run {inv : Invaders} {inps : List Input} {marks : List (Nat × Snap)}
    (h : inv.follows inps marks = true) (k total n : Nat) (mark : Snap)
    (hk : marks[k]? = some (n, mark))
    (ht : ((marks.take (k + 1)).map Prod.fst).sum = total) :
    inv.run (inps.take total) = some mark.state := by
  induction marks generalizing inv inps k total with
  | nil => simp at hk
  | cons m rest ih =>
    obtain ⟨n0, mark0⟩ := m
    unfold Invaders.follows at h
    cases hr : inv.run (inps.take n0) with
    | none => rw [hr] at h; simp at h
    | some s =>
      rw [hr] at h
      simp only [Bool.and_eq_true, decide_eq_true_eq] at h
      obtain ⟨hs, hrest⟩ := h
      have hs2 : s = mark0.state := by rw [← hs, state_snap]
      cases k with
      | zero =>
        simp only [List.getElem?_cons_zero, Option.some.injEq, Prod.mk.injEq] at hk
        simp only [Nat.zero_add, List.take_succ_cons, List.take_zero, List.map_cons,
          List.map_nil, List.sum_cons, List.sum_nil, Nat.add_zero] at ht
        rw [← ht, hr, hs2, hk.2]
      | succ k =>
        simp only [List.getElem?_cons_succ] at hk
        simp only [List.take_succ_cons, List.map_cons, List.sum_cons] at ht
        rw [← ht, List.take_add, run_append, hr, Option.some_bind, hs2]
        exact ih hrest k _ hk rfl

/-! ### C4: a hit member is removed on the tick after the next formation step -/

theorem Inside_body {e e2 : Character} (h : e2.body = e.body) (x y : ℚ) :
    e2.Inside x y = e.Inside x y := by
  obtain ⟨-, -, hx, hy, -⟩ := body_fields h
  unfold Character.Inside
  simp only [hx, hy]

theorem hit_none {bullets : List Point} {e : Character}
    (h : ∀ b ∈ bullets, e.Inside (b.X + (bulletOffset : ℚ)) b.Y = false) :
    hit bullets e = none := by
  induction bullets with
  | nil => rfl
  | cons b rest ih =>
    unfold hit
    rw [h b (List.mem_cons_self _ _)]
    simp [ih (fun b hb => h b (List.mem_cons_of_mem _ hb))]

/-- What one iteration of the loop of `updateCollisions` does with a member that
is not removed: it is appended with the same body, its dying-counter is 1 (hit)
or the advanced counter, and the advanced counter when no bullet is inside its
box; the rest of the loop runs on a sub-list of the bullets. -/
theorem collide_cons {step : Int} {bullets : List Point} {x : Character}
    {rest : List Character} {r : List Point × List Character} (hx : x.dying ≠ 2)
    (hr : collide step bullets (x :: rest) = some r) :
    ∃ bullets2 r2 x2, (∀ b ∈ bullets2, b ∈ bullets) ∧ collide step bullets2 rest = some r2 ∧
      r.2 = x2 :: r2.2 ∧ x2.body = x.body ∧
      (x2.dying = 1 ∨
        x2.dying = if x.dying > 0 ∧ step.tmod 30 = 0 then x.dying + 1 else x.dying) ∧
      ((∀ b ∈ bullets, x.Inside (b.X + (bulletOffset : ℚ)) b.Y = false) →
        x2.dying = if x.dying > 0 ∧ step.tmod 30 = 0 then x.dying + 1 else x.dying) := by
  unfold collide at hr
  simp only [hx, if_false] at hr
  generalize hadv : (if x.dying > 0 ∧ step.tmod 30 = 0
    then ({ x with dying := x.dying + 1 } : Character) else x) = xa at hr
  have hbody : xa.body = x.body := by
    subst hadv
    split <;> rfl
  have hdy : xa.dying = if x.dying > 0 ∧ step.tmod 30 = 0 then x.dying + 1 else x.dying := by
    subst hadv
    split <;> rfl
  cases hh : hit bullets xa with
  | none =>
    rw [hh] at hr
    simp only [] at hr
    cases hc : collide step bullets rest with
    | none => rw [hc] at hr; simp at hr
    | some r2 =>
      rw [hc] at hr
      simp only [Option.map_some', Option.some.injEq] at hr
      exact ⟨bullets, r2, xa, fun b hb => hb, hc, by rw [← hr], hbody, Or.inr hdy, fun _ => hdy⟩
  | some bi =>
    rw [hh] at hr
    simp only [slicesDelete_hit hh, Option.some_bind] at hr
    cases hc : collide step (bullets.take bi ++ bullets.drop (bi + 1)) rest with
    | none => rw [hc] at hr; simp at hr
    | some r2 =>
      rw [hc] at hr
      simp only [Option.map_some', Option.some.injEq] at hr
      refine ⟨_, r2, { xa with dying := 1 }, ?_, hc, by rw [← hr], ?_, Or.inl rfl, ?_⟩
      · intro b hb
        rcases List.mem_append.mp hb with h | h
        · exact List.mem_of_mem_take h
        · exact List.mem_of_mem_drop h
      · rw [← hbody]; rfl
      · intro hno
        have : hit bullets xa = none :=
          hit_none (fun b hb => by rw [Inside_body hbody]; exact hno b hb)
        rw [this] at hh
        cases hh

/-- The fate of one member in the loop of `updateCollisions`, in a list with
distinct grid cells: a member whose counter is 2 is gone, with no member left in
its cell; any other member stays, with counter 1 or the advanced counter, and
the advanced counter if no bullet is inside its box. -/
theorem collide_member (step : Int) (enemies : List Character) (e : Character) :
    ∀ (bullets : List Point) (r : List Point × List Character), e ∈ enemies →
      (enemies.map fun e => (e.Row, e.Col)).Nodup → collide step bullets enemies = some r →
      (e.dying = 2 → ∀ e2 ∈ r.2, ¬ (e2.Row = e.Row ∧ e2.Col = e.Col)) ∧
      (e.dying ≠ 2 → ∃ e2 ∈ r.2, e2.body = e.body ∧
        (e2.dying = 1 ∨
          e2.dying = if e.dying > 0 ∧ step.tmod 30 = 0 then e.dying + 1 else e.dying) ∧
        ((∀ b ∈ bullets, e.Inside (b.X + (bulletOffset : ℚ)) b.Y = false) →
          e2.dying = if e.dying > 0 ∧ step.tmod 30 = 0 then e.dying + 1 else e.dying)) := by
  induction enemies with
  | nil => intro _ _ he; cases he
  | cons x rest ih =>
    intro bullets r he hnd hr
    simp only [List.map_cons, List.nodup_cons] at hnd
    obtain ⟨hxnot, hnd2⟩ := hnd
    have hkey : ∀ e2 ∈ rest, ¬ (e2.Row = x.Row ∧ e2.Col = x.Col) := by
      intro e2 he2 hk
      apply hxnot
      rw [List.mem_map]
      exact ⟨e2, he2, by rw [hk.1, hk.2]⟩
    have hsub : ∀ (bs : List Point) (r2 : List Point × List Character),
        collide step bs rest = some r2 → ∀ e2 ∈ r2.2, ∃ e0 ∈ rest, e0.body = e2.body := by
      intro bs r2 h2 e2 he2
      obtain ⟨r3, h3, -, hs⟩ := collide_total step bs rest
      rw [h2] at h3
      cases h3
      exact body_sublist_mem hs he2
    by_cases hx : x.dying = 2
    · have hr2 : collide step bullets rest = some r := by
        unfold collide at hr
        simpa [hx] using hr
      rcases List.mem_cons.mp he with h | h
      · subst h
        refine ⟨fun _ e2 he2 hk => ?_, fun hne => absurd hx hne⟩
        obtain ⟨e0, he0, hb0⟩ := hsub bullets r hr2 e2 he2
        obtain ⟨b1, b2, -, -, -⟩ := body_fields hb0
        exact hkey e0 he0 ⟨by rw [b1, hk.1], by rw [b2, hk.2]⟩
      · exact ih bullets r h hnd2 hr2
    · obtain ⟨bullets2, r2, x2, hbs, hc, hr2, hbody, hd1, hd2⟩ := collide_cons hx hr
      rcases List.mem_cons.mp he with h | h
      · subst h
        refine ⟨fun h2 => absurd h2 hx, fun _ => ⟨x2, ?_, hbody, hd1, hd2⟩⟩
        rw [hr2]
        exact List.mem_cons_self _ _
      · obtain ⟨i1, i2⟩ := ih bullets2 r2 h hnd2 hc
        constructor
        · intro h2 e2 he2 hk
          rw [hr2] at he2
          rcases List.mem_cons.mp he2 with h3 | h3
          · subst h3
            obtain ⟨b1, b2, -, -, -⟩ := body_fields hbody
            exact hkey e h ⟨by rw [← b1, hk.1], by rw [← b2, hk.2]⟩
          · exact i1 h2 e2 h3 hk
        · intro hne
          obtain ⟨e2, he2, hb2, hd3, hd4⟩ := i2 hne
          refine ⟨e2, ?_, hb2, hd3, fun hno => hd4 (fun b hb => hno b (hbs b hb))⟩
          rw [hr2]
          exact List.mem_cons_of_mem _ he2

/-- The fate of one member in one `Update` call of a live reachable state. -/
theorem Update_member {inv inv2 : Invaders} {inp : Input} (hI : Invariant inv)
    (hd : inv.shooterDead = false) (hu : inv.Update inp = some inv2) {e : Character}
    (he : e ∈ inv.enemies) :
    (e.dying = 2 → ∀ e2 ∈ inv2.enemies, ¬ (e2.Row = e.Row ∧ e2.Col = e.Col)) ∧
      (e.dying ≠ 2 → ∃ e2 ∈ inv2.enemies, e2.Row = e.Row ∧ e2.Col = e.Col ∧
        (e2.dying = 1 ∨
          e2.dying = if e.dying > 0 ∧ (inv.step + 1) % 30 = 0 then e.dying + 1 else e.dying) ∧
        ((∀ b ∈ (inv.beforeCollisions inp).bullets, ∀ e1 ∈ (inv.beforeCollisions inp).enemies,
            e1.Row = e.Row → e1.Col = e.Col →
            e1.Inside (b.X + (bulletOffset : ℚ)) b.Y = false) →
          e2.dying = if e.dying > 0 ∧ (inv.step + 1) % 30 = 0 then e.dying + 1
            else e.dying)) := by
  obtain ⟨f1, -, -, -, -, -, -, -, -, vx, vy, hv⟩ := beforeCollisions_frame inv inp
  have hIpre := invariant_beforeCollisions hI inp
  rw [Update_alive inp hd] at hu
  cases hc : collide (inv.beforeCollisions inp).step (inv.beforeCollisions inp).bullets
      (inv.beforeCollisions inp).enemies with
  | none =>
    obtain ⟨r, hr, -⟩ := collide_total (inv.beforeCollisions inp).step
      (inv.beforeCollisions inp).bullets (inv.beforeCollisions inp).enemies
    rw [hc] at hr
    cases hr
  | some r =>
    have hmid : (inv.beforeCollisions inp).updateCollisions
        = some { inv.beforeCollisions inp with bullets := r.1, enemies := r.2 } := by
      unfold Invaders.updateCollisions
      rw [hc]
      rfl
    rw [hmid, Option.some_bind] at hu
    obtain ⟨-, -, -, -, u5, -, -, -⟩ := updateEnemyBullets_frame hu
    have u5b : inv2.enemies = r.2 := u5
    have he1 : Character.shift vx vy e ∈ (inv.beforeCollisions inp).enemies := by
      rw [hv]
      exact List.mem_map_of_mem _ he
    obtain ⟨c1, c2⟩ := collide_member _ _ (Character.shift vx vy e) _ r he1 hIpre.nodup hc
    have hstep : (inv.beforeCollisions inp).step.tmod 30 = 0 ↔ (inv.step + 1) % 30 = 0 := by
      rw [tmod_eq_zero_iff, f1]
    have hsd : (Character.shift vx vy e).dying = e.dying := rfl
    have hsr : (Character.shift vx vy e).Row = e.Row := rfl
    have hsc : (Character.shift vx vy e).Col = e.Col := rfl
    simp only [hsd, hsr, hsc, hstep] at c1 c2
    rw [u5b]
    refine ⟨c1, fun hne => ?_⟩
    obtain ⟨e2, he2, hb2, hd3, hd4⟩ := c2 hne
    obtain ⟨b1, b2, -, -, -⟩ := body_fields hb2
    refine ⟨e2, he2, b1.trans hsr, b2.trans hsc, hd3, fun hno => hd4 ?_⟩
    intro b hb
    exact hno b hb _ he1 hsr hsc

theorem Update_alive_step {inv inv2 : Invaders} {inp : Input} (hd : inv.shooterDead = false)
    (hu : inv.Update inp = some inv2) : inv2.step = inv.step + 1 := by
  obtain ⟨f1, -⟩ := beforeCollisions_frame inv inp
  rw [Update_alive inp hd] at hu
  obtain ⟨mid, hmid, -, -, m1, -⟩ := updateCollisions_total (inv.beforeCollisions inp)
  rw [hmid, Option.some_bind] at hu
  obtain ⟨u1, -⟩ := updateEnemyBullets_frame hu
  rw [u1, m1, f1]

/-- While the next formation step has not come, a member with dying-counter 1
stays in the live set with dying-counter 1. -/
theorem dying_run (s1 : Invaders) (inps : List Input) (r c : Int) (n : Nat)
    (hreach : Reachable s1)
    (hafter : ∃ e ∈ s1.enemies, e.Row = r ∧ e.Col = c ∧ e.dying = 1)
    (hfirst : ∀ j : Nat, 1 ≤ j → j < n → (s1.step + j) % 30 ≠ 0)
    (halive : ∀ j, j ≤ n → ∀ s, s1.run (inps.take j) = some s → s.shooterDead = false) :
    ∀ j, j + 1 ≤ n → j ≤ inps.length →
      ∃ s, s1.run (inps.take j) = some s ∧ Reachable s ∧ s.step = s1.step + j ∧
        ∃ e ∈ s.enemies, e.Row = r ∧ e.Col = c ∧ e.dying = 1 := by
  intro j
  induction j with
  | zero =>
    intro _ _
    exact ⟨s1, rfl, hreach, by simp, hafter⟩
  | succ j ih =>
    intro hj hlen
    obtain ⟨s, hs, hr, hstep, e, he, hrow, hcol, hdy⟩ := ih (by omega) (by omega)
    have hd := halive j (by omega) s hs
    obtain ⟨s2, hs2⟩ := invariant_update_total (reachable_invariant hr) inps[j]
    have hrun : s1.run (inps.take (j + 1)) = some s2 := by
      rw [run_take_succ _ _ _ (by omega), hs]
      exact hs2
    have hne : e.dying ≠ 2 := by rw [hdy]; decide
    obtain ⟨e2, he2, hrow2, hcol2, hd2, -⟩ :=
      (Update_member (reachable_invariant hr) hd hs2 he).2 hne
    have hf := hfirst (j + 1) (by omega) (by omega)
    have hna : ¬ (s.step + 1) % 30 = 0 := by
      rw [hstep]
      push_cast at hf
      rw [add_assoc]
      exact hf
    refine ⟨s2, hrun, Reachable.update _ hr hs2, ?_, e2, he2, hrow2.trans hrow,
      hcol2.trans hcol, ?_⟩
    · rw [Update_alive_step hd hs2, hstep]
      push_cast
      ring
    · rcases hd2 with h | h
      · exact h
      · simp only [hna, and_false, if_false] at h
        rw [h, hdy]

/-- C4 (as the code has it): a member is not removed 60 ticks after the hit but
on the tick after the next formation step.  Let `s1` be a reachable state in
which a member has dying-counter 1 (the state after the tick that hit it), let
the `n`-th call after it be the first with `step % 30 == 0`, let the player
stay alive and let no bullet be inside the member's box when `updateCollisions`
runs on that `n`-th call (it is not hit again).  Then `n ≤ 30`, the member is
in `inv.enemies` after each of the calls `0 .. n`, and it is absent after call
`n + 1`: between 2 and 31 ticks after the hit. -/
theorem C4_removal_after_next_step (s1 : Invaders) (inps : List Input) (r c : Int) (n : Nat)
    (hreach : Reachable s1)
    (hafter : ∃ e ∈ s1.enemies, e.Row = r ∧ e.Col = c ∧ e.dying = 1)
    (hn : 1 ≤ n) (hnext : (s1.step + n) % 30 = 0)
    (hfirst : ∀ j : Nat, 1 ≤ j → j < n → (s1.step + j) % 30 ≠ 0)
    (hlen : inps.length = n + 1)
    (halive : ∀ j, j ≤ n → ∀ s, s1.run (inps.take j) = some s → s.shooterDead = false)
    (hnohit : ∀ s i, s1.run (inps.take (n - 1)) = some s → inps[n - 1]? = some i →
      ∀ b ∈ (s.beforeCollisions i).bullets, ∀ e ∈ (s.beforeCollisions i).enemies,
        e.Row = r → e.Col = c → e.Inside (b.X + (bulletOffset : ℚ)) b.Y = false) :
    n ≤ 30 ∧
      (∀ j, j ≤ n → ∃ s, s1.run (inps.take j) = some s ∧
        ∃ e ∈ s.enemies, e.Row = r ∧ e.Col = c) ∧
      ∃ s, s1.run inps = some s ∧ ∀ e ∈ s.enemies, ¬ (e.Row = r ∧ e.Col = c) := by
  have hn30 : n ≤ 30 := by
    by_contra hgt
    have := hfirst (n - 30) (by omega) (by omega)
    apply this
    have hc : ((n - 30 : Nat) : Int) = (n : Int) - 30 := by omega
    rw [hc]
    omega
  have hrun := dying_run s1 inps r c n hreach hafter hfirst halive
  -- the state before the formation-step call
  obtain ⟨s, hs, hr, hstep, e, he, hrow, hcol, hdy⟩ := hrun (n - 1) (by omega) (by omega)
  have hd := halive (n - 1) (by omega) s hs
  have hlt : n - 1 < inps.length := by omega
  obtain ⟨s2, hs2⟩ := invariant_update_total (reachable_invariant hr) inps[n - 1]
  have hrun2 : s1.run (inps.take n) = some s2 := by
    have hn1 : n = (n - 1) + 1 := by omega
    rw [hn1, run_take_succ _ _ _ (by omega), hs]
    exact hs2
  have hne : e.dying ≠ 2 := by rw [hdy]; decide
  obtain ⟨e2, he2, hrow2, hcol2, -, hd2⟩ :=
    (Update_member (reachable_invariant hr) hd hs2 he).2 hne
  have hact : (s.step + 1) % 30 = 0 := by
    rw [hstep]
    have hc : ((n - 1 : Nat) : Int) = (n : Int) - 1 := by omega
    rw [hc]
    have : s1.step + ((n : Int) - 1) + 1 = s1.step + n := by ring
    rw [this]
    exact hnext
  have hdy2 : e2.dying = 2 := by
    have := hd2 (by
      intro b hb e1 he1 h1 h2
      exact hnohit s inps[n - 1] hs (List.getElem?_eq_getElem hlt) b hb e1 he1
        (h1.trans hrow) (h2.trans hcol))
    rw [this, hdy]
    simp [hact]
  -- the call after the formation step
  have hr2 := Reachable.update _ hr hs2
  have hd3 := halive n (le_refl _) s2 hrun2
  obtain ⟨s3, hs3⟩ := invariant_update_total (reachable_invariant hr2) inps[n]
  have hrun3 : s1.run inps = some s3 := by
    have hall : inps = inps.take (n + 1) := by
      rw [List.take_of_length_le (by omega)]
    rw [hall, run_take_succ _ _ _ (by omega), hrun2]
    exact hs3
  refine ⟨hn30, ?_, s3, hrun3, ?_⟩
  · intro j hj
    by_cases hjn : j = n
    · subst hjn
      exact ⟨s2, hrun2, e2, he2, hrow2.trans hrow, hcol2.trans hcol⟩
    · obtain ⟨sj, hsj, -, -, ej, hej, hrj, hcj, -⟩ := hrun j (by omega) (by omega)
      exact ⟨sj, hsj, ej, hej, hrj, hcj⟩
  · intro e3 he3 hk
    refine (Update_member (reachable_invariant hr2) hd3 hs3 he2).1 hdy2 e3 he3 ⟨?_, ?_⟩
    · rw [hk.1, hrow2, hrow]
    · rw [hk.2, hcol2, hcol]

theorem run_reachable {inv inv2 : Invaders} (inps : List Input) (hr : Reachable inv)
    (h : inv.run inps = some inv2) : Reachable inv2 := by
  induction inps generalizing inv with
  | nil =>
    simp only [Invaders.run, Option.some.injEq] at h
    rw [← h]; exact hr
  | cons i rest ih =>
    simp only [Invaders.run] at h
    cases hu : inv.Update i with
    | none => rw [hu] at h; simp at h
    | some mid =>
      rw [hu, Option.some_bind] at h
      exact ih (Reachable.update i hr hu) h

/-! ### C12: the hit box -/

theorem Inside_iff (c : Character) (x y : ℚ) :
    c.Inside x y = true ↔
      c.X ≤ x ∧ x ≤ c.X + (characterWidth : ℚ) ∧ c.Y ≤ y ∧ y ≤ c.Y + (characterHeight : ℚ) := by
  unfold Character.Inside
  simp only []
  by_cases h1 : x < c.X ∨ x > c.X + (characterWidth : ℚ)
  · rw [if_pos h1]
    simp only [Bool.false_eq_true, false_iff]
    rintro ⟨a, b, -, -⟩
    rcases h1 with h | h <;> linarith
  · rw [if_neg h1]
    by_cases h2 : y < c.Y ∨ y > c.Y + (characterHeight : ℚ)
    · rw [if_pos h2]
      simp only [Bool.false_eq_true, false_iff]
      rintro ⟨-, -, a, b⟩
      rcases h2 with h | h <;> linarith
    · rw [if_neg h2]
      simp only [true_iff]
      simp only [not_or, not_lt, gt_iff_lt] at h1 h2
      exact ⟨h1.1, h1.2, h2.1, h2.2⟩

theorem hit_isSome (bullets : List Point) (e : Character) :
    (hit bullets e).isSome = bullets.any fun b => e.Inside (b.X + (bulletOffset : ℚ)) b.Y := by
  induction bullets with
  | nil => rfl
  | cons b rest ih =>
    unfold hit
    by_cases h : e.Inside (b.X + (bulletOffset : ℚ)) b.Y = true
    · simp [h]
    · simp only [h, Bool.false_eq_true, if_false, List.any_cons, Bool.false_or]
      rw [← ih]
      cases hit rest e <;> rfl

/-- C12: `Character.Inside` is the inclusive axis-aligned rectangle test on
`[X, X + characterWidth] × [Y, Y + characterHeight]` with width 12 and height 8,
and the closure `hit` of `updateCollisions` reports a hit exactly when it holds
at `(bullet.X + bulletOffset, bullet.Y)` for some bullet.  A bullet at
`(100, 50)` hits a member whose box starts at `(95, 45)` (its point `(107, 50)`
lies on the right edge) and does not hit one whose box starts at `(120, 45)`. -/
theorem C12_inside_rectangle :
    (∀ (c : Character) (x y : ℚ), c.Inside x y = true ↔
      c.X ≤ x ∧ x ≤ c.X + (characterWidth : ℚ) ∧ c.Y ≤ y ∧ y ≤ c.Y + (characterHeight : ℚ)) ∧
    (characterWidth = 12 ∧ characterHeight = 8 ∧ bulletOffset = 7) ∧
    (∀ (bullets : List Point) (e : Character),
      (hit bullets e).isSome = bullets.any fun b => e.Inside (b.X + (bulletOffset : ℚ)) b.Y) ∧
    hit [⟨100, 50⟩] { Row := 0, Col := 0, X := 95, Y := 45, character := octopus, dying := 0 }
      = some 0 ∧
    hit [⟨100, 50⟩] { Row := 0, Col := 0, X := 120, Y := 45, character := octopus, dying := 0 }
      = none ∧
    ({ Row := 0, Col := 0, X := 95, Y := 45, character := octopus, dying := 0 } :
      Character).Inside 100 50 = true ∧
    ({ Row := 0, Col := 0, X := 120, Y := 45, character := octopus, dying := 0 } :
      Character).Inside 100 50 = false := by
  refine ⟨Inside_iff, ⟨rfl, rfl, rfl⟩, hit_isSome, by decide!, by decide!, by decide!, by decide!⟩

/-! ### C14 -/

theorem bounceVelo_range (l r : Bool) (v : ℚ) (h : v = -2 ∨ v = 0 ∨ v = 2) :
    bounceVelo l r v = -2 ∨ bounceVelo l r v = 0 ∨ bounceVelo l r v = 2 := by
  unfold bounceVelo
  rcases h with h | h | h <;> subst h <;> cases l <;> cases r <;> norm_num

/-- C14: in every state reachable from `Init` by `Update` calls, `enemyVelo` is
one of `-2`, `0`, `+2`. -/
theorem C14_velocity_values (inv : Invaders) (h : Reachable inv) :
    inv.enemyVelo = -2 ∨ inv.enemyVelo = 0 ∨ inv.enemyVelo = 2 := by
  induction h with
  | init => exact Or.inr (Or.inr rfl)
  | @update inv inv2 inp _ hu ih =>
    by_cases hd : inv.shooterDead = true
    · rw [Update_dead inp hd] at hu
      split at hu
      · simp only [Option.some.injEq] at hu
        rw [← hu]
        exact Or.inr (Or.inr rfl)
      · simp only [Option.some.injEq] at hu
        rw [← hu]
        exact ih
    · have hd2 : inv.shooterDead = false := by simpa using hd
      rcases Update_alive_velo hd2 hu with he | he
      · rw [he]; exact ih
      · rw [he]; exact bounceVelo_range _ _ _ ih

/-- Instance of C14: the state after the first `Update`, no key pressed. -/
theorem C14_velocity_values_witness :
    ∃ inv, start.Update idleInput = some inv ∧
      (inv.enemyVelo = -2 ∨ inv.enemyVelo = 0 ∨ inv.enemyVelo = 2) := by
  obtain ⟨inv, h⟩ := invariant_update_total invariant_start idleInput
  exact ⟨inv, h, C14_velocity_values inv (Reachable.update idleInput Reachable.init h)⟩

/-! ### C18: a bullet is dropped on the tick after it went below 0 -/

theorem collide_bullets_subset (step : Int) (enemies : List Character) :
    ∀ (bullets : List Point) (r : List Point × List Character),
      collide step bullets enemies = some r → ∀ b ∈ r.1, b ∈ bullets := by
  induction enemies with
  | nil =>
    intro bullets r hr b hb
    simp only [collide, Option.some.injEq] at hr
    rw [← hr] at hb
    exact hb
  | cons x rest ih =>
    intro bullets r hr b hb
    unfold collide at hr
    by_cases hx : x.dying = 2
    · simp only [hx, if_true] at hr
      exact ih bullets r hr b hb
    · simp only [hx, if_false] at hr
      generalize (if x.dying > 0 ∧ step.tmod 30 = 0
        then ({ x with dying := x.dying + 1 } : Character) else x) = xa at hr
      cases hh : hit bullets xa with
      | none =>
        rw [hh] at hr
        simp only [] at hr
        cases hc : collide step bullets rest with
        | none => rw [hc] at hr; simp at hr
        | some r2 =>
          rw [hc] at hr
          simp only [Option.map_some', Option.some.injEq] at hr
          rw [← hr] at hb
          exact ih bullets r2 hc b hb
      | some bi =>
        rw [hh] at hr
        simp only [slicesDelete_hit hh, Option.some_bind] at hr
        cases hc : collide step (bullets.take bi ++ bullets.drop (bi + 1)) rest with
        | none => rw [hc] at hr; simp at hr
        | some r2 =>
          rw [hc] at hr
          simp only [Option.map_some', Option.some.injEq] at hr
          rw [← hr] at hb
          have := ih _ r2 hc b hb
          rcases List.mem_append.mp this with h | h
          · exact List.mem_of_mem_take h
          · exact List.mem_of_mem_drop h

theorem moveBullets_floor (s : Invaders) :
    ∀ b ∈ s.moveBullets.bullets, -(bulletSpeed : ℚ) ≤ b.Y := by
  intro b hb
  rw [moveBullets_bullets] at hb
  obtain ⟨b0, hb0, rfl⟩ := List.mem_map.mp hb
  have h0 := (List.mem_filter.mp hb0).2
  simp only [Bool.not_eq_true', decide_eq_false_iff_not, not_lt] at h0
  simp only []
  linarith

theorem beforeCollisions_floor (inv : Invaders) (inp : Input) :
    ∀ b ∈ (inv.beforeCollisions inp).bullets, -(bulletSpeed : ℚ) ≤ b.Y := by
  have h4 := (moveEnemies_frame
    ((({ inv with step := inv.step + 1 } : Invaders).updateKeys inp).updateShooter.launchBullet.moveBullets)).2.2.2.1
  have hpre : inv.beforeCollisions inp
      = ((({ inv with step := inv.step + 1 } : Invaders).updateKeys inp).updateShooter.launchBullet.moveBullets).moveEnemies := rfl
  rw [hpre, h4]
  exact moveBullets_floor _

/-- C18 (as the code has it): `moveBullets` tests `b.Y < 0` before it
decrements, so it drops exactly the bullets whose y was already below 0 and
moves every other bullet up by `bulletSpeed = 4` with x unchanged; a bullet is
removed on the tick after the one that took it below 0.  Hence after
`moveBullets`, and in every state reachable from `Init`, a live player bullet
has `y ≥ -4` (not `y ≥ 0`). -/
theorem C18_bullet_floor (inv : Invaders) (h : Reachable inv) :
    (∀ b ∈ inv.bullets, -(bulletSpeed : ℚ) ≤ b.Y) ∧
      (∀ s : Invaders, ∀ b ∈ s.moveBullets.bullets, -(bulletSpeed : ℚ) ≤ b.Y) ∧
      (∀ s : Invaders, s.moveBullets.bullets
        = (s.bullets.filter fun b => !decide (b.Y < 0)).map
            fun b => ({ X := b.X, Y := b.Y - (bulletSpeed : ℚ) } : Point)) ∧
      bulletSpeed = 4 := by
  refine ⟨?_, moveBullets_floor, moveBullets_bullets, rfl⟩
  induction h with
  | init => intro b hb; cases hb
  | @update inv inv2 inp _ hu ih =>
    by_cases hd : inv.shooterDead = true
    · rw [Update_dead inp hd] at hu
      split at hu
      · simp only [Option.some.injEq] at hu
        rw [← hu]
        intro b hb; cases hb
      · simp only [Option.some.injEq] at hu
        rw [← hu]
        exact ih
    · have hd2 : inv.shooterDead = false := by simpa using hd
      rw [Update_alive inp hd2] at hu
      cases hc : collide (inv.beforeCollisions inp).step (inv.beforeCollisions inp).bullets
          (inv.beforeCollisions inp).enemies with
      | none =>
        obtain ⟨r, hr, -⟩ := collide_total (inv.beforeCollisions inp).step
          (inv.beforeCollisions inp).bullets (inv.beforeCollisions inp).enemies
        rw [hc] at hr
        cases hr
      | some r =>
        have hmid : (inv.beforeCollisions inp).updateCollisions
            = some { inv.beforeCollisions inp with bullets := r.1, enemies := r.2 } := by
          unfold Invaders.updateCollisions
          rw [hc]
          rfl
        rw [hmid, Option.some_bind] at hu
        obtain ⟨-, -, -, u4, -⟩ := updateEnemyBullets_frame hu
        have u4b : inv2.bullets = r.1 := u4
        intro b hb
        rw [u4b] at hb
        exact beforeCollisions_floor inv inp b (collide_bullets_subset _ _ _ r hc b hb)

/-! ### C19: no spawn without members -/

theorem moveEnemyBullets_loop (l acc : List Bullet) :
    l.foldl (fun newBullets bullet =>
        if ({ bullet with Y := bullet.Y + bullet.Velo } : Bullet).Y > (pixelsHeight : ℚ)
        then newBullets else newBullets ++ [{ bullet with Y := bullet.Y + bullet.Velo }]) acc
      = acc ++ (l.map fun b => ({ b with Y := b.Y + b.Velo } : Bullet)).filter
          fun b => !decide (b.Y > (pixelsHeight : ℚ)) := by
  induction l generalizing acc with
  | nil => simp
  | cons b rest ih =>
    simp only [List.foldl_cons, List.map_cons]
    by_cases hb : ({ b with Y := b.Y + b.Velo } : Bullet).Y > (pixelsHeight : ℚ)
    · rw [if_pos hb, ih, List.filter_cons_of_neg (by simpa using hb)]
    · rw [if_neg hb, ih, List.filter_cons_of_pos (by simpa using hb)]
      simp

theorem moveEnemyBullets_eq (l : List Bullet) :
    moveEnemyBullets l = (l.map fun b => ({ b with Y := b.Y + b.Velo } : Bullet)).filter
      fun b => !decide (b.Y > (pixelsHeight : ℚ)) := by
  unfold moveEnemyBullets
  rw [moveEnemyBullets_loop]
  rfl

theorem bottomEnemies_nil : bottomEnemies [] = some [] := by decide

/-- C19: in a state with no live formation member `updateEnemyBullets` does not
panic and spawns nothing on any tick, also when `step % 20 == 0`: the front-line
list is empty, so no random index is drawn, and the enemy-bullet list after the
call is the previous list with every bullet moved down by its own velocity and
those below `pixelsHeight` dropped. -/
theorem C19_no_spawn_without_members (inv : Invaders) (inp : Input) (he : inv.enemies = []) :
    bottomEnemies inv.enemies = some [] ∧ inv.spawnEnemyBullet inp = some inv.enemyBullets ∧
      ∃ inv2, inv.updateEnemyBullets inp = some inv2 ∧
        inv2.enemyBullets
          = (inv.enemyBullets.map fun b => ({ b with Y := b.Y + b.Velo } : Bullet)).filter
              fun b => !decide (b.Y > (pixelsHeight : ℚ)) := by
  have hspawn : inv.spawnEnemyBullet inp = some inv.enemyBullets := by
    unfold Invaders.spawnEnemyBullet
    simp only [he, bottomEnemies_nil, Option.map_some', List.length_nil, gt_iff_lt,
      lt_self_iff_false, dite_false, ite_self]
  refine ⟨by rw [he]; exact bottomEnemies_nil, hspawn,
    { inv with
      enemyBullets := moveEnemyBullets inv.enemyBullets
      shooterDead := shooterHit inv.shooter inv.shooterDead (moveEnemyBullets inv.enemyBullets) },
    ?_, ?_⟩
  · unfold Invaders.updateEnemyBullets
    rw [hspawn]
    rfl
  · exact moveEnemyBullets_eq _

/-- Instance of C19 at `emptyState`. -/
theorem C19_no_spawn_without_members_witness :
    bottomEnemies emptyState.enemies = some [] ∧
      emptyState.spawnEnemyBullet idleInput = some emptyState.enemyBullets ∧
      ∃ inv2, emptyState.updateEnemyBullets idleInput = some inv2 ∧
        inv2.enemyBullets
          = (emptyState.enemyBullets.map fun b => ({ b with Y := b.Y + b.Velo } : Bullet)).filter
              fun b => !decide (b.Y > (pixelsHeight : ℚ)) :=
  C19_no_spawn_without_members emptyState idleInput rfl

/-! ### C20: the player-hit test -/

theorem shooterHit_eq (sh : Character) (dead : Bool) (l : List Bullet) :
    shooterHit sh dead l = (dead || l.any fun b => sh.Inside b.X b.Y) := by
  unfold shooterHit
  induction l generalizing dead with
  | nil => simp
  | cons b rest ih =>
    simp only [List.foldl_cons, List.any_cons]
    rw [ih]
    by_cases hb : sh.Inside b.X b.Y = true
    · simp [hb]
    · simp [hb]

/-- C20: when `updateEnemyBullets` returns from a state with `shooterDead`
false, the flag is true afterwards exactly when some bullet of the new
enemy-bullet list -- the list after the spawn block, every bullet moved down by
its own velocity, those with `y > pixelsHeight` dropped -- has `(X, Y)` inside
the shooter by `Character.Inside`, with no offset.  The call never clears the
flag, never changes the shooter, and returns whenever every member is on the
grid. -/
theorem C20_player_hit (inv inv2 : Invaders) (inp : Input) (hd : inv.shooterDead = false)
    (hu : inv.updateEnemyBullets inp = some inv2) :
    (inv2.shooterDead = true ↔ ∃ b ∈ inv2.enemyBullets, inv.shooter.Inside b.X b.Y = true) ∧
      (∃ spawned, inv.spawnEnemyBullet inp = some spawned ∧
        inv2.enemyBullets
          = (spawned.map fun b => ({ b with Y := b.Y + b.Velo } : Bullet)).filter
              fun b => !decide (b.Y > (pixelsHeight : ℚ))) ∧
      inv2.shooter = inv.shooter ∧
      (∀ s s2 : Invaders, s.shooterDead = true → s.updateEnemyBullets inp = some s2 →
        s2.shooterDead = true ∧ s2.shooter = s.shooter) ∧
      (∀ s : Invaders, (∀ e ∈ s.enemies, e.onGrid) → ∃ s2, s.updateEnemyBullets inp = some s2) := by
  have hgen : ∀ s s2 : Invaders, s.updateEnemyBullets inp = some s2 →
      ∃ spawned, s.spawnEnemyBullet inp = some spawned ∧
        s2.enemyBullets = moveEnemyBullets spawned ∧ s2.shooter = s.shooter ∧
        s2.shooterDead = (s.shooterDead || (moveEnemyBullets spawned).any
          fun b => s.shooter.Inside b.X b.Y) := by
    intro s s2 h
    unfold Invaders.updateEnemyBullets at h
    cases hs : s.spawnEnemyBullet inp with
    | none => rw [hs] at h; simp at h
    | some spawned =>
      rw [hs] at h
      simp only [Option.map_some', Option.some.injEq] at h
      refine ⟨spawned, rfl, by rw [← h], by rw [← h], ?_⟩
      rw [← h]
      exact shooterHit_eq _ _ _
  obtain ⟨spawned, h1, h2, h3, h4⟩ := hgen inv inv2 hu
  refine ⟨?_, ⟨spawned, h1, by rw [h2, moveEnemyBullets_eq]⟩, h3, ?_, ?_⟩
  · rw [h4, hd, h2]
    simp only [Bool.false_or, List.any_eq_true]
  · intro s s2 hs hs2
    obtain ⟨sp, -, -, g3, g4⟩ := hgen s s2 hs2
    exact ⟨by rw [g4, hs]; rfl, g3⟩
  · intro s hg
    obtain ⟨s2, hs2, -⟩ := updateEnemyBullets_total s inp hg
    exact ⟨s2, hs2⟩

/-- Instance of C20 at `strikeState`: the bullet moves to `(105, 165.33)`, inside
the shooter, and the flag is set. -/
theorem C20_player_hit_witness :
    ∃ inv2, strikeState.updateEnemyBullets idleInput = some inv2 ∧ inv2.shooterDead = true ∧
      ((inv2.shooterDead = true ↔
          ∃ b ∈ inv2.enemyBullets, strikeState.shooter.Inside b.X b.Y = true) ∧
        (∃ spawned, strikeState.spawnEnemyBullet idleInput = some spawned ∧
          inv2.enemyBullets
            = (spawned.map fun b => ({ b with Y := b.Y + b.Velo } : Bullet)).filter
                fun b => !decide (b.Y > (pixelsHeight : ℚ))) ∧
        inv2.shooter = strikeState.shooter ∧
        (∀ s s2 : Invaders, s.shooterDead = true → s.updateEnemyBullets idleInput = some s2 →
          s2.shooterDead = true ∧ s2.shooter = s.shooter) ∧
        (∀ s : Invaders, (∀ e ∈ s.enemies, e.onGrid) →
          ∃ s2, s.updateEnemyBullets idleInput = some s2)) := by
  have h1 : ((strikeState.updateEnemyBullets idleInput).map fun s => s.shooterDead)
      = some true := by decide!
  cases hs : strikeState.updateEnemyBullets idleInput with
  | none => rw [hs] at h1; simp at h1
  | some inv2 =>
    rw [hs] at h1
    simp only [Option.map_some', Option.some.injEq] at h1
    exact ⟨inv2, rfl, h1, C20_player_hit strikeState inv2 idleInput rfl hs⟩

/-! ### C13: Update does not panic -/

theorem Update_total_no_members (s : Invaders) (inp : Input) (he : s.enemies = []) :
    ∃ s2, s.Update inp = some s2 := by
  by_cases hd : s.shooterDead = true
  · exact ⟨_, Update_dead inp hd⟩
  · have hd2 : s.shooterDead = false := by simpa using hd
    obtain ⟨-, -, -, -, -, -, -, -, -, vx, vy, hv⟩ := beforeCollisions_frame s inp
    obtain ⟨mid, hmid, -, hsub, -⟩ := updateCollisions_total (s.beforeCollisions inp)
    have hnil : mid.enemies = [] := by
      rw [hv, he] at hsub
      simpa using hsub
    obtain ⟨s2, hs2, -⟩ := updateEnemyBullets_total mid inp
      (by rw [hnil]; intro e h; cases h)
    exact ⟨s2, by rw [Update_alive inp hd2, hmid, Option.some_bind, hs2]⟩

/-- C13: on a state reachable from `Init`, for every input, `Update` returns a
state (it does not panic).  On the way: the spawn modulus is not zero; every
member handed to `bottomEnemies` has `0 ≤ Col < characterCols` and
`0 ≤ Row < 5`, so `bottomEnemies` returns a front-line list; the random pick is
an index inside the front-line list when that list is not empty; an index
returned by `hit` is inside the bullet list, so `slices.Delete` does not panic;
and with no member at all (whatever the bullets) `Update` returns as well. -/
theorem C13_no_panic (inv : Invaders) (inp : Input) (h : Reachable inv) :
    (∃ inv2, inv.Update inp = some inv2) ∧
      (inv.enemies.length : Int) * 2 + 20 ≠ 0 ∧
      (∃ mid front, (inv.beforeCollisions inp).updateCollisions = some mid ∧
        (∀ e ∈ mid.enemies, 0 ≤ e.Col ∧ e.Col < characterCols ∧ 0 ≤ e.Row ∧ e.Row < 5) ∧
        bottomEnemies mid.enemies = some front ∧
        (front.length > 0 → Intn inp.randEnemy front.length < front.length)) ∧
      (∀ (bullets : List Point) (e : Character) (i : Nat), hit bullets e = some i →
        i + 1 ≤ bullets.length ∧
        slicesDelete bullets i (i + 1) = some (bullets.take i ++ bullets.drop (i + 1))) ∧
      (∀ s : Invaders, s.enemies = [] → ∃ s2, s.Update inp = some s2) := by
  have hI := reachable_invariant h
  refine ⟨invariant_update_total hI inp, by omega, ?_, ?_, fun s he =>
    Update_total_no_members s inp he⟩
  · obtain ⟨mid, hmid, -⟩ := updateCollisions_total (inv.beforeCollisions inp)
    have hImid := invariant_updateCollisions (invariant_beforeCollisions hI inp) hmid
    obtain ⟨front, hf, -, -⟩ := bottomEnemies_total mid.enemies hImid.grid
    refine ⟨mid, front, hmid, ?_, hf, fun hpos => Nat.mod_lt _ hpos⟩
    intro e he
    have := hImid.grid e he
    exact this
  · intro bullets e i hi
    exact ⟨hit_lt hi, slicesDelete_hit hi⟩

/-- Instance of C13: the initial state, fire key going down. -/
theorem C13_no_panic_witness :
    (∃ inv2, start.Update fireInput = some inv2) ∧
      (start.enemies.length : Int) * 2 + 20 ≠ 0 ∧
      (∃ mid front, (start.beforeCollisions fireInput).updateCollisions = some mid ∧
        (∀ e ∈ mid.enemies, 0 ≤ e.Col ∧ e.Col < characterCols ∧ 0 ≤ e.Row ∧ e.Row < 5) ∧
        bottomEnemies mid.enemies = some front ∧
        (front.length > 0 → Intn fireInput.randEnemy front.length < front.length)) ∧
      (∀ (bullets : List Point) (e : Character) (i : Nat), hit bullets e = some i →
        i + 1 ≤ bullets.length ∧
        slicesDelete bullets i (i + 1) = some (bullets.take i ++ bullets.drop (i + 1))) ∧
      (∀ s : Invaders, s.enemies = [] → ∃ s2, s.Update fireInput = some s2) :=
  C13_no_panic start fireInput Reachable.init

/-! ### One bullet marks the first member that holds it -/

theorem survivors_nil (step : Int) : survivors step [] = [] := rfl

theorem survivors_cons (step : Int) (x : Character) (rest : List Character) :
    survivors step (x :: rest)
      = if x.dying = 2 then survivors step rest else advance step x :: survivors step rest := by
  unfold survivors
  by_cases hx : x.dying = 2
  · simp [hx]
  · simp [hx]

theorem advance_alive (step : Int) (e : Character) (h : e.dying = 0) : advance step e = e := by
  unfold advance
  simp [h]

theorem advance_Inside (step : Int) (e : Character) (x y : ℚ) :
    (advance step e).Inside x y = e.Inside x y := by
  unfold advance
  split <;> rfl

theorem collide_nothing (step : Int) (enemies : List Character) :
    collide step [] enemies = some ([], survivors step enemies) := by
  induction enemies with
  | nil => rfl
  | cons x rest ih =>
    rw [survivors_cons]
    unfold collide
    by_cases hx : x.dying = 2
    · simp only [hx, if_true]
      exact ih
    · simp only [hx, if_false, hit, ih, Option.map_some']
      rfl

theorem collide_first_hit (step : Int) (b : Point) (m : Character) (back : List Character)
    (hm : m.dying ≠ 2) (hin : m.Inside (b.X + (bulletOffset : ℚ)) b.Y = true) :
    ∀ front : List Character,
      (∀ e ∈ front, e.dying ≠ 2 → e.Inside (b.X + (bulletOffset : ℚ)) b.Y = false) →
      collide step [b] (front ++ m :: back)
        = some ([], survivors step front ++ { m with dying := 1 } :: survivors step back) := by
  intro front
  induction front with
  | nil =>
    intro _
    simp only [List.nil_append, survivors_nil]
    unfold collide
    simp only [hm, if_false]
    have hi : (advance step m).Inside (b.X + (bulletOffset : ℚ)) b.Y = true := by
      rw [advance_Inside]; exact hin
    have hadv : (if m.dying > 0 ∧ step.tmod 30 = 0
        then ({ m with dying := m.dying + 1 } : Character) else m) = advance step m := rfl
    rw [hadv, hit_single, if_pos hi]
    simp only [slicesDelete, Nat.zero_add, List.length_singleton, le_refl, zero_le, and_self,
      if_true, List.take_zero, List.nil_append, List.drop_succ_cons, List.drop_zero,
      Option.some_bind, collide_nothing, Option.map_some', Option.some.injEq, Prod.mk.injEq,
      List.cons.injEq, and_true, true_and]
    unfold advance
    split <;> rfl
  | cons x rest ih =>
    intro hf
    have h1 := ih (fun e he => hf e (List.mem_cons_of_mem _ he))
    rw [List.cons_append, survivors_cons]
    unfold collide
    by_cases hx : x.dying = 2
    · simp only [hx, if_true]
      exact h1
    · have hxin := hf x (List.mem_cons_self _ _) hx
      have hi : (advance step x).Inside (b.X + (bulletOffset : ℚ)) b.Y = false := by
        rw [advance_Inside]; exact hxin
      have hadv : (if x.dying > 0 ∧ step.tmod 30 = 0
          then ({ x with dying := x.dying + 1 } : Character) else x) = advance step x := rfl
      simp only [hx, if_false]
      rw [hadv, hit_single, if_neg (by rw [hi]; decide)]
      simp only [h1, Option.map_some', List.cons_append]

/-- What `updateCollisions` does with one player bullet whose point
`(X + bulletOffset, Y)` lies inside the box of the member `m` with dying-counter
0, when no member listed before `m` and kept by the call holds the point: the
bullet list is emptied, `m` stays at its place with dying-counter 1 and
unchanged position, and every other member is treated as without a bullet. -/
theorem first_hit_marked (inv : Invaders) (b : Point) (front back : List Character)
    (m : Character) (hb : inv.bullets = [b]) (he : inv.enemies = front ++ m :: back)
    (hm : m.dying = 0) (hin : m.Inside (b.X + (bulletOffset : ℚ)) b.Y = true)
    (hfirst : ∀ e ∈ front, e.dying = 0 → e.Inside (b.X + (bulletOffset : ℚ)) b.Y = false)
    (hclear : ∀ e ∈ front, e.dying ≠ 0 → e.dying ≠ 2 →
      e.Inside (b.X + (bulletOffset : ℚ)) b.Y = false) :
    ∃ inv2, inv.updateCollisions = some inv2 ∧ inv2.bullets = [] ∧
      inv2.enemies
        = survivors inv.step front ++ { m with dying := 1 } :: survivors inv.step back ∧
      (∀ e ∈ front ++ back, e.dying = 0 → e ∈ inv2.enemies) ∧
      (∀ e : Character, e.dying = 0 → advance inv.step e = e) := by
  have hfront : ∀ e ∈ front, e.dying ≠ 2 → e.Inside (b.X + (bulletOffset : ℚ)) b.Y = false := by
    intro e hef h2
    by_cases h0 : e.dying = 0
    · exact hfirst e hef h0
    · exact hclear e hef h0 h2
  have hc := collide_first_hit inv.step b m back (by rw [hm]; decide) hin front hfront
  refine ⟨{ inv with
      bullets := []
      enemies := survivors inv.step front ++ { m with dying := 1 } :: survivors inv.step back },
    ?_, rfl, rfl, ?_, fun e h0 => advance_alive _ e h0⟩
  · unfold Invaders.updateCollisions
    rw [hb, he, hc]
    rfl
  · intro e hmem h0
    have hkeep : ∀ l : List Character, e ∈ l → e ∈ survivors inv.step l := by
      intro l hl
      unfold survivors
      rw [List.mem_map]
      refine ⟨e, List.mem_filter.mpr ⟨hl, ?_⟩, advance_alive _ e h0⟩
      simp [h0]
    simp only [List.mem_append, List.mem_cons]
    rcases List.mem_append.mp hmem with h | h
    · exact Or.inl (hkeep front h)
    · exact Or.inr (Or.inr (hkeep back h))

/-! ### C16: the formation can stop for good -/

theorem run_of_snap {inv : Invaders} {l : List Input} {n : Snap}
    (h : (inv.run l).map Invaders.snap = some n) : inv.run l = some n.state := by
  cases hr : inv.run l with
  | none => rw [hr] at h; simp at h
  | some s =>
    rw [hr] at h
    simp only [Option.map_some', Option.some.injEq] at h
    rw [← h, state_snap]

/-- A run is evaluated in stretches: from the state after `k` calls, given as a
`Snap`, to the state after `k + n` calls. -/
theorem run_checkpoint {inv : Invaders} {l : List Input} {k n : Nat} {n1 n2 : Snap}
    (h1 : (inv.run (l.take k)).map Invaders.snap = some n1)
    (h2 : (n1.state.run ((l.drop k).take n)).map Invaders.snap = some n2) :
    (inv.run (l.take (k + n))).map Invaders.snap = some n2 := by
  rw [List.take_add, run_append, run_of_snap h1, Option.some_bind]
  exact h2

theorem collideFast_eq (step c : Int) (enemies : List Character) :
    ∀ bullets : List Point,
      (∀ e ∈ enemies, e.Col ≠ c → ∀ b ∈ bullets,
        e.Inside (b.X + (bulletOffset : ℚ)) b.Y = false) →
      collideFast step c bullets enemies = collide step bullets enemies := by
  induction enemies with
  | nil => intro bullets _; rfl
  | cons x rest ih =>
    intro bullets h
    have hrest : ∀ bs : List Point, (∀ b ∈ bs, b ∈ bullets) →
        collideFast step c bs rest = collide step bs rest := by
      intro bs hsub
      exact ih bs (fun e he hc b hb => h e (List.mem_cons_of_mem _ he) hc b (hsub b hb))
    unfold collideFast collide
    by_cases hx : x.dying = 2
    · simp only [hx, if_true]
      exact hrest bullets (fun b hb => hb)
    · simp only [hx, if_false]
      have hadv : (if x.dying > 0 ∧ step.tmod 30 = 0 then { x with dying := x.dying + 1 } else x)
          = advance step x := rfl
      rw [hadv]
      have hcol : (advance step x).Col = x.Col := by
        unfold advance
        split <;> rfl
      by_cases hc : (advance step x).Col = c
      · rw [if_pos hc]
        cases hh : hit bullets (advance step x) with
        | none =>
          simp only []
          rw [hrest bullets (fun b hb => hb)]
        | some i =>
          simp only []
          rw [slicesDelete_hit hh, Option.some_bind, Option.some_bind]
          rw [hrest _ (fun b hb => by
            rcases List.mem_append.mp hb with hb | hb
            · exact List.mem_of_mem_take hb
            · exact List.mem_of_mem_drop hb)]
      · rw [if_neg hc]
        have hnone : hit bullets (advance step x) = none := by
          apply hit_none
          intro b hb
          rw [advance_Inside]
          exact h x (List.mem_cons_self _ _) (by rw [← hcol]; exact hc) b hb
        rw [hnone]
        simp only []
        rw [hrest bullets (fun b hb => hb)]

/-- In a rigid formation a point is inside members of one column only: the one
whose 16-pixel band holds the point's `x`. -/
theorem column_only {l : List Character} {base : ℚ}
    (hr : ∀ e ∈ l, e.X = base + 16 * (e.Col : ℚ)) (x y : ℚ) :
    ∀ e ∈ l, e.Col ≠ Int.floor ((x - base) / 16) → e.Inside x y = false := by
  intro e he hne
  by_contra hin
  have hin2 : e.Inside x y = true := by simpa using hin
  obtain ⟨h1, h2, -, -⟩ := (Inside_iff e x y).mp hin2
  have hw : (characterWidth : ℚ) = 12 := by decide!
  rw [hw, hr e he] at h2
  rw [hr e he] at h1
  apply hne
  symm
  rw [Int.floor_eq_iff]
  constructor
  · rw [le_div_iff₀ (by norm_num)]
    linarith
  · rw [div_lt_iff₀ (by norm_num)]
    linarith

theorem updateCollisionsFast_eq (inv : Invaders)
    (hr : ∃ dx dy : ℚ, ∀ e ∈ inv.enemies,
      e.X = 22 + 16 * (e.Col : ℚ) + dx ∧ e.Y = 5 + 16 * (e.Row : ℚ) + dy) :
    inv.updateCollisionsFast = inv.updateCollisions := by
  unfold Invaders.updateCollisionsFast
  split
  · rename_i b e0 rest hb he
    obtain ⟨dx, dy, hrig⟩ := hr
    have hbase : e0.X - 16 * (e0.Col : ℚ) = 22 + dx := by
      have := (hrig e0 (by rw [he]; exact List.mem_cons_self _ _)).1
      rw [this]; ring
    have hall : ∀ e ∈ inv.enemies, e.X = (22 + dx) + 16 * (e.Col : ℚ) := by
      intro e hmem
      rw [(hrig e hmem).1]; ring
    unfold Invaders.updateCollisions
    rw [collideFast_eq]
    intro e hmem hc bb hbb
    rw [hb, List.mem_singleton] at hbb
    rw [hbb]
    rw [hbase] at hc
    exact column_only hall _ _ e hmem hc
  · rfl

theorem UpdateFast_eq {inv : Invaders} (hI : Invariant inv) (inp : Input) :
    inv.UpdateFast inp = inv.Update inp := by
  unfold Invaders.UpdateFast
  by_cases hd : inv.shooterDead = true
  · rw [if_pos hd]
  · have hd2 : inv.shooterDead = false := by simpa using hd
    rw [if_neg hd, updateCollisionsFast_eq _ (invariant_beforeCollisions hI inp).rigid,
      Update_alive inp hd2]

theorem runFast_eq (inps : List Input) {inv : Invaders} (hI : Invariant inv) :
    inv.runFast inps = inv.run inps := by
  induction inps generalizing inv with
  | nil => rfl
  | cons i rest ih =>
    unfold Invaders.runFast Invaders.run
    rw [UpdateFast_eq hI]
    cases hu : inv.Update i with
    | none => rfl
    | some s =>
      rw [Option.some_bind, Option.some_bind]
      exact ih (invariant_update hI hu)

/-- The stretch of `run_checkpoint` evaluated with `runFast`. -/
theorem run_checkpoint_fast {l : List Input} {k n : Nat} {n1 n2 : Snap}
    (h1 : (start.run (l.take k)).map Invaders.snap = some n1)
    (h2 : (n1.state.runFast ((l.drop k).take n)).map Invaders.snap = some n2) :
    (start.run (l.take (k + n))).map Invaders.snap = some n2 := by
  have hI := reachable_invariant (run_reachable _ Reachable.init (run_of_snap h1))
  rw [runFast_eq _ hI] at h2
  exact run_checkpoint h1 h2

theorem follows_of_fast {inv : Invaders} {inps : List Input} {marks : List (Nat × Snap)}
    (hr : Reachable inv) (h : inv.followsFast inps marks = true) :
    inv.follows inps marks = true := by
  induction marks generalizing inv inps with
  | nil => rfl
  | cons m rest ih =>
    obtain ⟨n, mark⟩ := m
    unfold Invaders.followsFast at h
    unfold Invaders.follows
    rw [runFast_eq _ (reachable_invariant hr)] at h
    cases hs : inv.run (inps.take n) with
    | none => rw [hs] at h; simp at h
    | some s =>
      rw [hs] at h
      simp only [Bool.and_eq_true, decide_eq_true_eq] at h ⊢
      refine ⟨h.1, ih ?_ h.2⟩
      have hs2 : mark.state = s := by rw [← h.1, state_snap]
      rw [hs2]
      exact run_reachable _ hr hs

theorem stuck_20 : (start.run (stuckRun.take 20)).map Invaders.snap = some (stuckSnap 20) := by
  rw [← runFast_eq _ invariant_start]
  decide!

theorem stuck_40 : (start.run (stuckRun.take 40)).map Invaders.snap = some (stuckSnap 40) :=
  run_checkpoint_fast (k := 20) (n := 20) stuck_20 (by decide!)

theorem stuck_60 : (start.run (stuckRun.take 60)).map Invaders.snap = some (stuckSnap 60) :=
  run_checkpoint_fast (k := 40) (n := 20) stuck_40 (by decide!)

theorem stuck_80 : (start.run (stuckRun.take 80)).map Invaders.snap = some (stuckSnap 80) :=
  run_checkpoint_fast (k := 60) (n := 20) stuck_60 (by decide!)

theorem stuck_100 : (start.run (stuckRun.take 100)).map Invaders.snap = some (stuckSnap 100) :=
  run_checkpoint_fast (k := 80) (n := 20) stuck_80 (by decide!)

theorem stuck_120 : (start.run (stuckRun.take 120)).map Invaders.snap = some (stuckSnap 120) :=
  run_checkpoint_fast (k := 100) (n := 20) stuck_100 (by decide!)

theorem stuck_140 : (start.run (stuckRun.take 140)).map Invaders.snap = some (stuckSnap 140) :=
  run_checkpoint_fast (k := 120) (n := 20) stuck_120 (by decide!)

theorem stuck_160 : (start.run (stuckRun.take 160)).map Invaders.snap = some (stuckSnap 160) :=
  run_checkpoint_fast (k := 140) (n := 20) stuck_140 (by decide!)

theorem stuck_180 : (start.run (stuckRun.take 180)).map Invaders.snap = some (stuckSnap 180) :=
  run_checkpoint_fast (k := 160) (n := 20) stuck_160 (by decide!)

theorem stuck_200 : (start.run (stuckRun.take 200)).map Invaders.snap = some (stuckSnap 200) :=
  run_checkpoint_fast (k := 180) (n := 20) stuck_180 (by decide!)

theorem stuck_220 : (start.run (stuckRun.take 220)).map Invaders.snap = some (stuckSnap 220) :=
  run_checkpoint_fast (k := 200) (n := 20) stuck_200 (by decide!)

theorem stuck_240 : (start.run (stuckRun.take 240)).map Invaders.snap = some (stuckSnap 240) :=
  run_checkpoint_fast (k := 220) (n := 20) stuck_220 (by decide!)

theorem stuck_260 : (start.run (stuckRun.take 260)).map Invaders.snap = some (stuckSnap 260) :=
  run_checkpoint_fast (k := 240) (n := 20) stuck_240 (by decide!)

theorem stuck_269 : (start.run (stuckRun.take 269)).map Invaders.snap = some (stuckSnap 269) :=
  run_checkpoint_fast (k := 260) (n := 9) stuck_260 (by decide!)

theorem stuck_270 : (start.run (stuckRun.take 270)).map Invaders.snap = some (stuckSnap 270) :=
  run_checkpoint_fast (k := 269) (n := 1) stuck_269 (by decide!)

theorem stuck_271 : (start.run (stuckRun.take 271)).map Invaders.snap = some (stuckSnap 271) :=
  run_checkpoint_fast (k := 270) (n := 1) stuck_270 (by decide!)

theorem stuck_285 : (start.run (stuckRun.take 285)).map Invaders.snap = some (stuckSnap 285) :=
  run_checkpoint_fast (k := 271) (n := 14) stuck_271 (by decide!)

theorem stuck_299 : (start.run (stuckRun.take 299)).map Invaders.snap = some (stuckSnap 299) :=
  run_checkpoint_fast (k := 285) (n := 14) stuck_285 (by decide!)

theorem stuck_300 : (start.run (stuckRun.take 300)).map Invaders.snap = some (stuckSnap 300) :=
  run_checkpoint_fast (k := 299) (n := 1) stuck_299 (by decide!)

/-- C16 fails on the code: in the run `stuckRun` the right-most column is shot
away around the stop.  After call 269 the velocity is `+2` and the formation
touches the right edge (`mostRight`), so the active tick 270 sets `enemyVelo`
to 0 and drops the formation.  The last member of column 10 is removed on call
271, after which neither edge condition holds; the next active tick 300 leaves
`enemyVelo` at 0 and moves no member, with 50 members live, the player alive and
no reset in between. -/
theorem C16_formation_stuck :
    ((start.run (stuckRun.take 269)).map fun s =>
        (s.step, s.enemyVelo, mostRight s.enemies, s.enemies.length, s.shooterDead))
      = some (269, 2, true, 51, false) ∧
    ((start.run (stuckRun.take 270)).map fun s =>
        (s.step, s.enemyVelo, s.enemies.length, s.shooterDead, s.restartWait))
      = some (270, 0, 51, false, 0) ∧
    ((start.run (stuckRun.take 299)).map fun s =>
        (s.step, s.enemyVelo, s.enemies.length, s.shooterDead))
      = some (299, 0, 50, false) ∧
    ((start.run (stuckRun.take 299)).map fun s =>
        (mostLeft s.enemies, mostRight s.enemies, formationMin s.enemies, formationMax s.enemies))
      = some (false, false, 38, 194) ∧
    ((start.run (stuckRun.take 300)).map fun s =>
        (s.step, s.enemyVelo, s.enemies.length, s.shooterDead, s.restartWait))
      = some (300, 0, 50, false, 0) ∧
    ((start.run (stuckRun.take 299)).map fun s => s.enemies)
      = (start.run (stuckRun.take 300)).map fun s => s.enemies := by
  rw [run_of_snap stuck_269, run_of_snap stuck_270, run_of_snap stuck_299,
    run_of_snap stuck_300]
  refine ⟨by decide!, by decide!, by decide!, by decide!, by decide!, by decide!⟩

/-! ### C15: the first bounce -/

theorem formationAt_free8 : ∀ j, j < 8 →
    mostLeft (formationAt j) = false ∧ mostRight (formationAt j) = false := by
  decide!

theorem formationAt_edge :
    mostLeft (formationAt 8) = false ∧ mostRight (formationAt 8) = true ∧
      formationMax (formationAt 8) = 210 := by
  decide!

theorem formationAt_drop :
    (formationAt 8).map (Character.shift 0 8) = start.enemies.map (Character.shift 16 8) := by
  decide!

theorem dropped_edge :
    mostLeft (start.enemies.map (Character.shift 16 8)) = false ∧
      mostRight (start.enemies.map (Character.shift 16 8)) = true := by
  decide!

theorem dropped_back :
    (start.enemies.map (Character.shift 16 8)).map (Character.shift (-2) 0)
      = start.enemies.map (Character.shift 14 8) := by
  decide!

theorem March_step {k : Nat} {inv inv2 : Invaders} {inp : Input} (hq : March k inv)
    (hk : k + 1 ≤ 300) (hd : inv.shooterDead = false) (hu : inv.Update inp = some inv2)
    (hp : inv2.pressed Key.KeySpace = false) : March (k + 1) inv2 := by
  obtain ⟨q1, q2, q3⟩ := hq
  have hdy : ∀ e ∈ inv.enemies, e.dying = 0 := by
    rcases q3 with ⟨-, -, he⟩ | ⟨-, -, -, he⟩ | ⟨-, -, he⟩ <;> rw [he]
    · exact formationAt_dying _
    · exact shift_dying _ _ _ start_dying
    · exact shift_dying _ _ _ start_dying
  obtain ⟨mid, hmid, m1, m2, m3, m4, -⟩ := Update_unarmed hd q2 hdy hu hp
  obtain ⟨u1, -, -, u4, u5, u6, -, -⟩ := updateEnemyBullets_frame hmid
  refine ⟨by rw [u1, m1, q1]; push_cast; rfl, by rw [u4, m2], ?_⟩
  rw [u5, u6, m3, m4]
  by_cases ha : (inv.step + 1) % 30 = 0
  · obtain ⟨hv, he⟩ := beforeCollisions_active inv inp ha
    rw [hv, he]
    rw [q1] at ha
    rcases q3 with ⟨hk1, qv, qe⟩ | ⟨hk1, hk2, qv, qe⟩ | ⟨hk1, -, -⟩
    · rw [qv, qe]
      by_cases h8 : k / 30 < 8
      · obtain ⟨hl, hr⟩ := formationAt_free8 (k / 30) h8
        have hj2 : (k + 1) / 30 = k / 30 + 1 := by omega
        left
        refine ⟨by omega, ?_, ?_⟩
        · rw [hl, hr]; simp [bounceVelo]
        · rw [hl, hr, hj2, ← formationAt_succ]
          simp [bounceVelo]
      · have h269 : k = 269 := by omega
        have hj : k / 30 = 8 := by omega
        obtain ⟨hl, hr, -⟩ := formationAt_edge
        right; left
        refine ⟨by omega, by omega, ?_, ?_⟩
        · rw [hj, hl, hr]; simp [bounceVelo]
        · rw [hj, hl, hr, ← formationAt_drop]
          simp [bounceVelo]
    · rw [qv, qe]
      have h299 : k = 299 := by omega
      obtain ⟨hl, hr⟩ := dropped_edge
      right; right
      refine ⟨by omega, ?_, ?_⟩
      · rw [hl, hr]; simp [bounceVelo]
      · rw [hl, hr, ← dropped_back]
        simp [bounceVelo]
    · omega
  · obtain ⟨he, hv⟩ := beforeCollisions_inactive inv inp ha
    rw [hv, he]
    rw [q1] at ha
    rcases q3 with ⟨hk1, qv, qe⟩ | ⟨hk1, hk2, qv, qe⟩ | ⟨hk1, -, -⟩
    · have hj2 : (k + 1) / 30 = k / 30 := by omega
      left
      exact ⟨by omega, qv, by rw [qe, hj2]⟩
    · right; left
      exact ⟨by omega, by omega, qv, qe⟩
    · omega

theorem March_run (inps : List Input)
    (hfire : ∀ k, k ≤ 300 → ∀ s, start.run (inps.take k) = some s →
      s.pressed Key.KeySpace = false)
    (halive : ∀ k, k ≤ 300 → ∀ s, start.run (inps.take k) = some s → s.shooterDead = false) :
    ∀ k, k ≤ 300 → k ≤ inps.length →
      ∃ s, start.run (inps.take k) = some s ∧ Reachable s ∧ March k s := by
  intro k
  induction k with
  | zero =>
    intro _ _
    refine ⟨start, rfl, Reachable.init, rfl, rfl, Or.inl ⟨by omega, rfl, ?_⟩⟩
    unfold formationAt
    have : Character.shift (2 * ((0 / 30 : Nat) : ℚ)) 0 = id := by
      funext c
      simp [Character.shift]
    rw [this, List.map_id]
  | succ k ih =>
    intro hk hlen
    obtain ⟨s, hs, hreach, hq⟩ := ih (by omega) (by omega)
    obtain ⟨s2, hs2⟩ := invariant_update_total (reachable_invariant hreach) inps[k]
    have hrun : start.run (inps.take (k + 1)) = some s2 := by
      rw [run_take_succ _ _ _ (by omega), hs]
      exact hs2
    exact ⟨s2, hrun, Reachable.update _ hreach hs2,
      March_step hq hk (halive k (by omega) s hs) hs2 (hfire (k + 1) (by omega) s2 hrun)⟩

/-- C15: in every run from `Init` of 300 calls in which the fire key is never
held and the player is alive after every call, whatever the left/right input
and the random draws: `Update` returns on every call; after each of the calls
1..269 `enemyVelo` is `+2` and the formation is the initial one moved right by
`2 * (k / 30)`, so every member's x grows by 2 at each of the ticks 30, 60, ...,
240 and at no other; after call 269 the right-edge condition holds
(`max = 210`, `pixelsWidth - paddingX - max = -16`); after each of the calls
270..299 `enemyVelo` is 0 and the formation is the one of tick 269 moved down by
8 with x unchanged; after call 300 `enemyVelo` is `-2` and every member's x is 2
less, y unchanged. -/
theorem C15_first_bounce (inps : List Input) (hlen : inps.length = 300)
    (hfire : ∀ k, k ≤ 300 → ∀ s, start.run (inps.take k) = some s →
      s.pressed Key.KeySpace = false)
    (halive : ∀ k, k ≤ 300 → ∀ s, start.run (inps.take k) = some s → s.shooterDead = false) :
    (∀ k, 1 ≤ k → k ≤ 269 → ∃ s, start.run (inps.take k) = some s ∧ s.step = k ∧
        s.enemyVelo = 2 ∧
        s.enemies = start.enemies.map (Character.shift (2 * ((k / 30 : Nat) : ℚ)) 0)) ∧
      (∃ s, start.run (inps.take 269) = some s ∧ formationMax s.enemies = 210 ∧
        (pixelsWidth : ℚ) - (paddingX : ℚ) - formationMax s.enemies = -16 ∧
        mostRight s.enemies = true) ∧
      (∀ k, 270 ≤ k → k ≤ 299 → ∃ s, start.run (inps.take k) = some s ∧ s.step = k ∧
        s.enemyVelo = 0 ∧ s.enemies = start.enemies.map (Character.shift (2 * 8) 8)) ∧
      (∃ s, start.run (inps.take 300) = some s ∧ s.step = 300 ∧ s.enemyVelo = -2 ∧
        s.enemies = start.enemies.map (Character.shift (2 * 8 - 2) 8)) := by
  have hq := March_run inps hfire halive
  refine ⟨?_, ?_, ?_, ?_⟩
  · intro k _ hk
    obtain ⟨s, hs, -, q1, -, q3⟩ := hq k (by omega) (by omega)
    rcases q3 with ⟨-, qv, qe⟩ | ⟨h, -⟩ | ⟨h, -⟩
    · exact ⟨s, hs, q1, qv, qe⟩
    · omega
    · omega
  · obtain ⟨s, hs, -, -, -, q3⟩ := hq 269 (by omega) (by omega)
    rcases q3 with ⟨-, -, qe⟩ | ⟨h, -⟩ | ⟨h, -⟩
    · obtain ⟨-, hr, hm⟩ := formationAt_edge
      have h8 : 269 / 30 = 8 := by decide
      rw [h8] at qe
      refine ⟨s, hs, by rw [qe, hm], ?_, by rw [qe, hr]⟩
      rw [qe, hm]
      decide!
    · omega
    · omega
  · intro k hk1 hk2
    obtain ⟨s, hs, -, q1, -, q3⟩ := hq k (by omega) (by omega)
    rcases q3 with ⟨h, -⟩ | ⟨-, -, qv, qe⟩ | ⟨h, -⟩
    · omega
    · refine ⟨s, hs, q1, qv, ?_⟩
      rw [qe]
      norm_num
    · omega
  · obtain ⟨s, hs, -, q1, -, q3⟩ := hq 300 (by omega) (by omega)
    rcases q3 with ⟨h, -⟩ | ⟨-, h, -⟩ | ⟨-, qv, qe⟩
    · omega
    · omega
    · refine ⟨s, hs, q1, qv, ?_⟩
      rw [qe]
      norm_num

theorem Update_step_le {inv inv2 : Invaders} {inp : Input} (h0 : 0 ≤ inv.step)
    (hu : inv.Update inp = some inv2) :
    0 ≤ inv2.step ∧ inv2.step ≤ inv.step + 1 ∧ (inv.shooterDead = true → inv2.step ≤ inv.step) := by
  by_cases hd : inv.shooterDead = true
  · rw [Update_dead inp hd] at hu
    split at hu
    · simp only [Option.some.injEq] at hu
      rw [← hu]
      have hs : start.step = 0 := rfl
      rw [hs]
      exact ⟨le_refl _, by omega, fun _ => h0⟩
    · simp only [Option.some.injEq] at hu
      rw [← hu]
      exact ⟨h0, by simp, fun _ => le_refl _⟩
  · have hd2 : inv.shooterDead = false := by simpa using hd
    have hs := Update_alive_step hd2 hu
    exact ⟨by omega, by omega, fun h => absurd h hd⟩

theorem run_step_le (inps : List Input) {inv s : Invaders} (h0 : 0 ≤ inv.step)
    (hr : inv.run inps = some s) : 0 ≤ s.step ∧ s.step ≤ inv.step + inps.length := by
  induction inps generalizing inv with
  | nil =>
    simp only [Invaders.run, Option.some.injEq] at hr
    rw [← hr]
    exact ⟨h0, by simp⟩
  | cons i rest ih =>
    simp only [Invaders.run] at hr
    cases hu : inv.Update i with
    | none => rw [hu] at hr; simp at hr
    | some t =>
      rw [hu, Option.some_bind] at hr
      obtain ⟨t0, t1, -⟩ := Update_step_le h0 hu
      obtain ⟨r0, r1⟩ := ih t0 hr
      refine ⟨r0, ?_⟩
      rw [List.length_cons]
      push_cast
      omega

/-- The step counter counts the calls made while the player is alive: a run
whose step counter has grown by the number of its calls has gone through live
states only. -/
theorem alive_of_full_steps (inps : List Input) {inv s : Invaders} (h0 : 0 ≤ inv.step)
    (hr : inv.run inps = some s) (hs : s.step = inv.step + inps.length) :
    ∀ k, k < inps.length → ∀ t, inv.run (inps.take k) = some t → t.shooterDead = false := by
  intro k hk t ht
  by_contra hd
  have hd2 : t.shooterDead = true := by simpa using hd
  have hsplit : inps = inps.take k ++ inps[k] :: inps.drop (k + 1) := by
    rw [← List.drop_eq_getElem_cons hk, List.take_append_drop]
  rw [hsplit, run_append, ht, Option.some_bind] at hr
  simp only [Invaders.run] at hr
  obtain ⟨t0, t1⟩ := run_step_le _ h0 ht
  cases hu : t.Update inps[k] with
  | none => rw [hu] at hr; simp at hr
  | some t2 =>
    rw [hu, Option.some_bind] at hr
    obtain ⟨u0, -, u2⟩ := Update_step_le t0 hu
    obtain ⟨-, r1⟩ := run_step_le _ u0 hr
    have hl1 : (inps.take k).length = k := List.length_take_of_le (by omega)
    have hl2 : (inps.drop (k + 1)).length = inps.length - (k + 1) := List.length_drop _ _
    have := u2 hd2
    rw [hl1] at t1
    rw [hl2] at r1
    rw [hs] at r1
    omega

theorem updateKeys_idle {s : Invaders}
    (hk : s.keys = [Key.KeyLeft, Key.KeyRight, Key.KeySpace]) :
    (s.updateKeys idleInput).pressed = s.pressed := by
  unfold Invaders.updateKeys
  simp [hk, idleInput]

theorem beforeCollisions_shooter (inv : Invaders) (inp : Input) :
    (inv.beforeCollisions inp).shooter
      = (({ inv with step := inv.step + 1 } : Invaders).updateKeys inp).updateShooter.shooter := by
  have h := (moveEnemies_frame
    ((({ inv with step := inv.step + 1 } : Invaders).updateKeys inp).updateShooter.launchBullet.moveBullets)).2.2.2.2.2.1
  have hpre : inv.beforeCollisions inp
      = ((({ inv with step := inv.step + 1 } : Invaders).updateKeys inp).updateShooter.launchBullet.moveBullets).moveEnemies := rfl
  rw [hpre, h]
  show ((({ inv with step := inv.step + 1 } : Invaders).updateKeys inp).updateShooter.launchBullet).shooter = _
  unfold Invaders.launchBullet
  split <;> rfl

/-- The front line of the full formation starts with the member of column 0,
whose `X` is at most `22 + 16`, wherever the formation is during the first 300
ticks. -/
theorem front_left_at : ∀ j, j < 9 →
    ((bottomEnemies (formationAt j)).map fun F => F.head?.map fun e => decide (e.X ≤ 38))
      = some (some true) := by
  decide!

theorem front_left_dropped :
    ((bottomEnemies (start.enemies.map (Character.shift 16 8))).map
        fun F => F.head?.map fun e => decide (e.X ≤ 38)) = some (some true) ∧
      ((bottomEnemies (start.enemies.map (Character.shift 14 8))).map
        fun F => F.head?.map fun e => decide (e.X ≤ 38)) = some (some true) := by
  decide!

theorem head_left {L F : List Character}
    (hc : ((bottomEnemies L).map fun F => F.head?.map fun e => decide (e.X ≤ 38))
      = some (some true))
    (hF : bottomEnemies L = some F) (h : F.length > 0) : (F.get ⟨0, h⟩).X ≤ 38 := by
  rw [hF] at hc
  cases F with
  | nil => simp at h
  | cons a r =>
    simp only [Option.map_some', List.head?_cons, Option.some.injEq, decide_eq_true_eq] at hc
    exact hc

theorem March_front {k : Nat} {s : Invaders} (hq : March k s) {F : List Character}
    (hF : bottomEnemies s.enemies = some F) (h : F.length > 0) : (F.get ⟨0, h⟩).X ≤ 38 := by
  obtain ⟨-, -, q3⟩ := hq
  rcases q3 with ⟨hk, -, he⟩ | ⟨-, -, -, he⟩ | ⟨-, -, he⟩
  · rw [he] at hF
    exact head_left (front_left_at (k / 30) (by omega)) hF h
  · rw [he] at hF
    exact head_left front_left_dropped.1 hF h
  · rw [he] at hF
    exact head_left front_left_dropped.2 hF h

/-- With the random draw 0 the spawn block takes the first front-line member. -/
theorem spawn_left {mid : Invaders} {spawned : List Bullet}
    (hfront : ∀ F, bottomEnemies mid.enemies = some F → ∀ h : F.length > 0,
      (F.get ⟨0, h⟩).X ≤ 38)
    (hb : ∀ b ∈ mid.enemyBullets, b.X ≤ 42)
    (hs : mid.spawnEnemyBullet idleInput = some spawned) : ∀ b ∈ spawned, b.X ≤ 42 := by
  unfold Invaders.spawnEnemyBullet at hs
  have hm : ¬ ((mid.enemies.length : Int) * 2 + 20 = 0) := by omega
  simp only [hm, if_false] at hs
  split at hs
  · cases hF : bottomEnemies mid.enemies with
    | none => rw [hF] at hs; simp at hs
    | some F =>
      rw [hF] at hs
      simp only [Option.map_some', Option.some.injEq] at hs
      split at hs
      · rename_i hpos
        intro b hbm
        rw [← hs] at hbm
        rcases List.mem_append.mp hbm with hbm | hbm
        · exact hb b hbm
        · rw [List.mem_singleton] at hbm
          have hidx : F.get ⟨Intn idleInput.randEnemy F.length, Nat.mod_lt _ hpos⟩
              = F.get ⟨0, hpos⟩ := congrArg F.get (Fin.ext (Nat.zero_mod _))
          have := hfront F hF hpos
          rw [hbm]
          show (F.get ⟨Intn idleInput.randEnemy F.length, Nat.mod_lt _ hpos⟩).X + 4 ≤ 42
          rw [hidx]
          linarith
      · rw [← hs]
        exact hb
  · simp only [Option.some.injEq] at hs
    rw [← hs]
    exact hb

theorem Calm_step {k : Nat} {s s2 : Invaders} (hq : March k s) (hk : k + 1 ≤ 300)
    (hc : Calm s) (hu : s.Update idleInput = some s2) : March (k + 1) s2 ∧ Calm s2 := by
  obtain ⟨-, f2, f3, f4, f5, -, -, -, -, -⟩ := beforeCollisions_frame s idleInput
  have hu0 := hu
  rw [Update_alive idleInput hc.alive] at hu
  obtain ⟨mid, hmid, -, -, -, m2, m3, -, m5, m6, m7, -⟩ :=
    updateCollisions_total (s.beforeCollisions idleInput)
  rw [hmid, Option.some_bind] at hu
  obtain ⟨-, u2, u3, -, u5, -, u7, -⟩ := updateEnemyBullets_frame hu
  have hpress : s2.pressed = s.pressed := by
    rw [u3, m3, f3, updateKeys_idle hc.keys]
  have hq2 : March (k + 1) s2 :=
    March_step hq hk hc.alive hu0 (by rw [hpress]; exact hc.pressed _)
  have hsx : mid.shooter.X = 102 := by
    rw [m6, beforeCollisions_shooter]
    unfold Invaders.updateShooter
    have hp2 : (({ s with step := s.step + 1 } : Invaders).updateKeys idleInput).pressed
        = s.pressed := updateKeys_idle hc.keys
    simp only [hp2, hc.pressed, Bool.false_eq_true, if_false]
    show bounds s.shooter.X 0 ((pixelsWidth - shooterWidth : Int) : ℚ) = 102
    rw [hc.shooterX]
    decide!
  unfold Invaders.updateEnemyBullets at hu
  cases hs : mid.spawnEnemyBullet idleInput with
  | none => rw [hs] at hu; simp at hu
  | some spawned =>
    rw [hs] at hu
    simp only [Option.map_some', Option.some.injEq] at hu
    have hleft : ∀ b ∈ spawned, b.X ≤ 42 :=
      spawn_left (fun F hF h => March_front hq2 (by rw [u5]; exact hF) h)
        (by rw [m5, f4]; exact hc.left) hs
    have hmoved : ∀ b ∈ moveEnemyBullets spawned, b.X ≤ 42 := by
      intro b hb
      rw [moveEnemyBullets_eq] at hb
      obtain ⟨b0, hb0, rfl⟩ := List.mem_map.mp (List.mem_of_mem_filter hb)
      exact hleft b0 hb0
    refine ⟨hq2, ?_, by rw [u7]; exact hsx, by rw [u2, m2, f2]; exact hc.keys,
      by rw [hpress]; exact hc.pressed, ?_⟩
    · rw [← hu]
      show shooterHit mid.shooter mid.shooterDead (moveEnemyBullets spawned) = false
      rw [shooterHit_eq, m7, f5, hc.alive, Bool.false_or]
      rw [Bool.eq_false_iff]
      intro hany
      obtain ⟨b, hb, hin⟩ := List.any_eq_true.mp hany
      obtain ⟨h1, -⟩ := (Inside_iff _ _ _).mp hin
      have := hmoved b hb
      rw [hsx] at h1
      linarith
    · rw [← hu]
      exact hmoved

theorem Calm_run : ∀ k, k ≤ 300 →
    ∃ s, start.run (bounceRun.take k) = some s ∧ Reachable s ∧ March k s ∧ Calm s := by
  have hlen : bounceRun.length = 300 := List.length_replicate _ _
  intro k
  induction k with
  | zero =>
    intro _
    refine ⟨start, rfl, Reachable.init, ⟨rfl, rfl, Or.inl ⟨by omega, rfl, ?_⟩⟩,
      ⟨rfl, by decide!, rfl, fun k => (by cases k <;> rfl), fun b hb => (by cases hb)⟩⟩
    unfold formationAt
    have : Character.shift (2 * ((0 / 30 : Nat) : ℚ)) 0 = id := by
      funext c
      simp [Character.shift]
    rw [this, List.map_id]
  | succ k ih =>
    intro hk
    obtain ⟨s, hs, hreach, hq, hc⟩ := ih (by omega)
    have hkl : k < bounceRun.length := by omega
    have hin : bounceRun[k] = idleInput := by
      unfold bounceRun
      exact List.getElem_replicate _ _
    obtain ⟨s2, hs2⟩ := invariant_update_total (reachable_invariant hreach) idleInput
    have hrun : start.run (bounceRun.take (k + 1)) = some s2 := by
      rw [run_take_succ _ _ _ (by omega), hs, hin]
      exact hs2
    obtain ⟨hq2, hc2⟩ := Calm_step hq hk hc hs2
    exact ⟨s2, hrun, Reachable.update _ hreach hs2, hq2, hc2⟩

theorem bounceRun_alive : ∀ k, k ≤ 300 → ∀ s, start.run (bounceRun.take k) = some s →
    s.shooterDead = false := by
  intro k hk s hs
  obtain ⟨s0, hs0, -, -, hc⟩ := Calm_run k hk
  rw [hs0] at hs
  cases hs
  exact hc.alive

/-- Instance of C15: the run in which no key is ever touched. -/
theorem C15_first_bounce_witness :
    (∀ k, 1 ≤ k → k ≤ 269 → ∃ s, start.run (bounceRun.take k) = some s ∧ s.step = k ∧
        s.enemyVelo = 2 ∧
        s.enemies = start.enemies.map (Character.shift (2 * ((k / 30 : Nat) : ℚ)) 0)) ∧
      (∃ s, start.run (bounceRun.take 269) = some s ∧ formationMax s.enemies = 210 ∧
        (pixelsWidth : ℚ) - (paddingX : ℚ) - formationMax s.enemies = -16 ∧
        mostRight s.enemies = true) ∧
      (∀ k, 270 ≤ k → k ≤ 299 → ∃ s, start.run (bounceRun.take k) = some s ∧ s.step = k ∧
        s.enemyVelo = 0 ∧ s.enemies = start.enemies.map (Character.shift (2 * 8) 8)) ∧
      (∃ s, start.run (bounceRun.take 300) = some s ∧ s.step = 300 ∧ s.enemyVelo = -2 ∧
        s.enemies = start.enemies.map (Character.shift (2 * 8 - 2) 8)) :=
  C15_first_bounce bounceRun (List.length_replicate _ _)
    (fun k _ => idle_never_fires start (bounceRun.take k)
      (fun i hi => by
        have := List.mem_of_mem_take hi
        rw [bounceRun, List.mem_replicate] at this
        rw [this.2]; rfl)
      rfl rfl Reachable.init)
    bounceRun_alive

/-! ### C11: the front line -/

theorem setCell_cell {t t1 : List (List Int)} {col row v : Int}
    (h : setCell t col row v = some t1) :
    cell t1 col.toNat row.toNat = some v ∧
      ∀ c r, ¬ (col.toNat = c ∧ row.toNat = r) → cell t1 c r = cell t c r := by
  unfold setCell at h
  split at h
  · rename_i hc
    have hcn : col.toNat < t.length := by omega
    rw [List.getElem?_eq_getElem hcn] at h
    simp only [] at h
    split at h
    · rename_i hr
      have hrn : row.toNat < t[col.toNat].length := by omega
      simp only [Option.some.injEq] at h
      subst h
      constructor
      · unfold cell
        rw [List.getElem?_set, if_pos rfl, if_pos hcn, Option.some_bind, List.getElem?_set,
          if_pos rfl, if_pos hrn]
      · intro c r hne
        unfold cell
        by_cases hcc : col.toNat = c
        · subst hcc
          have hrr : row.toNat ≠ r := fun hh => hne ⟨rfl, hh⟩
          rw [List.getElem?_set, if_pos rfl, if_pos hcn, Option.some_bind,
            List.getElem?_set_ne hrr, List.getElem?_eq_getElem hcn, Option.some_bind]
        · rw [List.getElem?_set_ne hcc]
    · simp at h
  · simp at h

theorem toNat_key {a b : Character} (ha : a.onGrid) (hb : b.onGrid)
    (hc : a.Col.toNat = b.Col.toNat) (hr : a.Row.toNat = b.Row.toNat) :
    (a.Col, a.Row) = (b.Col, b.Row) := by
  unfold Character.onGrid at ha hb
  have h1 : a.Col = b.Col := by omega
  have h2 : a.Row = b.Row := by omega
  rw [h1, h2]

/-- The table after the filling loop: the cell of every member holds that
member's index, and every cell that is no member's is as before. -/
theorem fillTransposed_cells (es : List Character) (t t2 : List (List Int)) (i : Nat)
    (hg : ∀ e ∈ es, e.onGrid) (hn : (es.map fun e => (e.Col, e.Row)).Nodup)
    (h : fillTransposed t i es = some t2) :
    (∀ k e, es[k]? = some e → cell t2 e.Col.toNat e.Row.toNat = some ((i + k : Nat) : Int)) ∧
      ∀ c r, (∀ e ∈ es, ¬ (e.Col.toNat = c ∧ e.Row.toNat = r)) → cell t2 c r = cell t c r := by
  induction es generalizing t i with
  | nil =>
    simp only [fillTransposed, Option.some.injEq] at h
    subst h
    exact ⟨fun k e hk => (by simp at hk), fun _ _ _ => rfl⟩
  | cons e0 rest ih =>
    simp only [fillTransposed] at h
    cases hs : setCell t e0.Col e0.Row i with
    | none => rw [hs] at h; simp at h
    | some t1 =>
      rw [hs, Option.some_bind] at h
      rw [List.map_cons, List.nodup_cons] at hn
      obtain ⟨hnot, hn2⟩ := hn
      obtain ⟨F1, F2⟩ := ih t1 (i + 1) (fun e he => hg e (List.mem_cons_of_mem _ he)) hn2 h
      obtain ⟨S1, S2⟩ := setCell_cell hs
      have hfresh : ∀ e ∈ rest, ¬ (e.Col.toNat = e0.Col.toNat ∧ e.Row.toNat = e0.Row.toNat) := by
        intro e he hk
        apply hnot
        rw [List.mem_map]
        exact ⟨e, he, toNat_key (hg e (List.mem_cons_of_mem _ he))
          (hg e0 (List.mem_cons_self _ _)) hk.1 hk.2⟩
      constructor
      · intro k e hk
        cases k with
        | zero =>
          simp only [List.getElem?_cons_zero, Option.some.injEq] at hk
          subst hk
          rw [F2 _ _ hfresh, S1]
          rfl
        | succ k =>
          simp only [List.getElem?_cons_succ] at hk
          rw [F1 k e hk]
          congr 2
          omega
      · intro c r hne
        rw [F2 c r (fun e he => hne e (List.mem_cons_of_mem _ he))]
        exact S2 c r (hne e0 (List.mem_cons_self _ _))

theorem lastIndex_concat (l : List Int) (x : Int) :
    lastIndex (l ++ [x]) = if x ≠ -1 then x else lastIndex l := by
  unfold lastIndex
  rw [List.foldl_append]
  rfl

/-- The inner loop of `bottomEnemies` returns `-1` on an entry of `-1`s only, and
otherwise the last cell that is not `-1`. -/
theorem lastIndex_spec (l : List Int) :
    (lastIndex l = -1 ∧ ∀ x ∈ l, x = -1) ∨
      ∃ (R : Nat) (x : Int), l[R]? = some x ∧ x ≠ -1 ∧ lastIndex l = x ∧
        ∀ r : Nat, R < r → ∀ y : Int, l[r]? = some y → y = -1 := by
  induction l using List.reverseRecOn with
  | nil => exact Or.inl ⟨rfl, fun x hx => by cases hx⟩
  | append_singleton l x ih =>
    rw [lastIndex_concat]
    by_cases hx : x ≠ -1
    · rw [if_pos hx]
      right
      refine ⟨l.length, x, List.getElem?_concat_length l x, hx, rfl, ?_⟩
      intro r hr y hy
      rw [List.getElem?_eq_none (by simp; omega)] at hy
      cases hy
    · rw [if_neg hx]
      have hx1 : x = -1 := by simpa using hx
      rcases ih with ⟨h1, h2⟩ | ⟨R, x0, hR, hx0, hl, hlater⟩
      · left
        refine ⟨h1, ?_⟩
        intro y hy
        rcases List.mem_append.mp hy with hy | hy
        · exact h2 y hy
        · rw [List.mem_singleton.mp hy]; exact hx1
      · right
        have hRlt : R < l.length := by
          obtain ⟨hlt, -⟩ := List.getElem?_eq_some_iff.mp hR
          exact hlt
        refine ⟨R, x0, by rw [List.getElem?_append_left hRlt]; exact hR, hx0, hl, ?_⟩
        intro r hr y hy
        by_cases hrl : r < l.length
        · rw [List.getElem?_append_left hrl] at hy
          exact hlater r hr y hy
        · have hrl2 : l.length ≤ r := by omega
          rw [List.getElem?_append_right hrl2] at hy
          have hmem : y ∈ [x] := List.mem_iff_getElem?.mpr ⟨_, hy⟩
          rw [List.mem_singleton.mp hmem]; exact hx1

theorem cell_init {c r : Nat} {v : Int}
    (h : cell (List.replicate characterCols.toNat (List.replicate 5 (-1 : Int))) c r = some v) :
    v = -1 := by
  unfold cell at h
  rw [List.getElem?_replicate] at h
  split at h
  · rw [Option.some_bind, List.getElem?_replicate] at h
    split at h
    · simp only [Option.some.injEq] at h
      exact h.symm
    · cases h
  · cases h

/-- Every entry of the filled table meets `RowSpec` for its column. -/
theorem filled_row (enemies : List Character) (hg : ∀ e ∈ enemies, e.onGrid)
    (hn : (enemies.map fun e => (e.Col, e.Row)).Nodup) (t2 : List (List Int))
    (hfill : fillTransposed (List.replicate characterCols.toNat (List.replicate 5 (-1 : Int))) 0
      enemies = some t2) (c : Nat) (row : List Int) (hrow : t2[c]? = some row) :
    RowSpec enemies c row := by
  obtain ⟨F1, F2⟩ := fillTransposed_cells enemies _ t2 0 hg hn hfill
  have hcell : ∀ r, cell t2 c r = row[r]? := by
    intro r
    unfold cell
    rw [hrow, Option.some_bind]
  have hidx : ∀ e ∈ enemies, e.Col = (c : Int) →
      ∃ k : Nat, enemies[k]? = some e ∧ row[e.Row.toNat]? = some (k : Int) := by
    intro e he hc
    obtain ⟨k, hk⟩ := List.mem_iff_getElem?.mp he
    have h1 := F1 k e hk
    have hct : e.Col.toNat = c := by rw [hc]; rfl
    rw [hct, hcell, Nat.zero_add] at h1
    exact ⟨k, hk, h1⟩
  rcases lastIndex_spec row with ⟨h1, h2⟩ | ⟨R, x, hR, hx, hl, hlater⟩
  · left
    refine ⟨h1, ?_⟩
    intro e he hc
    obtain ⟨k, -, hk⟩ := hidx e he hc
    have := h2 _ (List.mem_iff_getElem?.mpr ⟨_, hk⟩)
    omega
  · right
    have hex : ∃ e ∈ enemies, e.Col.toNat = c ∧ e.Row.toNat = R := by
      by_contra hno
      push_neg at hno
      have h3 := F2 c R (fun e he hk => hno e he hk.1 hk.2)
      rw [hcell, hR] at h3
      exact hx (cell_init h3.symm)
    obtain ⟨e, he, hec, her⟩ := hex
    have hge := hg e he
    unfold Character.onGrid at hge
    have hcol : e.Col = (c : Int) := by omega
    obtain ⟨k, hk, hkr⟩ := hidx e he hcol
    rw [her, hR, Option.some.injEq] at hkr
    refine ⟨k, e, hk, by rw [hl, hkr], hcol, ?_⟩
    intro e2 he2 hc2
    by_contra hgt
    obtain ⟨k2, -, hk2⟩ := hidx e2 he2 hc2
    have hge2 := hg e2 he2
    unfold Character.onGrid at hge2
    have := hlater e2.Row.toNat (by omega) _ hk2
    omega

/-- The outer loop of `bottomEnemies` over the entries of the columns
`c0, c0 + 1, ...`: one member per entry that is not empty, in column order. -/
theorem collectBottom_spec (enemies : List Character) (rows : List (List Int)) (c0 : Nat)
    (hrows : ∀ j row, rows[j]? = some row → RowSpec enemies (c0 + j) row) :
    ∃ bottom, collectBottom enemies rows = some bottom ∧
      bottom.Pairwise (fun a b => a.Col < b.Col) ∧
      (∀ b ∈ bottom, (c0 : Int) ≤ b.Col ∧ b ∈ enemies ∧
        ∀ e ∈ enemies, e.Col = b.Col → e.Row ≤ b.Row) ∧
      ∀ e ∈ enemies, (c0 : Int) ≤ e.Col → e.Col < ((c0 + rows.length : Nat) : Int) →
        ∃ b ∈ bottom, b.Col = e.Col := by
  induction rows generalizing c0 with
  | nil =>
    refine ⟨[], rfl, List.Pairwise.nil, fun b hb => (by cases hb), ?_⟩
    intro e _ h1 h2
    simp only [List.length_nil, Nat.add_zero] at h2
    omega
  | cons row rest ih =>
    obtain ⟨bottom, hb, hpair, hmem, hcover⟩ := ih (c0 + 1) (fun j r hj => by
      have := hrows (j + 1) r (by simpa using hj)
      rwa [show c0 + (j + 1) = c0 + 1 + j by omega] at this)
    have hspec := hrows 0 row (by simp)
    rw [Nat.add_zero] at hspec
    unfold collectBottom
    simp only []
    rcases hspec with ⟨h1, hnone⟩ | ⟨k, e, hk, hl, hcol, hgreat⟩
    · rw [if_pos h1]
      refine ⟨bottom, hb, hpair, ?_, ?_⟩
      · intro b hbm
        obtain ⟨b1, b2, b3⟩ := hmem b hbm
        exact ⟨by push_cast at b1; omega, b2, b3⟩
      · intro e he h1 h2
        have hne := hnone e he
        apply hcover e he
        · push_cast; omega
        · rw [List.length_cons] at h2
          push_cast at h2 ⊢
          omega
    · have hneg : ¬ lastIndex row = -1 := by rw [hl]; omega
      rw [if_neg hneg, if_pos (by rw [hl]; omega), hl, Int.toNat_ofNat, hk, hb]
      simp only [Option.map_some']
      refine ⟨e :: bottom, rfl, ?_, ?_, ?_⟩
      · rw [List.pairwise_cons]
        refine ⟨?_, hpair⟩
        intro b hbm
        obtain ⟨b1, -, -⟩ := hmem b hbm
        push_cast at b1
        omega
      · intro b hbm
        rcases List.mem_cons.mp hbm with rfl | hbm
        · refine ⟨by omega, List.mem_iff_getElem?.mpr ⟨k, hk⟩, ?_⟩
          intro e2 he2 hc2
          exact hgreat e2 he2 (by rw [hc2, hcol])
        · obtain ⟨b1, b2, b3⟩ := hmem b hbm
          exact ⟨by push_cast at b1; omega, b2, b3⟩
      · intro e2 he2 h1 h2
        by_cases hc2 : e2.Col = (c0 : Int)
        · exact ⟨e, List.mem_cons_self _ _, by rw [hcol, hc2]⟩
        · obtain ⟨b, hbm, hbc⟩ := hcover e2 he2 (by push_cast; omega) (by
            rw [List.length_cons] at h2
            push_cast at h2 ⊢
            omega)
          exact ⟨b, List.mem_cons_of_mem _ hbm, hbc⟩

/-- C11: for every list of members with `Col` in `0..10`, `Row` in `0..4` and
pairwise distinct `(Col, Row)`, `bottomEnemies` returns a list `bottom` that is
in strictly ascending column order (so it has at most one member per column),
every member of which is a member of the input with the greatest `Row` of its
column, and in which every column that has a member in the input is
represented; so `bottom` is empty exactly when the input is. -/
theorem C11_front_line (enemies : List Character)
    (hg : ∀ e ∈ enemies, (0 ≤ e.Col ∧ e.Col ≤ 10) ∧ (0 ≤ e.Row ∧ e.Row ≤ 4))
    (hn : (enemies.map fun e => (e.Col, e.Row)).Nodup) :
    ∃ bottom, bottomEnemies enemies = some bottom ∧
      bottom.Pairwise (fun a b => a.Col < b.Col) ∧
      (∀ b ∈ bottom, b ∈ enemies ∧ ∀ e ∈ enemies, e.Col = b.Col → e.Row ≤ b.Row) ∧
      (∀ e ∈ enemies, ∃ b ∈ bottom, b.Col = e.Col) ∧
      (bottom = [] ↔ enemies = []) := by
  have hg2 : ∀ e ∈ enemies, e.onGrid := by
    intro e he
    obtain ⟨⟨h1, h2⟩, h3, h4⟩ := hg e he
    exact ⟨h1, by omega, h3, by omega⟩
  have h0 : TableOK enemies.length
      (List.replicate characterCols.toNat (List.replicate 5 (-1 : Int))) := by
    refine ⟨by simp [characterCols], ?_⟩
    intro r hr
    rw [(List.mem_replicate.mp hr).2]
    refine ⟨by simp, ?_⟩
    intro x hx
    exact Or.inl (List.mem_replicate.mp hx).2
  obtain ⟨t2, hfill, hlen, -⟩ := fillTransposed_ok enemies _ 0 h0 hg2 (by omega)
  obtain ⟨bottom, hb, hpair, hmem, hcover⟩ := collectBottom_spec enemies t2 0
    (fun j row hj => by
      rw [Nat.zero_add]
      exact filled_row enemies hg2 hn t2 hfill j row hj)
  have hbe : bottomEnemies enemies = some bottom := by
    unfold bottomEnemies
    simp only []
    rw [hfill, Option.some_bind, hb]
  have hcov2 : ∀ e ∈ enemies, ∃ b ∈ bottom, b.Col = e.Col := by
    intro e he
    obtain ⟨⟨h1, h2⟩, -⟩ := hg e he
    apply hcover e he
    · simpa using h1
    · rw [hlen]
      push_cast
      omega
  refine ⟨bottom, hbe, hpair, fun b hbm => (hmem b hbm).2, hcov2, ?_⟩
  constructor
  · intro hnil
    cases henem : enemies with
    | nil => rfl
    | cons e rest =>
      obtain ⟨b, hbm, -⟩ := hcov2 e (by rw [henem]; exact List.mem_cons_self _ _)
      rw [hnil] at hbm
      cases hbm
  · intro hnil
    cases hbot : bottom with
    | nil => rfl
    | cons b rest =>
      have := (hmem b (by rw [hbot]; exact List.mem_cons_self _ _)).2.1
      rw [hnil] at this
      cases this

/-- Instance of C11: for the list `scattered` the front line is the row-2 member
of column 0, the row-4 member of column 3 (whatever its dying-counter) and the
row-2 member of column 10, in this order. -/
theorem C11_front_line_witness :
    (bottomEnemies scattered).map (fun bottom => bottom.map fun e => (e.Col, e.Row))
        = some [(0, 2), (3, 4), (10, 2)] ∧
      ∃ bottom, bottomEnemies scattered = some bottom ∧
        bottom.Pairwise (fun a b => a.Col < b.Col) ∧
        (∀ b ∈ bottom, b ∈ scattered ∧ ∀ e ∈ scattered, e.Col = b.Col → e.Row ≤ b.Row) ∧
        (∀ e ∈ scattered, ∃ b ∈ bottom, b.Col = e.Col) ∧
        (bottom = [] ↔ scattered = []) :=
  ⟨by decide!, C11_front_line scattered (by decide!) (by decide!)⟩

/-- In a rigid formation with distinct grid indices (as in every reachable
state) the boxes of two members share no point: when the member `m` holds the
point `(x, y)`, no member listed before it does. -/
theorem rigid_front_clear {front back : List Character} {m : Character} {x y : ℚ}
    (hr : ∃ dx dy : ℚ, ∀ e ∈ front ++ m :: back,
      e.X = 22 + 16 * (e.Col : ℚ) + dx ∧ e.Y = 5 + 16 * (e.Row : ℚ) + dy)
    (hn : ((front ++ m :: back).map fun e => (e.Row, e.Col)).Nodup)
    (hin : m.Inside x y = true) : ∀ e ∈ front, e.Inside x y = false := by
  intro e he
  by_contra hne
  have hie : e.Inside x y = true := by simpa using hne
  obtain ⟨dx, dy, hgrid⟩ := hr
  obtain ⟨ex, ey⟩ := hgrid e (List.mem_append_left _ he)
  obtain ⟨mx, my⟩ := hgrid m (List.mem_append_right _ (List.mem_cons_self _ _))
  obtain ⟨a1, a2, a3, a4⟩ := (Inside_iff e x y).mp hie
  obtain ⟨b1, b2, b3, b4⟩ := (Inside_iff m x y).mp hin
  have hw : (characterWidth : ℚ) = 12 := by decide!
  have hh : (characterHeight : ℚ) = 8 := by decide!
  rw [hw] at a2 b2
  rw [hh] at a4 b4
  rw [ex] at a1 a2
  rw [ey] at a3 a4
  rw [mx] at b1 b2
  rw [my] at b3 b4
  have c1 : (16 * (e.Col - m.Col) : ℚ) ≤ 12 := by linarith
  have c2 : (16 * (m.Col - e.Col) : ℚ) ≤ 12 := by linarith
  have r1 : (16 * (e.Row - m.Row) : ℚ) ≤ 8 := by linarith
  have r2 : (16 * (m.Row - e.Row) : ℚ) ≤ 8 := by linarith
  have c1i : 16 * (e.Col - m.Col) ≤ 12 := by exact_mod_cast c1
  have c2i : 16 * (m.Col - e.Col) ≤ 12 := by exact_mod_cast c2
  have r1i : 16 * (e.Row - m.Row) ≤ 8 := by exact_mod_cast r1
  have r2i : 16 * (m.Row - e.Row) ≤ 8 := by exact_mod_cast r2
  have hcol : e.Col = m.Col := by omega
  have hrow : e.Row = m.Row := by omega
  rw [List.map_append, List.map_cons] at hn
  have hdis := (List.nodup_append.mp hn).2.2
  apply hdis (a := (e.Row, e.Col))
  · exact List.mem_map.mpr ⟨e, he, rfl⟩
  · rw [hrow, hcol]
    exact List.mem_cons_self _ _

/-! ### C21: the formation stays rigid and inside the bounce margins -/

theorem formationMin_le (l : List Character) (m : ℚ) :
    l.foldl (fun m enemy => Min.min enemy.X m) m ≤ m ∧
      ∀ e ∈ l, l.foldl (fun m enemy => Min.min enemy.X m) m ≤ e.X := by
  induction l generalizing m with
  | nil => exact ⟨le_refl _, fun e he => by cases he⟩
  | cons x rest ih =>
    simp only [List.foldl_cons]
    obtain ⟨h1, h2⟩ := ih (Min.min x.X m)
    refine ⟨le_trans h1 (min_le_right _ _), ?_⟩
    intro e he
    rcases List.mem_cons.mp he with rfl | he
    · exact le_trans h1 (min_le_left _ _)
    · exact h2 e he

theorem formationMax_ge (l : List Character) (m : ℚ) :
    m ≤ l.foldl (fun m enemy => Max.max (enemy.X + (characterWidth : ℚ)) m) m ∧
      ∀ e ∈ l, e.X + (characterWidth : ℚ)
        ≤ l.foldl (fun m enemy => Max.max (enemy.X + (characterWidth : ℚ)) m) m := by
  induction l generalizing m with
  | nil => exact ⟨le_refl _, fun e he => by cases he⟩
  | cons x rest ih =>
    simp only [List.foldl_cons]
    obtain ⟨h1, h2⟩ := ih (Max.max (x.X + (characterWidth : ℚ)) m)
    refine ⟨le_trans (le_max_right _ _) h1, ?_⟩
    intro e he
    rcases List.mem_cons.mp he with rfl | he
    · exact le_trans (le_max_left _ _) h1
    · exact h2 e he

/-- A member on the left margin, none beyond it: the left-edge test holds. -/
theorem mostLeft_of_member {l : List Character} (hall : ∀ e ∈ l, 6 ≤ e.X) {e : Character}
    (he : e ∈ l) (hx : e.X = 6) : mostLeft l = true := by
  have hle : formationMin l ≤ 6 := by
    rw [← hx]
    exact (formationMin_le l MaxFloat64).2 e he
  have hge : 6 ≤ formationMin l := by
    unfold formationMin
    rcases formationMin_loop l MaxFloat64 with hm | ⟨e2, he2, hm⟩
    · rw [hm]
      have := MaxFloat64_big
      linarith
    · rw [hm]
      exact hall e2 he2
  have h6 : formationMin l = 6 := le_antisymm hle hge
  unfold mostLeft
  rw [h6]
  decide!

/-- A member on the right margin, none beyond it: the right-edge test holds. -/
theorem mostRight_of_member {l : List Character}
    (hall : ∀ e ∈ l, e.X + (characterWidth : ℚ) ≤ 210) {e : Character}
    (he : e ∈ l) (hx : e.X + (characterWidth : ℚ) = 210) : mostRight l = true := by
  have hge : 210 ≤ formationMax l := by
    rw [← hx]
    exact (formationMax_ge l (-MaxFloat64)).2 e he
  have hle : formationMax l ≤ 210 := by
    unfold formationMax
    rcases formationMax_loop l (-MaxFloat64) with hm | ⟨e2, he2, hm⟩
    · rw [hm]
      have := MaxFloat64_big
      linarith
    · rw [hm]
      exact hall e2 he2
  have h210 : formationMax l = 210 := le_antisymm hle hge
  unfold mostRight
  rw [h210]
  decide!

theorem bounceVelo_right {l r : Bool} {v : ℚ} (h : bounceVelo l r v = 2) : r = false := by
  unfold bounceVelo at h
  cases r
  · rfl
  · simp only [if_true] at h
    split_ifs at h <;> norm_num at h

theorem bounceVelo_left {l r : Bool} {v : ℚ} (hnb : ¬ (l = true ∧ r = true))
    (h : bounceVelo l r v = -2) : l = false := by
  unfold bounceVelo at h
  cases l
  · rfl
  · cases r
    · simp only [if_true, Bool.false_eq_true, if_false] at h
      split_ifs at h <;> norm_num at h
    · exact absurd ⟨rfl, rfl⟩ hnb

/-- The formation step never carries a member over a margin: a step to the
right is taken only when no member is on the right margin, a step to the left
only when none is on the left margin. -/
theorem margins_step {l : List Character} {v : ℚ} {n : Int} {dy : ℚ}
    (hnb : ¬ (mostLeft l = true ∧ mostRight l = true))
    (hp : ∀ e ∈ l, e.X = 22 + 16 * (e.Col : ℚ) + 2 * (n : ℚ) ∧ e.Y = 5 + 16 * (e.Row : ℚ) + dy ∧
      6 ≤ e.X ∧ e.X + (characterWidth : ℚ) ≤ 210) :
    (bounceVelo (mostLeft l) (mostRight l) v = 2 →
        ∀ e ∈ l, e.X + (characterWidth : ℚ) ≤ 208) ∧
      (bounceVelo (mostLeft l) (mostRight l) v = -2 → ∀ e ∈ l, 8 ≤ e.X) := by
  have hw : (characterWidth : ℚ) = 12 := by decide!
  constructor
  · intro hv e he
    have hr := bounceVelo_right hv
    obtain ⟨hx, -, -, h210⟩ := hp e he
    have hne : e.X + (characterWidth : ℚ) ≠ 210 := by
      intro heq
      have := mostRight_of_member (fun e2 he2 => (hp e2 he2).2.2.2) he heq
      rw [hr] at this
      cases this
    rw [hw] at h210 hne ⊢
    rw [hx] at h210 hne ⊢
    have h1 : 22 + 16 * e.Col + 2 * n + 12 ≤ 210 := by exact_mod_cast h210
    have h2 : 22 + 16 * e.Col + 2 * n + 12 ≠ 210 := by exact_mod_cast hne
    have h3 : 22 + 16 * e.Col + 2 * n + 12 ≤ 208 := by omega
    exact_mod_cast h3
  · intro hv e he
    have hl := bounceVelo_left hnb hv
    obtain ⟨hx, -, h6, -⟩ := hp e he
    have hne : e.X ≠ 6 := by
      intro heq
      have := mostLeft_of_member (fun e2 he2 => (hp e2 he2).2.2.1) he heq
      rw [hl] at this
      cases this
    rw [hx] at h6 hne ⊢
    have h1 : 6 ≤ 22 + 16 * e.Col + 2 * n := by exact_mod_cast h6
    have h2 : 22 + 16 * e.Col + 2 * n ≠ 6 := by exact_mod_cast hne
    have h3 : 8 ≤ 22 + 16 * e.Col + 2 * n := by omega
    exact_mod_cast h3

theorem margins_start : Margins start where
  velo := Or.inr (Or.inr rfl)
  place := ⟨0, 0, by decide!⟩

/-- The formation of `beforeCollisions` is inside the margins when the one
before the call is. -/
theorem margins_beforeCollisions {inv : Invaders} (hI : Invariant inv) (hM : Margins inv)
    (inp : Input) :
    ((inv.beforeCollisions inp).enemyVelo = -2 ∨ (inv.beforeCollisions inp).enemyVelo = 0 ∨
        (inv.beforeCollisions inp).enemyVelo = 2) ∧
      ∃ (n : Int) (dy : ℚ), ∀ e ∈ (inv.beforeCollisions inp).enemies,
        e.X = 22 + 16 * (e.Col : ℚ) + 2 * (n : ℚ) ∧ e.Y = 5 + 16 * (e.Row : ℚ) + dy ∧
        6 ≤ e.X ∧ e.X + (characterWidth : ℚ) ≤ 210 := by
  obtain ⟨n, dy, hp⟩ := hM.place
  by_cases ha : (inv.step + 1) % 30 = 0
  · obtain ⟨hv, he⟩ := beforeCollisions_active inv inp ha
    have hnb := invariant_not_both_edges hI
    obtain ⟨sr, sl⟩ := margins_step (v := inv.enemyVelo) hnb hp
    have hrange := bounceVelo_range (mostLeft inv.enemies) (mostRight inv.enemies)
      inv.enemyVelo hM.velo
    rw [hv, he]
    refine ⟨hrange, ?_⟩
    generalize (if ((mostLeft inv.enemies || mostRight inv.enemies) &&
        bounceVelo (mostLeft inv.enemies) (mostRight inv.enemies) inv.enemyVelo == 0) = true
        then (8 : ℚ) else 0) = vy
    rcases hrange with h | h | h
    · refine ⟨n - 1, dy + vy, ?_⟩
      intro e hmem
      obtain ⟨e0, he0, rfl⟩ := List.mem_map.mp hmem
      obtain ⟨hx, hy, h6, h210⟩ := hp e0 he0
      have h8 := sl h e0 he0
      rw [h]
      simp only [Character.shift]
      refine ⟨by rw [hx]; push_cast; ring, by rw [hy]; ring, by linarith, by linarith⟩
    · refine ⟨n, dy + vy, ?_⟩
      intro e hmem
      obtain ⟨e0, he0, rfl⟩ := List.mem_map.mp hmem
      obtain ⟨hx, hy, h6, h210⟩ := hp e0 he0
      rw [h]
      simp only [Character.shift]
      refine ⟨by rw [hx]; ring, by rw [hy]; ring, by linarith, by linarith⟩
    · refine ⟨n + 1, dy + vy, ?_⟩
      intro e hmem
      obtain ⟨e0, he0, rfl⟩ := List.mem_map.mp hmem
      obtain ⟨hx, hy, h6, h210⟩ := hp e0 he0
      have h208 := sr h e0 he0
      rw [h]
      simp only [Character.shift]
      refine ⟨by rw [hx]; push_cast; ring, by rw [hy]; ring, by linarith, by linarith⟩
  · obtain ⟨he, hv⟩ := beforeCollisions_inactive inv inp ha
    rw [hv, he]
    exact ⟨hM.velo, n, dy, hp⟩

theorem margins_update {inv inv2 : Invaders} {inp : Input} (hI : Invariant inv)
    (hM : Margins inv) (hu : inv.Update inp = some inv2) : Margins inv2 := by
  by_cases hd : inv.shooterDead = true
  · rw [Update_dead inp hd] at hu
    split at hu
    · simp only [Option.some.injEq] at hu
      rw [← hu]
      exact margins_start
    · simp only [Option.some.injEq] at hu
      rw [← hu]
      exact ⟨hM.velo, hM.place⟩
  · have hd2 : inv.shooterDead = false := by simpa using hd
    rw [Update_alive inp hd2] at hu
    obtain ⟨mid, hmid, -, hs, -, -, -, mv, -⟩ :=
      updateCollisions_total (inv.beforeCollisions inp)
    rw [hmid, Option.some_bind] at hu
    obtain ⟨-, -, -, -, u5, u6, -, -⟩ := updateEnemyBullets_frame hu
    obtain ⟨bv, n, dy, bp⟩ := margins_beforeCollisions hI hM inp
    refine ⟨by rw [u6, mv]; exact bv, n, dy, ?_⟩
    intro e he
    rw [u5] at he
    obtain ⟨e0, he0, hbody⟩ := body_sublist_mem hs he
    obtain ⟨b1, b2, b3, b4, -⟩ := body_fields hbody
    have := bp e0 he0
    rw [b1, b2, b3, b4] at this
    exact this

theorem reachable_margins {inv : Invaders} (h : Reachable inv) : Margins inv := by
  induction h with
  | init => exact margins_start
  | update inp hr hu ih => exact margins_update (reachable_invariant hr) ih hu

/-- C21: in every state reachable from `Init` by `Update` calls the formation is
rigid with an even horizontal displacement and inside the bounce margins: there
are an integer `n` and a `dy` such that every live member sits at
`(22 + 16 * Col + 2 * n, 5 + 16 * Row + dy)` with `6 ≤ X` and
`X + characterWidth ≤ 210`.  The exact-equality edge tests are never stepped
over: whatever the velocity, when the two `if`s of `moveEnemies` leave it at
`+2` every member has `X + characterWidth ≤ 208`, and when they leave it at
`-2` every member has `8 ≤ X`. -/
theorem C21_rigid_in_margins (inv : Invaders) (h : Reachable inv) :
    (∃ (n : Int) (dy : ℚ), ∀ e ∈ inv.enemies,
        e.X = 22 + 16 * (e.Col : ℚ) + 2 * (n : ℚ) ∧ e.Y = 5 + 16 * (e.Row : ℚ) + dy ∧
        6 ≤ e.X ∧ e.X + (characterWidth : ℚ) ≤ 210) ∧
      (bounceVelo (mostLeft inv.enemies) (mostRight inv.enemies) inv.enemyVelo = 2 →
        ∀ e ∈ inv.enemies, e.X + (characterWidth : ℚ) ≤ 208) ∧
      (bounceVelo (mostLeft inv.enemies) (mostRight inv.enemies) inv.enemyVelo = -2 →
        ∀ e ∈ inv.enemies, 8 ≤ e.X) := by
  have hM := reachable_margins h
  obtain ⟨n, dy, hp⟩ := hM.place
  exact ⟨⟨n, dy, hp⟩, margins_step (invariant_not_both_edges (reachable_invariant h)) hp⟩

/-- Instance of C21: the state after 270 calls of `stuckRun`, in which the
formation has stopped on the right margin (`max = 210`). -/
theorem C21_rigid_in_margins_witness :
    ∃ inv, start.run (stuckRun.take 270) = some inv ∧ formationMax inv.enemies = 210 ∧
      ((∃ (n : Int) (dy : ℚ), ∀ e ∈ inv.enemies,
          e.X = 22 + 16 * (e.Col : ℚ) + 2 * (n : ℚ) ∧ e.Y = 5 + 16 * (e.Row : ℚ) + dy ∧
          6 ≤ e.X ∧ e.X + (characterWidth : ℚ) ≤ 210) ∧
        (bounceVelo (mostLeft inv.enemies) (mostRight inv.enemies) inv.enemyVelo = 2 →
          ∀ e ∈ inv.enemies, e.X + (characterWidth : ℚ) ≤ 208) ∧
        (bounceVelo (mostLeft inv.enemies) (mostRight inv.enemies) inv.enemyVelo = -2 →
          ∀ e ∈ inv.enemies, 8 ≤ e.X)) := by
  have h270 := run_of_snap stuck_270
  exact ⟨_, h270, by decide!, C21_rigid_in_margins _ (run_reachable _ Reachable.init h270)⟩

/-! ### The runs of the counterexamples to C4 and C18 -/

theorem oneShot_follows : start.follows oneShot oneShotMarks = true :=
  follows_of_fast Reachable.init (by decide!)

theorem top_follows : start.follows topRun topMarks = true :=
  follows_of_fast Reachable.init (by decide!)

/-- C4 fails as stated: in the run `oneShot` the member in row 4, column 5 has
dying-counter 0 after call 21 and is hit on call `t = 22`; no bullet exists and
fire is not held after any of the calls 22..30, so it is not hit again; its
counter is 2 after call 30 and it is absent after call 31 `= t + 9`, although
the claim has it in the live set after every call up to `t + 59 = 81`. -/
theorem C4_counterexample :
    ((start.run (oneShot.take 21)).map fun s =>
        (s.step, (s.enemies.filter fun e => decide (e.Row = 4 ∧ e.Col = 5)).map fun e => e.dying))
      = some (21, [0]) ∧
    ((start.run (oneShot.take 22)).map fun s =>
        (s.step, (s.enemies.filter fun e => decide (e.Row = 4 ∧ e.Col = 5)).map fun e => e.dying))
      = some (22, [1]) ∧
    (∀ j ∈ List.range 9,
      ((start.run (oneShot.take (22 + j))).map fun s =>
        (s.bullets, s.pressed Key.KeySpace, s.shooterDead)) = some ([], false, false)) ∧
    ((start.run (oneShot.take 30)).map fun s =>
        (s.step, (s.enemies.filter fun e => decide (e.Row = 4 ∧ e.Col = 5)).map fun e => e.dying))
      = some (30, [2]) ∧
    ((start.run (oneShot.take 31)).map fun s =>
        (s.step, (s.enemies.filter fun e => decide (e.Row = 4 ∧ e.Col = 5)).map fun e => e.dying))
      = some (31, []) ∧
    31 ≤ 22 + 59 := by
  have h9 : ∀ j ∈ List.range 9,
      ((start.run (oneShot.take (22 + j))).map fun s =>
        (s.bullets, s.pressed Key.KeySpace, s.shooterDead)) = some ([], false, false) := by
    intro j hj
    rw [List.mem_range] at hj
    interval_cases j
    · rw [follows_run oneShot_follows 1 (22 + 0) _ _ rfl rfl]; decide!
    · rw [follows_run oneShot_follows 2 (22 + 1) _ _ rfl rfl]; decide!
    · rw [follows_run oneShot_follows 3 (22 + 2) _ _ rfl rfl]; decide!
    · rw [follows_run oneShot_follows 4 (22 + 3) _ _ rfl rfl]; decide!
    · rw [follows_run oneShot_follows 5 (22 + 4) _ _ rfl rfl]; decide!
    · rw [follows_run oneShot_follows 6 (22 + 5) _ _ rfl rfl]; decide!
    · rw [follows_run oneShot_follows 7 (22 + 6) _ _ rfl rfl]; decide!
    · rw [follows_run oneShot_follows 8 (22 + 7) _ _ rfl rfl]; decide!
    · rw [follows_run oneShot_follows 9 (22 + 8) _ _ rfl rfl]; decide!
  rw [follows_run oneShot_follows 0 21 _ _ rfl rfl, follows_run oneShot_follows 1 22 _ _ rfl rfl,
    follows_run oneShot_follows 9 30 _ _ rfl rfl, follows_run oneShot_follows 10 31 _ _ rfl rfl]
  refine ⟨by decide!, by decide!, h9, by decide!, by decide!, by decide⟩

/-- Instance of C4 in the run `oneShot`: the member in row 4, column 5 is hit on
call 22, the next formation step is call 30 (`n = 8`), and the member is absent
after call 31. -/
theorem C4_removal_after_next_step_witness :
    ∃ s1, start.run (oneShot.take 22) = some s1 ∧
      (8 ≤ 30 ∧
        (∀ j, j ≤ 8 → ∃ s, s1.run ((oneShot.drop 22).take j) = some s ∧
          ∃ e ∈ s.enemies, e.Row = 4 ∧ e.Col = 5) ∧
        ∃ s, s1.run (oneShot.drop 22) = some s ∧
          ∀ e ∈ s.enemies, ¬ (e.Row = 4 ∧ e.Col = 5)) := by
  have h1 : ((start.run (oneShot.take 22)).map fun s =>
      (s.step, decide (∃ e ∈ s.enemies, e.Row = 4 ∧ e.Col = 5 ∧ e.dying = 1)))
      = some (22, true) := by
    rw [follows_run oneShot_follows 1 22 _ _ rfl rfl]
    decide!
  have h2 : ∀ j ∈ List.range 9,
      ((start.run (oneShot.take 22 ++ (oneShot.drop 22).take j)).map fun s =>
        (s.shooterDead, (s.beforeCollisions idleInput).bullets)) = some (false, []) := by
    intro j hj
    rw [List.mem_range] at hj
    rw [← List.take_add]
    interval_cases j
    · rw [follows_run oneShot_follows 1 (22 + 0) _ _ rfl rfl]; decide!
    · rw [follows_run oneShot_follows 2 (22 + 1) _ _ rfl rfl]; decide!
    · rw [follows_run oneShot_follows 3 (22 + 2) _ _ rfl rfl]; decide!
    · rw [follows_run oneShot_follows 4 (22 + 3) _ _ rfl rfl]; decide!
    · rw [follows_run oneShot_follows 5 (22 + 4) _ _ rfl rfl]; decide!
    · rw [follows_run oneShot_follows 6 (22 + 5) _ _ rfl rfl]; decide!
    · rw [follows_run oneShot_follows 7 (22 + 6) _ _ rfl rfl]; decide!
    · rw [follows_run oneShot_follows 8 (22 + 7) _ _ rfl rfl]; decide!
    · rw [follows_run oneShot_follows 9 (22 + 8) _ _ rfl rfl]; decide!
  cases hs : start.run (oneShot.take 22) with
  | none => rw [hs] at h1; simp at h1
  | some s1 =>
    rw [hs] at h1
    simp only [Option.map_some', Option.some.injEq, Prod.mk.injEq, decide_eq_true_eq] at h1
    have h3 : ∀ j, j ≤ 8 → ∀ s, s1.run ((oneShot.drop 22).take j) = some s →
        s.shooterDead = false ∧ (s.beforeCollisions idleInput).bullets = [] := by
      intro j hj s hsj
      have := h2 j (List.mem_range.mpr (by omega))
      rw [run_append, hs, Option.some_bind, hsj] at this
      simpa using this
    refine ⟨s1, rfl, C4_removal_after_next_step s1 (oneShot.drop 22) 4 5 8
      (run_reachable _ Reachable.init hs) h1.2 (by decide) (by rw [h1.1]; decide)
      (fun j h1j hj8 => by rw [h1.1]; omega) (by decide)
      (fun j hj s hsj => (h3 j hj s hsj).1) ?_⟩
    intro s i hsj hi b hb
    have hidle : idleInput = i := Option.some.inj hi
    rw [← hidle, (h3 7 (by decide) s hsj).2] at hb
    cases hb

/-- Instance of C18: the state after 51 calls of `topRun`, whose one live bullet
is at `y = -3`. -/
theorem C18_bullet_floor_witness :
    ∃ inv, start.run (topRun.take 51) = some inv ∧ inv.bullets = [⟨94, -3⟩] ∧
      ((∀ b ∈ inv.bullets, -(bulletSpeed : ℚ) ≤ b.Y) ∧
        (∀ s : Invaders, ∀ b ∈ s.moveBullets.bullets, -(bulletSpeed : ℚ) ≤ b.Y) ∧
        (∀ s : Invaders, s.moveBullets.bullets
          = (s.bullets.filter fun b => !decide (b.Y < 0)).map
              fun b => ({ X := b.X, Y := b.Y - (bulletSpeed : ℚ) } : Point)) ∧
        bulletSpeed = 4) := by
  have h51 := follows_run top_follows 2 51 _ _ rfl rfl
  exact ⟨_, h51, rfl, C18_bullet_floor _ (run_reachable _ Reachable.init h51)⟩

/-- C18 fails as stated: in the run `topRun` the bullet fired on call 10 is at
`y = 1` after call 50, and after call 51 it is still live at `y = -3 < 0`; it
is gone after call 52. -/
theorem C18_counterexample :
    ((start.run (topRun.take 50)).map fun s => s.bullets) = some [⟨94, 1⟩] ∧
      ((start.run (topRun.take 51)).map fun s => s.bullets) = some [⟨94, -3⟩] ∧
      ((start.run (topRun.take 51)).map fun s => s.bullets.all fun b => decide (0 ≤ b.Y))
        = some false ∧
      ((start.run (topRun.take 52)).map fun s => s.bullets) = some [] := by
  rw [follows_run top_follows 1 50 _ _ rfl rfl, follows_run top_follows 2 51 _ _ rfl rfl,
    follows_run top_follows 3 52 _ _ rfl rfl]
  refine ⟨by decide!, by decide!, by decide!, by decide!⟩

/-! ### C17: one bullet marks the first member that holds it -/

/-- C17: in every state that `Update`, called on a state reachable from `Init`,
hands to `updateCollisions`, with one player bullet whose point
`(X + bulletOffset, Y)` lies inside the box of a member `m` with dying-counter
0: no member listed before `m` holds the point, so `m` is the first such member
in list order; the call returns with the player-bullet list empty; `m` is still
in the live set, at its place, with dying-counter 1 and unchanged position; and
every other member with dying-counter 0 is in the live set unchanged (the call
does to the other members what it does without a bullet). -/
theorem C17_first_member_marked (s : Invaders) (inp : Input) (b : Point)
    (front back : List Character) (m : Character) (hs : Reachable s)
    (hb : (s.beforeCollisions inp).bullets = [b])
    (he : (s.beforeCollisions inp).enemies = front ++ m :: back)
    (hm : m.dying = 0) (hin : m.Inside (b.X + (bulletOffset : ℚ)) b.Y = true) :
    (∀ e ∈ front, e.Inside (b.X + (bulletOffset : ℚ)) b.Y = false) ∧
    ∃ inv2, (s.beforeCollisions inp).updateCollisions = some inv2 ∧ inv2.bullets = [] ∧
      inv2.enemies
        = survivors (s.beforeCollisions inp).step front ++
            { m with dying := 1 } :: survivors (s.beforeCollisions inp).step back ∧
      ({ m with dying := 1 } : Character) ∈ inv2.enemies ∧
      (∀ e ∈ front ++ back, e.dying = 0 → e ∈ inv2.enemies) ∧
      (∀ e : Character, e.dying = 0 → advance (s.beforeCollisions inp).step e = e) := by
  have hI := invariant_beforeCollisions (reachable_invariant hs) inp
  have hfront : ∀ e ∈ front, e.Inside (b.X + (bulletOffset : ℚ)) b.Y = false :=
    rigid_front_clear (he ▸ hI.rigid) (he ▸ hI.nodup) hin
  obtain ⟨inv2, hu, hbul, hen, hother, hadv⟩ :=
    first_hit_marked (s.beforeCollisions inp) b front back m hb he hm hin
      (fun e hef _ => hfront e hef) (fun e hef _ _ => hfront e hef)
  refine ⟨hfront, inv2, hu, hbul, hen, ?_, hother, hadv⟩
  rw [hen]
  exact List.mem_append_right _ (List.mem_cons_self _ _)

/-- Instance of C17 in the run `oneShot`: after 21 calls the bullet launched on
the first call is at `(102, 81)`; call 22 moves it to `(102, 77)`, and its point
`(109, 77)` is inside the box `[102, 114] × [69, 77]` of the member in row 4,
column 5, the 50th of the list; `updateCollisions` marks that member. -/
theorem C17_first_member_marked_witness :
    ∃ s, start.run (oneShot.take 21) = some s ∧
      ((∀ e ∈ (gridAt 0 0 [] []).take 49,
          e.Inside ((⟨102, 77⟩ : Point).X + (bulletOffset : ℚ)) (⟨102, 77⟩ : Point).Y = false) ∧
      ∃ inv2, (s.beforeCollisions idleInput).updateCollisions = some inv2 ∧ inv2.bullets = [] ∧
        inv2.enemies
          = survivors (s.beforeCollisions idleInput).step ((gridAt 0 0 [] []).take 49) ++
              { ({ Row := 4, Col := 5, X := 102, Y := 69, character := octopus, dying := 0 } :
                  Character) with dying := 1 } ::
              survivors (s.beforeCollisions idleInput).step ((gridAt 0 0 [] []).drop 50) ∧
        ({ ({ Row := 4, Col := 5, X := 102, Y := 69, character := octopus, dying := 0 } :
            Character) with dying := 1 } : Character) ∈ inv2.enemies ∧
        (∀ e ∈ (gridAt 0 0 [] []).take 49 ++ (gridAt 0 0 [] []).drop 50,
          e.dying = 0 → e ∈ inv2.enemies) ∧
        (∀ e : Character, e.dying = 0 → advance (s.beforeCollisions idleInput).step e = e)) :=
  have h21 := follows_run oneShot_follows 0 21 _ _ rfl rfl
  ⟨_, h21, C17_first_member_marked _ idleInput ⟨102, 77⟩ ((gridAt 0 0 [] []).take 49)
    ((gridAt 0 0 [] []).drop 50)
    { Row := 4, Col := 5, X := 102, Y := 69, character := octopus, dying := 0 }
    (run_reachable _ Reachable.init h21) (by decide!) (by decide!) rfl (by decide!)⟩

end Main
